import Mathlib

/-!
The take-me-out runner: a shallow embedding of the untrusted-code execution core.

Source tree: `ICC_2025/ad/take-me-out/runner` (`main.go`, `go_helper.go`, `testdata.go`,
`seed.go`, `internal/sandbox/sandbox.go`, `internal/gohelper/gohelper.go`,
`cmd/chroot-run/main.go`) and `ICC_2025/ad/take-me-out/patchable/web` (`queue.go`, `db.go`).

Conventions of the embedding

* A Go `string` / `[]byte` is a list of bytes (`GoString`).  Literals are written
  `str "..."`, the UTF-8 encoding of the Lean literal.
* The host (file system, environment variables, database, child processes, clocks)
  is an oracle `Host`.  Every effectful operation consults the oracle at the current
  tick of the `World` and advances the tick, so that a run of the program is a
  deterministic function of the oracle and theorems quantify over all oracles.
* The `World` also carries a ghost trace of the sandbox operations performed, in
  program order.
-/

set_option autoImplicit false

namespace TakeMeOut

/-! ## Go strings -/

/-- A Go string: a finite sequence of bytes. -/
abbrev GoString := List Nat

/-- UTF-8 encoding of a code point (shortest form). -/
def utf8Encode (c : Nat) : List Nat :=
  if c < 0x80 then [c]
  else if c < 0x800 then [0xC0 + c / 64, 0x80 + c % 64]
  else if c < 0x10000 then [0xE0 + c / 4096, 0x80 + c / 64 % 64, 0x80 + c % 64]
  else [0xF0 + c / 262144, 0x80 + c / 4096 % 64, 0x80 + c / 64 % 64, 0x80 + c % 64]

/-- The Go string denoted by a literal. -/
def str (s : String) : GoString := s.data.flatMap (fun c => utf8Encode c.toNat)

/-- Go `strings.HasPrefix`. -/
def HasPrefix (s p : GoString) : Bool := p.isPrefixOf s

/-- Go `strings.HasSuffix`. -/
def HasSuffix (s p : GoString) : Bool := p.reverse.isPrefixOf s.reverse

/-- Go `strings.TrimPrefix`. -/
def TrimPrefix (s p : GoString) : GoString := if HasPrefix s p then s.drop p.length else s

/-- The code points for which `unicode.IsSpace` holds: the Latin-1 cases of its switch
and the `White_Space` range table above Latin-1. -/
def whiteSpaceRunes : List Nat :=
  [0x09, 0x0A, 0x0B, 0x0C, 0x0D, 0x20, 0x85, 0xA0, 0x1680,
   0x2000, 0x2001, 0x2002, 0x2003, 0x2004, 0x2005, 0x2006, 0x2007, 0x2008, 0x2009, 0x200A,
   0x2028, 0x2029, 0x202F, 0x205F, 0x3000]

/-- The byte sequences that decode to a white-space rune.  Go decodes only shortest-form
UTF-8 and maps every malformed byte to U+FFFD (not a space), so a rune decoded at the start
(or at the end) of a string is a space exactly when the string starts (ends) with one of
these sequences. -/
def spaceEncodings : List GoString := whiteSpaceRunes.map utf8Encode

/-- Width in bytes of the white-space rune at the head of `s` under the encodings `pats`,
`0` when the head is not a white-space rune. -/
def headWidth (pats : List GoString) (s : GoString) : Nat :=
  match pats.find? (fun p => p.isPrefixOf s) with
  | some p => p.length
  | none => 0

/-- Drop runes of `pats` from the head of `s`; the first argument bounds the number of runes
dropped (`s.length` always suffices, see `stripHead_headWidth`). -/
def stripHead (pats : List GoString) : Nat → GoString → GoString
  | 0, s => s
  | fuel + 1, s =>
    match headWidth pats s with
    | 0 => s
    | n + 1 => stripHead pats fuel (s.drop (n + 1))

/-- Go `strings.TrimLeftFunc(s, unicode.IsSpace)`. -/
def TrimLeftSpace (s : GoString) : GoString := stripHead spaceEncodings s.length s

/-- Go `strings.TrimRightFunc(s, unicode.IsSpace)`: the same scan from the end of the string. -/
def TrimRightSpace (s : GoString) : GoString :=
  (stripHead (spaceEncodings.map List.reverse) s.length s.reverse).reverse

/-- Go `strings.TrimSpace`: all leading and trailing Unicode white space removed. -/
def TrimSpace (s : GoString) : GoString := TrimRightSpace (TrimLeftSpace s)

/-- Lower-casing of one byte in the ASCII range. -/
def toLowerByte (c : Nat) : Nat := if 65 ≤ c ∧ c ≤ 90 then c + 32 else c

/-- Go `strings.ToLower`, as far as the comparison of its result with an ASCII text goes, which
is all the runner does with it.  ASCII letters are mapped as Go maps them, and so are the two
runes outside ASCII that lower-case into ASCII: U+0130 (bytes `C4 B0`) to `i` and U+212A
(bytes `E2 84 AA`) to `k`.  Every other byte outside ASCII is kept, where Go writes some rune
outside ASCII; so the result is an ASCII text exactly when Go's is, and then it is Go's. -/
def ToLower : GoString → GoString
  | 196 :: 176 :: rest => 105 :: ToLower rest
  | 226 :: 132 :: 170 :: rest => 107 :: ToLower rest
  | c :: rest => toLowerByte c :: ToLower rest
  | [] => []

/-- Decimal digits of `n` as ASCII bytes, least significant first; the first argument bounds
the number of digits (`n + 1` always suffices). -/
def digitsRev : Nat → Nat → List Nat
  | 0, _ => []
  | fuel + 1, n => if n < 10 then [48 + n] else (48 + n % 10) :: digitsRev fuel (n / 10)

/-- Go `strconv.Itoa` on a natural number. -/
def Itoa (n : Nat) : GoString := (digitsRev (n + 1) n).reverse

/-! ## Paths (`path/filepath`, Unix) -/

/-- The path separator. -/
def slash : Nat := 47

/-- One element of `filepath.Clean`'s scan; `st` is the output so far, last element first. -/
def cleanStep (rooted : Bool) (st : List GoString) (c : GoString) : List GoString :=
  if c = [] ∨ c = str "." then st
  else if c = str ".." then
    match st with
    | [] => if rooted then [] else [c]
    | top :: rest => if top = str ".." ∧ rooted = false then c :: st else rest
  else c :: st

/-- The elements `filepath.Clean` keeps, first element first. -/
def cleanElems (p : GoString) : List GoString :=
  ((p.splitOn slash).foldl (cleanStep (p.head? = some slash)) []).reverse

/-- Go `filepath.Clean`: empty elements and `.` are dropped, an inner `..` removes the element
before it, `..` at the start of a rooted path is dropped; the empty result is `.`. -/
def Clean (p : GoString) : GoString :=
  if p = [] then str "."
  else if p.head? = some slash then slash :: [slash].intercalate (cleanElems p)
  else if cleanElems p = [] then str "."
  else [slash].intercalate (cleanElems p)

/-- Go `filepath.Join`: the elements from the first non-empty one on, joined by the separator
and cleaned; the empty string when every element is empty. -/
def Join (elems : List GoString) : GoString :=
  match elems.dropWhile (fun e => e = []) with
  | [] => []
  | e :: es => Clean ([slash].intercalate (e :: es))

/-! ## The host oracle and the world -/

/-- Type `sandbox.RLimits`. -/
structure RLimits where
  CPUSeconds : Int := 0
  ASBytes : Int := 0
  FSizeBytes : Int := 0
  NProc : Int := 0
  NOFile : Int := 0
  OutputLimit : Int := 0
  deriving DecidableEq, Repr

/-- Type `sandbox.PrepareRunRootOptions`. -/
structure PrepareRunRootOptions where
  ForGoBuilder : Bool := false
  ForCBuilder : Bool := false
  FlagDestinations : List GoString := []
  deriving DecidableEq, Repr

/-- Outcome of `os.Stat`. -/
inductive StatResult where
  | ok (isDir : Bool) (perm : Nat)
  | notExist
  | failed
  deriving DecidableEq, Repr

/-- Kind of a directory entry, as `buildEnvMounts` distinguishes them. -/
inductive EntryKind where
  | symlink
  | dir
  | file
  deriving DecidableEq, Repr

/-- An `os.DirEntry` of the template root. -/
structure DirEntry where
  name : GoString
  kind : EntryKind
  perm : Nat := 0o755
  deriving DecidableEq, Repr

/-- What `os.ReadFile` finds at a capture path. -/
inductive FileRead where
  | notExist
  | failed
  | data (bytes : GoString)
  deriving DecidableEq, Repr

/-- Type `sandbox.RunResult`. -/
structure RunResult where
  Stdout : GoString := []
  Stderr : GoString := []
  deriving DecidableEq, Repr

/-- Everything the runner observes of one `RunInChroot` call: the value returned, the
capture files the command left in the workspace, the elapsed time and the state of the two
deadline contexts when the call returns. -/
structure RunReply where
  configErr : Bool := false
  res : RunResult := {}
  err : Option GoString := none
  stdoutFile : FileRead := FileRead.notExist
  stderrFile : FileRead := FileRead.notExist
  durMs : Int := 0
  execDeadline : Bool := false
  globalDeadline : Bool := false
  deriving DecidableEq, Repr

/-- Type `runner.RunResponse` (and `gohelper.Response`, which has the same fields). -/
structure RunResponse where
  Result : GoString
  Output : GoString := []
  DurationMs : Int := 0
  FailedIndex : Int := 0
  Expected : GoString := []
  deriving DecidableEq, Repr

/-- What the runner observes of the go-helper child process: whether `cmd.Run` failed,
whether its context deadline was exceeded, whether anything was written to the combined
buffer, and what `parseHelperResponse` extracts from it. -/
structure HelperReply where
  runErr : Bool := false
  timedOut : Bool := false
  outputEmpty : Bool := false
  parsed : Option RunResponse := none
  deriving DecidableEq, Repr

/-- Outcome of a database query: the query fails, or it yields rows (already in the order of
its `ORDER BY`), possibly with a row that fails to scan. -/
inductive QueryResult where
  | failed
  | rows (rs : List (GoString × GoString)) (scanFails : Bool)
  deriving DecidableEq, Repr

/-- The host the runner executes on. -/
structure Host where
  /-- Go `os.Getenv`. -/
  getenv : GoString → GoString
  /-- Go `os.TempDir()`. -/
  tempDir : GoString
  /-- Go `filepath.EvalSymlinks`, `none` on error. -/
  evalSymlinks : GoString → Option GoString
  /-- Go `os.Stat` on the host file system outside the run-roots. -/
  stat : GoString → StatResult
  /-- Go `os.ReadDir`, `none` on error. -/
  readDir : GoString → Option (List DirEntry)
  /-- Whether the fallible file-system operation issued at a tick fails. -/
  fault : Nat → Bool
  /-- What the `RunInChroot` call issued at a tick observes. -/
  sandbox : Nat → RunReply
  /-- Output and failure of the `RunOnHost` call issued at a tick. -/
  hostRun : Nat → GoString × Bool
  /-- The go-helper child process started at a tick. -/
  helper : Nat → HelperReply
  /-- Whether `time.Now()` is after the global deadline at a tick. -/
  pastDeadline : Nat → Bool
  /-- Rows of `sample_cases` of a challenge, ordered by `idx`. -/
  sampleCases : GoString → QueryResult
  /-- Rows of `judge_cases` of a challenge, ordered by `idx`. -/
  judgeCases : GoString → QueryResult

/-- Which call site issued a `RunInChroot` (ghost label of the trace). -/
inductive RunKind where
  | compile
  | test (i : Nat)
  | single
  deriving DecidableEq, Repr

/-- Sandbox operations, as recorded in the trace. -/
inductive Event where
  /-- Entry of `PrepareRunRootWithOptions`. -/
  | prepare (language : GoString) (opts : PrepareRunRootOptions)
  /-- Go `os.MkdirTemp` created the per-run directory for the given call. -/
  | created (root : GoString) (language : GoString) (opts : PrepareRunRootOptions)
  /-- Go `os.RemoveAll` removed a per-run directory. -/
  | removed (root : GoString)
  /-- A call of `RunInChroot`. -/
  | run (kind : RunKind) (root : GoString) (workdir : GoString) (argv : List GoString)
      (stdin : GoString) (useChrootRunner : Bool)
  /-- A call of `RunOnHost`. -/
  | hostRun (argv : List GoString)
  /-- A file was written on the host. -/
  | writeFile (path : GoString) (data : GoString)
  /-- The go-helper child process was started. -/
  | helper (args : List GoString)
  deriving DecidableEq, Repr

/-- The part of the state the program changes. -/
structure World where
  /-- Index of the next oracle answer. -/
  tick : Nat := 0
  /-- Number of temporary directories created so far. -/
  temps : Nat := 0
  /-- Per-run directories currently on disk. -/
  live : List GoString := []
  /-- Operations performed so far, oldest first. -/
  trace : List Event := []
  deriving DecidableEq, Repr

namespace World

/-- Advance to the next oracle answer. -/
def next (w : World) : World := { w with tick := w.tick + 1 }

/-- Record an operation. -/
def log (w : World) (e : Event) : World := { w with trace := w.trace ++ [e] }

/-- Go `os.RemoveAll` on a per-run directory. -/
def remove (w : World) (root : GoString) : World :=
  { w with live := w.live.filter (fun d => d ≠ root), trace := w.trace ++ [Event.removed root] }

/-- Go `os.MkdirTemp` has created the per-run directory `root`. -/
def created (w : World) (root language : GoString) (opts : PrepareRunRootOptions) : World :=
  { w with temps := w.temps + 1, live := root :: w.live,
           trace := w.trace ++ [Event.created root language opts] }

end World

/-! ## `internal/sandbox/sandbox.go` -/

/-- Path of the chroot-entry helper on the host (`chrootRunPath`). -/
def chrootRunPath : GoString := str "/usr/local/bin/chroot-run"

/-- One bind mount of a run-root. -/
structure bindMount where
  host : GoString
  target : GoString
  readOnly : Bool
  deriving DecidableEq, Repr

/-- Type `sandbox.RunRoot`.  The `cleanup` closure is either `os.RemoveAll(Root)` or the no-op
installed under `SANDBOX_KEEP_RUNROOT=1`; `cleanupRemoves` says which. -/
structure RunRoot where
  Root : GoString := []
  WorkHost : GoString := []
  WorkInside : GoString := []
  WorkspaceHost : GoString := []
  WorkspaceInside : GoString := []
  WorkspaceRelative : GoString := []
  TmpHost : GoString := []
  TmpInside : GoString := []
  ChrootBin : GoString := []
  EnvRoot : GoString := []
  mounts : List bindMount := []
  cleanupRemoves : Bool := true
  deriving DecidableEq, Repr

namespace RunRoot

/-- Method `WorkDir`. -/
def WorkDir (rr : RunRoot) : GoString := if rr.WorkInside = [] then str "/env" else rr.WorkInside

/-- Method `WorkspaceDir`. -/
def WorkspaceDir (rr : RunRoot) : GoString :=
  if rr.WorkspaceInside = [] then rr.WorkDir else rr.WorkspaceInside

/-- Method `WorkspaceRel`. -/
def WorkspaceRel (rr : RunRoot) : GoString :=
  if rr.WorkspaceRelative = [] then str "/" else rr.WorkspaceRelative

/-- Method `TmpDir`. -/
def TmpDir (rr : RunRoot) : GoString := if rr.TmpInside = [] then str "/tmp" else rr.TmpInside

/-- Method `Cleanup`. -/
def Cleanup (rr : RunRoot) (w : World) : World := if rr.cleanupRemoves then w.remove rr.Root else w

end RunRoot

/-- The top-level names of the template root that `buildEnvMounts` skips. -/
def skipNames : List GoString :=
  [str "tmp", str "dev", str "proc", str "sys", str "run", str "work", str "mnt", str "media"]

/-- The loop of `buildEnvMounts` over the sorted entries.  A symlink costs three fallible
operations (`Readlink`, `MkdirAll`, `Symlink`), any other entry two (`Info`,
`ensurePlaceholder`). -/
def envMountsLoop (h : Host) (root envRoot : GoString) :
    List DirEntry → List bindMount → World → Option (List bindMount) × World
  | [], acc, w => (some acc, w)
  | e :: es, acc, w =>
    if e.name = str "." ∨ e.name = str ".." then envMountsLoop h root envRoot es acc w
    else if e.name ∈ skipNames then envMountsLoop h root envRoot es acc w
    else
      let hostPath := Join [envRoot, e.name]
      let target := Join [root, e.name]
      if e.kind = EntryKind.symlink then
        if h.fault w.tick then (none, w.next)
        else if h.fault (w.tick + 1) then (none, w.next.next)
        else if h.fault (w.tick + 2) then (none, w.next.next.next)
        else envMountsLoop h root envRoot es acc w.next.next.next
      else
        if h.fault w.tick then (none, w.next)
        else if h.fault (w.tick + 1) then (none, w.next.next)
        else envMountsLoop h root envRoot es
          (acc ++ [{ host := hostPath, target := target, readOnly := true }]) w.next.next

/-- Function `buildEnvMounts`: one read-only mount per top-level entry of the template root
that is neither skipped nor a symlink, in the order of the entry names. -/
def buildEnvMounts (h : Host) (root envRoot : GoString) (w : World) :
    Option (List bindMount) × World :=
  match h.readDir envRoot with
  | none => (none, w)
  | some entries =>
    envMountsLoop h root envRoot
      (entries.insertionSort (fun a b => a.name ≤ b.name)) [] w

/-- The device nodes `buildDeviceMounts` offers. -/
def devicePaths : List GoString :=
  [str "/dev/null", str "/dev/zero", str "/dev/urandom", str "/dev/random", str "/dev/tty"]

/-- The loop of `buildDeviceMounts`: a device that is absent on the host, or whose placeholder
cannot be created, is left out. -/
def deviceMountsLoop (h : Host) (root : GoString) :
    List GoString → List bindMount → World → List bindMount × World
  | [], acc, w => (acc, w)
  | d :: ds, acc, w =>
    match h.stat d with
    | StatResult.ok _ _ =>
      if h.fault w.tick then deviceMountsLoop h root ds acc w.next
      else deviceMountsLoop h root ds
        (acc ++ [{ host := d, target := Join [root, TrimPrefix d (str "/")], readOnly := false }])
        w.next
    | _ => deviceMountsLoop h root ds acc w

/-- Function `buildDeviceMounts`. -/
def buildDeviceMounts (h : Host) (root : GoString) (w : World) : List bindMount × World :=
  deviceMountsLoop h root devicePaths [] w

/-- The de-duplication key of `dedupeAndSortMounts`. -/
def mountKey (m : bindMount) : GoString := m.host ++ str "->" ++ m.target

/-- The first loop of `dedupeAndSortMounts`: keep the first mount of every key. -/
def dedupeMounts : List GoString → List bindMount → List bindMount
  | _, [] => []
  | seen, m :: ms =>
    if mountKey m ∈ seen then dedupeMounts seen ms
    else m :: dedupeMounts (mountKey m :: seen) ms

/-- The `less` function passed to `sort.Slice`. -/
def mountLess (a b : bindMount) : Bool :=
  if a.target = b.target then
    if a.host = b.host then (!a.readOnly && b.readOnly)
    else decide (a.host < b.host)
  else decide (a.target < b.target)

/-- Function `dedupeAndSortMounts`.  After the first loop no two mounts agree on host and
target, so `less` is a strict total order on them and every sorting algorithm returns the
same list; insertion sort stands for `sort.Slice`. -/
def dedupeAndSortMounts (mounts : List bindMount) : List bindMount :=
  (dedupeMounts [] mounts).insertionSort (fun a b => mountLess b a = false)

/-- The loop of `PrepareRunRootWithOptions` over the flag targets: every new cleaned
destination gets a placeholder (one fallible operation) and a read-only mount of `/flag2`. -/
def flagMountsLoop (h : Host) (root : GoString) :
    List GoString → List GoString → List bindMount → World → Option (List bindMount) × World
  | [], _, acc, w => (some acc, w)
  | dest :: ds, seen, acc, w =>
    let cleaned := Clean dest
    if cleaned = str "." ∨ cleaned = [] then flagMountsLoop h root ds seen acc w
    else
      let d := if HasPrefix cleaned (str "/") then cleaned else str "/" ++ cleaned
      if d ∈ seen then flagMountsLoop h root ds seen acc w
      else
        let target := Join [root, TrimPrefix d (str "/")]
        if h.fault w.tick then (none, w.next)
        else flagMountsLoop h root ds (d :: seen)
          (acc ++ [{ host := str "/flag2", target := target, readOnly := true }]) w.next

/-- The flag targets of a call: the caller's destinations, `/flag2` when there are none, and
the two workspace paths for the Go builder. -/
def flagTargets (opts : PrepareRunRootOptions) (workspaceRel : GoString) : List GoString :=
  let base := if opts.FlagDestinations.length = 0 then [str "/flag2"] else opts.FlagDestinations
  if opts.ForGoBuilder then
    base ++ [Join [workspaceRel, str "flag2"],
             Join [str "/env", TrimPrefix workspaceRel (str "/"), str "flag2"]]
  else base

/-- The template root of a language: `$SANDBOX_ENVS_DIR/<language>` (default
`/opt/sandbox-envs/<language>`) with symlinks resolved when that succeeds. -/
def envRootOf (h : Host) (language : GoString) : GoString :=
  let baseEnv0 := TrimSpace (h.getenv (str "SANDBOX_ENVS_DIR"))
  let baseEnv := if baseEnv0 = [] then str "/opt/sandbox-envs" else baseEnv0
  let envRoot := Join [baseEnv, language]
  match h.evalSymlinks envRoot with
  | some real => if real ≠ [] then real else envRoot
  | none => envRoot

/-- Whether `os.Stat` succeeds on a path. -/
def statOk (h : Host) (p : GoString) : Bool :=
  match h.stat p with
  | StatResult.ok _ _ => true
  | _ => false

/-- The directory the per-run directories are created in. -/
def runRootsDirOf (h : Host) : GoString :=
  let d := TrimSpace (h.getenv (str "SANDBOX_RUNROOT_DIR"))
  if d = [] then Join [h.tempDir, str "sandbox-runroots"] else d

/-- The name `os.MkdirTemp(dir, "runroot-")` creates for the `n`-th temporary directory:
`dir`, a separator unless `dir` ends in one, the pattern and a string of digits. -/
def tempName (dir : GoString) (n : Nat) : GoString :=
  if dir.getLast? = some slash then dir ++ str "runroot-" ++ Itoa n
  else dir ++ [slash] ++ str "runroot-" ++ Itoa n

/-- The command `setcap cap_sys_chroot+ep <path>` the runner issues on the host. -/
def setcapArgv (path : GoString) : List GoString :=
  [str "/usr/sbin/setcap", str "cap_sys_chroot+ep", path]

/-- Function `RunOnHost`, as far as its callers observe it. -/
def RunOnHost (h : Host) (argv : List GoString) (w : World) : (GoString × Bool) × World :=
  match argv with
  | [] => (([], true), w)
  | _ :: _ => (h.hostRun w.tick, (w.log (Event.hostRun argv)).next)

/-- The tail of `PrepareRunRootWithOptions` once the mount list is complete: the helper is
copied into `/.runner`, made executable and given the chroot capability; the cleanup of the
result is the no-op when `SANDBOX_KEEP_RUNROOT` is `1`. -/
def finishRunRoot (h : Host) (rr : RunRoot) (envRoot : GoString) (mounts : List bindMount)
    (w : World) : Except GoString RunRoot × World :=
  let rr := { rr with mounts := dedupeAndSortMounts mounts }
  let copy := Join [Join [rr.Root, str ".runner"], str "chroot-run"]
  if h.fault w.tick then (Except.error (str "mkdir .runner"), w.next.remove rr.Root)
  else if h.fault (w.tick + 1) then (Except.error (str "copy chroot-run"), w.next.next.remove rr.Root)
  else if h.fault (w.tick + 2) then (Except.error (str "chmod"), w.next.next.next.remove rr.Root)
  else
    let r := RunOnHost h (setcapArgv copy) w.next.next.next
    if r.1.2 then (Except.error (str "setcap"), r.2.remove rr.Root)
    else
      (Except.ok { rr with
        ChrootBin := str "/.runner/" ++ str "chroot-run"
        EnvRoot := envRoot
        cleanupRemoves := decide (ToLower (h.getenv (str "SANDBOX_KEEP_RUNROOT")) ≠ str "1") }, r.2)

/-- The mount list of a call before de-duplication, given the three parts the host
contributes: template mounts, workspace and temp mounts, device mounts, flag mounts. -/
def allMounts (rr : RunRoot) (envMounts devs flags : List bindMount) : List bindMount :=
  envMounts ++
    [{ host := rr.WorkspaceHost, target := rr.WorkspaceHost, readOnly := false },
     { host := rr.WorkspaceHost,
       target := Join [rr.WorkHost, TrimPrefix rr.WorkspaceInside (str "/")], readOnly := false },
     { host := rr.TmpHost, target := Join [rr.WorkHost, str "tmp"], readOnly := false }] ++
    devs ++ flags

/-- The middle of `PrepareRunRootWithOptions`: the mount list (source lines 166-229). -/
def prepareMounts (h : Host) (opts : PrepareRunRootOptions) (rr : RunRoot) (envRoot : GoString)
    (w : World) : Except GoString RunRoot × World :=
  let env := buildEnvMounts h rr.WorkHost envRoot w
  match env.1 with
  | none => (Except.error (str "prepare environment mounts"), env.2.remove rr.Root)
  | some envMounts =>
    let w := env.2
    if h.fault w.tick then (Except.error (str "mkdir workspace"), w.next.remove rr.Root)
    else if h.fault (w.tick + 1) then
      (Except.error (str "mkdir env workspace"), w.next.next.remove rr.Root)
    else if h.fault (w.tick + 2) then
      (Except.error (str "mkdir env tmp"), w.next.next.next.remove rr.Root)
    else
      let dev := buildDeviceMounts h rr.WorkHost w.next.next.next
      if opts.ForCBuilder = false then
        match h.stat (str "/flag2") with
        | StatResult.ok _ _ =>
          let fl := flagMountsLoop h rr.Root (flagTargets opts rr.WorkspaceRel) [] [] dev.2
          match fl.1 with
          | none => (Except.error (str "flag placeholder"), fl.2.remove rr.Root)
          | some flags => finishRunRoot h rr envRoot (allMounts rr envMounts dev.1 flags) fl.2
        | StatResult.notExist => finishRunRoot h rr envRoot (allMounts rr envMounts dev.1 []) dev.2
        | StatResult.failed => (Except.error (str "stat /flag2"), dev.2)
      else finishRunRoot h rr envRoot (allMounts rr envMounts dev.1 []) dev.2

/-- The run-root record of a fresh per-run directory `parent`, with the host paths derived
from its in-root paths (source lines 123-152). -/
def newRunRoot (parent : GoString) : RunRoot :=
  let rr : RunRoot := { Root := parent, WorkInside := str "/env", TmpInside := str "/tmp",
                        WorkspaceInside := str "/workspace",
                        WorkspaceRelative := str "/workspace" }
  { rr with
    WorkHost := Join [rr.Root, TrimPrefix rr.WorkDir (str "/")]
    WorkspaceHost := Join [rr.Root, TrimPrefix rr.WorkspaceInside (str "/")]
    TmpHost := Join [rr.Root, TrimPrefix rr.TmpDir (str "/")] }

/-- The directories of a fresh run-root (source lines 135-164): the root, the work, workspace
and temp directories, `dev` and `proc`; a failure removes the per-run directory. -/
def prepareDirs (h : Host) (opts : PrepareRunRootOptions) (rr : RunRoot) (envRoot : GoString)
    (w : World) : Except GoString RunRoot × World :=
  if h.fault w.tick then (Except.error (str "mkdir root"), w.next.remove rr.Root)
  else if h.fault (w.tick + 1) then (Except.error (str "mkdir work"), w.next.next.remove rr.Root)
  else if h.fault (w.tick + 2) then
    (Except.error (str "mkdir workspace"), w.next.next.next.remove rr.Root)
  else if h.fault (w.tick + 3) then
    (Except.error (str "mkdir tmp"), w.next.next.next.next.remove rr.Root)
  else if h.fault (w.tick + 4) then
    (Except.error (str "mkdir dev"), w.next.next.next.next.next.remove rr.Root)
  else if h.fault (w.tick + 5) then
    (Except.error (str "mkdir proc"), w.next.next.next.next.next.next.remove rr.Root)
  else prepareMounts h opts rr envRoot w.next.next.next.next.next.next

/-- Whether the template root is a directory and holds the three critical paths. -/
def envRootUsable (h : Host) (envRoot : GoString) : Bool :=
  (match h.stat envRoot with
    | StatResult.ok true _ => true
    | _ => false) &&
  statOk h (Join [envRoot, str "usr/bin/gcc"]) && statOk h (Join [envRoot, str "usr/bin/python3"])
    && statOk h (Join [envRoot, str "bin/sh"])

/-- Function `PrepareRunRootWithOptions`. -/
def PrepareRunRootWithOptions (h : Host) (language : GoString) (opts : PrepareRunRootOptions)
    (w : World) : Except GoString RunRoot × World :=
  let parent := tempName (runRootsDirOf h) w.temps
  if envRootUsable h (envRootOf h language) = false then
    (Except.error (str "runtime environment not found or incomplete"),
      w.log (Event.prepare language opts))
  else if h.fault w.tick then
    (Except.error (str "mkdir runroots"), (w.log (Event.prepare language opts)).next)
  else if h.fault (w.tick + 1) then
    (Except.error (str "mkdtemp"), (w.log (Event.prepare language opts)).next.next)
  else
    prepareDirs h opts (newRunRoot parent) (envRootOf h language)
      (((w.log (Event.prepare language opts)).next.next).created parent language opts)

/-- Function `PrepareRunRoot`. -/
def PrepareRunRoot (h : Host) (language : GoString) (w : World) : Except GoString RunRoot × World :=
  PrepareRunRootWithOptions h language {} w

/-- The idiom of the two-stage pipelines:
`rr, err := PrepareRunRootWithOptions(language, opts); if err != nil { return onError };
defer rr.Cleanup()`, followed by `body`. -/
def withRunRoot (h : Host) (language : GoString) (opts : PrepareRunRootOptions)
    (onError : RunResponse) (body : RunRoot → World → RunResponse × World) (w : World) :
    RunResponse × World :=
  let prep := PrepareRunRootWithOptions h language opts w
  match prep.1 with
  | Except.error _ => (onError, prep.2)
  | Except.ok rr =>
    let r := body rr prep.2
    (r.1, rr.Cleanup r.2)

/-- Function `RunInChroot`, as far as its callers observe it: the two argument checks, the
preparation of the nsjail configuration, then the run of nsjail, whose outcome is the
oracle's.  The run is recorded in the trace when nsjail is started.  The reply also carries
what the caller observes right after the call (capture files, elapsed time, deadlines). -/
def RunInChroot (h : Host) (kind : RunKind) (rr : Option RunRoot) (workdir : GoString)
    (argv : List GoString) (stdin : GoString) (lim : RLimits) (useChrootRunner : Bool)
    (w : World) : (RunReply × World) :=
  let _ := lim
  let reply := h.sandbox w.tick
  match argv, rr with
  | [], _ => ({ reply with res := {}, err := some (str "no argv provided") }, w.next)
  | _ :: _, none => ({ reply with res := {}, err := some (str "runroot not prepared") }, w.next)
  | _ :: _, some r =>
    if reply.configErr then
      ({ reply with res := {},
                    err := some (str "prepare nsjail config: " ++ (reply.err.getD [])) }, w.next)
    else (reply, (w.next).log (Event.run kind r.Root workdir argv stdin useChrootRunner))

/-- Function `readFileLimited`: the content of the file cut to `limit` bytes when `limit` is
positive; the empty string for a missing or unreadable file. -/
def readFileLimited (f : FileRead) (limit : Int) : GoString :=
  match f with
  | FileRead.notExist => []
  | FileRead.failed => []
  | FileRead.data bytes =>
    if limit > 0 ∧ (bytes.length : Int) > limit then bytes.take limit.toNat else bytes

/-- Function `combineOutput` (`combineOutputs` in the Go helper). -/
def combineOutput (stdout stderr : GoString) : GoString :=
  let s := TrimSpace stdout
  let t := TrimSpace stderr
  if s = [] then t
  else if t = [] then s
  else TrimSpace (s ++ str "\n" ++ t)

/-- Function `ResetChrootTmp`: one fallible operation; `true` when it fails. -/
def ResetChrootTmp (h : Host) (w : World) : Bool × World := (h.fault w.tick, w.next)

/-! ## `runner/main.go` -/

/-- Type `RunRequest`. -/
structure RunRequest where
  Language : GoString := []
  Code : GoString := []
  Input : GoString := []
  Want : GoString := []
  Challenge : GoString := []
  Mode : GoString := []
  Sandbox : GoString := []
  deriving DecidableEq, Repr

/-- Type `runnerTest`. -/
structure runnerTest where
  Input : GoString := []
  Output : GoString := []
  IsSample : Bool := false
  deriving DecidableEq, Repr

/-- Go `strconv.Atoi`: an optional sign and decimal digits, within the 64-bit range. -/
def Atoi (s : GoString) : Option Int :=
  let body := match s with
    | 43 :: r => r
    | 45 :: r => r
    | _ => s
  if body = [] ∨ body.any (fun c => decide (c < 48 ∨ 57 < c)) then none
  else
    let v : Int := body.foldl (fun a c => 10 * a + ((c - 48 : Nat) : Int)) 0
    let n := if s.head? = some 45 then -v else v
    if n < -(2 ^ 63) ∨ 2 ^ 63 - 1 < n then none else some n

/-- The recurring pattern `if n, e := strconv.Atoi(os.Getenv(key)); e == nil && n > 0`. -/
def envPos (h : Host) (key : String) (dflt : Int) : Int :=
  match Atoi (h.getenv (str key)) with
  | some n => if n > 0 then n else dflt
  | none => dflt

/-- Two's-complement wrap of a Go `int` (64 bits). -/
def wrap64 (x : Int) : Int := (x + 2 ^ 63) % 2 ^ 64 - 2 ^ 63

/-- The closure `toBytes`. -/
def toBytes (mb : Int) : Int := wrap64 (wrap64 (mb * 1024) * 1024)

/-- Modelled from the spec: the constant `defaultTimeLimitMs`, used by `execute` and
`executeCTwoStage` but declared in no file of the source tree; the spec gives the per-test
exec limit as 1000 ms. -/
def defaultTimeLimitMs : Int := 1000

/-- Function `sanitizeRunResponse`. -/
def sanitizeRunResponse (req : RunRequest) (resp : RunResponse) : RunResponse :=
  if TrimSpace req.Challenge = [] then resp
  else
    let mode := ToLower (TrimSpace req.Mode)
    if mode ≠ str "sample" then { resp with Output := [], Expected := [] } else resp

/-- Rows of a query turned into tests; `none` when a row fails to scan. -/
def scanRows (q : QueryResult) (isSample : Bool) : Option (List runnerTest) :=
  match q with
  | QueryResult.failed => some []
  | QueryResult.rows rs scanFails =>
    if scanFails ∧ rs ≠ [] then none
    else some (rs.map (fun r => { Input := r.1, Output := r.2, IsSample := isSample }))

/-- Function `getRunnerTests`. -/
def getRunnerTests (h : Host) (challenge mode : GoString) : List runnerTest :=
  let mode := ToLower (TrimSpace mode)
  if mode = str "sample" then
    match h.sampleCases challenge with
    | QueryResult.failed => []
    | QueryResult.rows rs scanFails =>
      if scanFails ∧ rs ≠ [] then []
      else if rs = [] then
        match h.judgeCases challenge with
        | QueryResult.rows (r :: _) false => [{ Input := r.1, Output := r.2, IsSample := true }]
        | _ => []
      else rs.map (fun r => { Input := r.1, Output := r.2, IsSample := true })
  else
    match scanRows (h.sampleCases challenge) true with
    | none => []
    | some samples =>
      match scanRows (h.judgeCases challenge) false with
      | none => []
      | some hidden => samples ++ hidden

/-- Function `shellQuote`. -/
def shellQuote (s : GoString) : GoString :=
  if s = [] then str "''"
  else str "'" ++ s.flatMap (fun c => if c = 39 then str "'\\''" else [c]) ++ str "'"

/-- Function `joinShellArgs`. -/
def joinShellArgs (argv : List GoString) : GoString :=
  (str " ").intercalate (argv.map shellQuote)

/-- Function `buildCaptureCommand`. -/
def buildCaptureCommand (argv : List GoString) (stdoutPath stderrPath : GoString) : GoString :=
  str "rm -f " ++ shellQuote stdoutPath ++ str " " ++ shellQuote stderrPath ++ str " && exec " ++
    joinShellArgs argv ++ str " > " ++ shellQuote stdoutPath ++ str " 2> " ++ shellQuote stderrPath

/-- Function `capturePaths`: host and in-root paths of the two capture files. -/
def capturePaths (hostWork workdir base : GoString) : GoString × GoString × GoString × GoString :=
  (Join [hostWork, str ".runner", base ++ str ".stdout"],
   Join [hostWork, str ".runner", base ++ str ".stderr"],
   Join [workdir, str ".runner", base ++ str ".stdout"],
   Join [workdir, str ".runner", base ++ str ".stderr"])

/-- The closures `insidePath` / `insidePathForRun`. -/
def insidePath (hostWork workspaceRel path : GoString) : GoString :=
  if HasPrefix path hostWork then
    let rel := TrimPrefix (TrimPrefix path hostWork) (str "/")
    if workspaceRel = str "/" then
      if rel = [] then str "/" else str "/" ++ rel
    else if rel = [] then workspaceRel
    else Join [workspaceRel, rel]
  else path

/-- The closure `mapToolPath`. -/
def mapToolPath (useChrootRunner : Bool) (p : GoString) : GoString :=
  if useChrootRunner then p
  else if HasPrefix p (str "/") then Join [str "/env", TrimPrefix p (str "/")]
  else p

/-- The compile limits `comp` of `execute` and `executeCTwoStage`. -/
def compileLimits (h : Host) (outLimit : Int) : RLimits :=
  { CPUSeconds := envPos h "RUN_LIMIT_COMPILE_CPU_SEC" 15,
    ASBytes := toBytes (envPos h "RUN_LIMIT_COMPILE_AS_MB" 512),
    FSizeBytes := toBytes (envPos h "RUN_LIMIT_COMPILE_FSIZE_MB" 64),
    NProc := envPos h "RUN_LIMIT_COMPILE_NPROC" 128,
    NOFile := envPos h "RUN_LIMIT_COMPILE_NOFILE" 512,
    OutputLimit := outLimit }

/-- The CPU seconds `execCpu` that `execute` derives for a run from the per-test exec limit
and the global timeout, both in milliseconds (source lines 266-270).  Go's `/` on `int`
truncates toward zero, which is `Int.tdiv`. -/
def executeRunCpu (execLimit globalLimitMs : Int) : Int :=
  let execCpu := Int.tdiv (execLimit + 999) 1000 + 1
  if execCpu > Int.tdiv globalLimitMs 1000 then Int.tdiv globalLimitMs 1000 else execCpu

/-- The CPU seconds `execCpu` that `executeCTwoStage` derives for a run (source lines
471-474). -/
def cTwoStageRunCpu (execLimit globalLimitMs : Int) : Int :=
  let execCpu := Int.tdiv (execLimit + 999) 1000 + 1
  if Int.tdiv globalLimitMs 1000 > 0 ∧ execCpu > Int.tdiv globalLimitMs 1000 then
    Int.tdiv globalLimitMs 1000
  else execCpu

/-- The run limits `runLim` of `execute` and `executeCTwoStage`, from the CPU seconds each of
them derives. -/
def runLimits (h : Host) (execCpu outLimit : Int) : RLimits :=
  { CPUSeconds := envPos h "RUN_LIMIT_CPU_SEC" execCpu,
    ASBytes := toBytes (envPos h "RUN_LIMIT_AS_MB" 256),
    FSizeBytes := toBytes (envPos h "RUN_LIMIT_FSIZE_MB" 16),
    NProc := envPos h "RUN_LIMIT_NPROC" 64,
    NOFile := envPos h "RUN_LIMIT_NOFILE" 128,
    OutputLimit := outLimit }

/-- The body of the test loop of `runProgramWithTests` after the run of test `i` has returned
(source lines 627-663): `some` response when the loop returns, `none` when the test passed.
`total` already includes the duration of this run. -/
def judgeTest (req : RunRequest) (outLimit : Int) (i : Nat) (total : Int) (tc : runnerTest)
    (reply : RunReply) : Option RunResponse :=
  let runStdout := readFileLimited reply.stdoutFile outLimit
  let runStderr := readFileLimited reply.stderrFile outLimit
  let combined := combineOutput runStdout runStderr
  if reply.execDeadline ∨ reply.globalDeadline then
    let combined := if combined = [] then TrimSpace reply.res.Stdout else combined
    if req.Mode = str "sample" then
      some (sanitizeRunResponse req
        { Result := str "Time Limit Exceeded", Output := combined,
          DurationMs := total, FailedIndex := i, Expected := tc.Output })
    else
      some (sanitizeRunResponse req
        { Result := str "Time Limit Exceeded", Output := combined,
          DurationMs := total, FailedIndex := i })
  else
    let trimmed := TrimSpace runStdout
    if reply.err.isSome then
      let combined :=
        if combined = [] then combineOutput reply.res.Stdout reply.res.Stderr else combined
      if req.Mode = str "sample" then
        some (sanitizeRunResponse req
          { Result := str "Runtime Error", Output := combined,
            DurationMs := total, FailedIndex := i, Expected := tc.Output })
      else
        some (sanitizeRunResponse req
          { Result := str "Runtime Error", Output := combined,
            DurationMs := total, FailedIndex := i })
    else if TrimSpace trimmed ≠ TrimSpace tc.Output then
      if req.Mode = str "sample" then
        some (sanitizeRunResponse req
          { Result := str "Wrong Answer", Output := trimmed,
            DurationMs := total, FailedIndex := i, Expected := tc.Output })
      else
        some (sanitizeRunResponse req
          { Result := str "Wrong Answer", Output := trimmed,
            DurationMs := total, FailedIndex := i })
    else none

/-- The argv of the run of test `i` (or of the single run, with `base = "single"`). -/
def testArgv (hostWork workdir shellPath : GoString) (argv : List GoString) (base : GoString) :
    List GoString :=
  [shellPath, str "-c",
   buildCaptureCommand argv (capturePaths hostWork workdir base).2.2.1
     (capturePaths hostWork workdir base).2.2.2]

/-- The test loop of `runProgramWithTests` (source lines 617-666), from test `i` on. -/
def testLoop (h : Host) (req : RunRequest) (rr : RunRoot) (hostWork workdir : GoString)
    (useChrootRunner : Bool) (shellPath : GoString) (argv : List GoString) (runLim : RLimits)
    (outLimit : Int) : Nat → Int → List runnerTest → World → RunResponse × World
  | _, total, [], w =>
    (sanitizeRunResponse req { Result := str "Success", Output := [], DurationMs := total }, w)
  | i, total, tc :: rest, w =>
    let run := RunInChroot h (RunKind.test i) (some rr) workdir
      (testArgv hostWork workdir shellPath argv (str "test-" ++ Itoa i)) tc.Input runLim
      useChrootRunner w
    let total := total + run.1.durMs
    match judgeTest req outLimit i total tc run.1 with
    | some resp => (resp, run.2)
    | none =>
      testLoop h req rr hostWork workdir useChrootRunner shellPath argv runLim outLimit
        (i + 1) total rest (ResetChrootTmp h run.2).2

/-- The single run of `runProgramWithTests` (source lines 669-711), for a request without a
challenge. -/
def singleRun (h : Host) (req : RunRequest) (rr : RunRoot) (hostWork workdir : GoString)
    (useChrootRunner : Bool) (shellPath : GoString) (argv : List GoString) (runLim : RLimits)
    (outLimit : Int) (w : World) : RunResponse × World :=
  let run := RunInChroot h RunKind.single (some rr) workdir
    (testArgv hostWork workdir shellPath argv (str "single")) req.Input runLim useChrootRunner w
  let reply := run.1
  let durationMs := reply.durMs
  let runStdout := readFileLimited reply.stdoutFile outLimit
  let runStderr := readFileLimited reply.stderrFile outLimit
  let combined := combineOutput runStdout runStderr
  if reply.execDeadline ∨ reply.globalDeadline then
    let combined := if combined = [] then TrimSpace reply.res.Stdout else combined
    (sanitizeRunResponse req
      { Result := str "Time Limit Exceeded", Output := combined, DurationMs := durationMs }, run.2)
  else
    let output := TrimSpace runStdout
    if reply.err.isSome then
      let combined :=
        if combined = [] then combineOutput reply.res.Stdout reply.res.Stderr else combined
      (sanitizeRunResponse req
        { Result := str "Runtime Error", Output := combined, DurationMs := durationMs }, run.2)
    else
      let wantTrim := TrimSpace req.Want
      if wantTrim ≠ [] then
        if TrimSpace output = wantTrim then
          (sanitizeRunResponse req
            { Result := str "Success", Output := output, DurationMs := durationMs }, run.2)
        else
          (sanitizeRunResponse req
            { Result := str "Wrong Answer", Output := output, DurationMs := durationMs }, run.2)
      else
        (sanitizeRunResponse req
          { Result := str "Success", Output := output, DurationMs := durationMs }, run.2)

/-- Function `runProgramWithTests`. -/
def runProgramWithTests (h : Host) (req : RunRequest) (rr : RunRoot) (hostWork workdir : GoString)
    (useChrootRunner : Bool) (shellPath : GoString) (argv : List GoString) (runLim : RLimits)
    (outLimit : Int) (w : World) : RunResponse × World :=
  if TrimSpace req.Challenge ≠ [] then
    let tests := getRunnerTests h req.Challenge req.Mode
    if tests.length = 0 then (sanitizeRunResponse req { Result := str "Unknown challenge" }, w)
    else
      testLoop h req rr hostWork workdir useChrootRunner shellPath argv runLim outLimit 0 0 tests w
  else singleRun h req rr hostWork workdir useChrootRunner shellPath argv runLim outLimit w

/-- The response `RunResponse{Result: "Internal Error"}`. -/
def internalError : RunResponse := { Result := str "Internal Error" }

/-- The compile command line of the C pipeline. -/
def cCompileArgs (gccPath workdir : GoString) : List GoString :=
  [gccPath, Join [workdir, str "code.c"], str "-O2", str "-pipe", str "-static", str "-s",
   str "-lm", str "-o", Join [workdir, str "code"]]

/-- The argv of a compile run: the shell, `-c`, and the capture command around the compiler's
command line. -/
def compileArgv (hostWork workdir shellPath : GoString) (compileArgs : List GoString) :
    List GoString :=
  [shellPath, str "-c",
   buildCaptureCommand compileArgs (capturePaths hostWork workdir (str "compile")).2.2.1
     (capturePaths hostWork workdir (str "compile")).2.2.2]

/-- The summary of a compile run: the capture files, else the buffered output, else (on
failure) the text of the error. -/
def compileSummary (reply : RunReply) (outLimit : Int) : GoString :=
  let compileStdout := readFileLimited reply.stdoutFile outLimit
  let compileStderr := readFileLimited reply.stderrFile outLimit
  let summary := combineOutput compileStdout compileStderr
  let summary := if summary = [] then combineOutput reply.res.Stdout reply.res.Stderr else summary
  match reply.err with
  | some e => if summary = [] then e else summary
  | none => summary

/-- The second stage of `executeCTwoStage` (source lines 562-608), on the prepared run
run-root: capture directory, copy of the binary, chmod, setcap, then the tests. -/
def cRunStage (h : Host) (req : RunRequest) (useChrootRunner : Bool) (runRR : RunRoot)
    (runLim : RLimits) (outLimit : Int) (w : World) : RunResponse × World :=
  let runHostWork := runRR.WorkspaceHost
  let runWorkdir := runRR.WorkspaceDir
  let runWorkspaceRel := runRR.WorkspaceRel
  if h.fault w.tick then (internalError, w.next)
  else
    let runtimeBinaryHost := Join [runHostWork, str "code"]
    if h.fault (w.tick + 1) then (internalError, w.next.next)
    else if h.fault (w.tick + 2) then (internalError, w.next.next.next)
    else
      let cap := RunOnHost h (setcapArgv runtimeBinaryHost) w.next.next.next
      if cap.1.2 then (internalError, cap.2)
      else
        let argv := [insidePath runHostWork runWorkspaceRel (Join [runWorkdir, str "code"])]
        let runtimeShellPath := if useChrootRunner then str "/bin/sh" else str "/env/bin/sh"
        runProgramWithTests h req runRR runHostWork runWorkdir useChrootRunner runtimeShellPath
          argv runLim outLimit cap.2

/-- The options of the build run-root of `executeCTwoStage`. -/
def cBuildOptions : PrepareRunRootOptions :=
  { FlagDestinations := [str "/flag2", str "/env/flag2"] }

/-- The options of the run run-root of `executeCTwoStage` and of the Go helper. -/
def runOptions : PrepareRunRootOptions := { ForCBuilder := true }

/-- The first stage of `executeCTwoStage` (source lines 408-561), on the prepared build
run-root: source file, capture directory, limits, the compile run, then the run run-root. -/
def cBuildStage (h : Host) (req : RunRequest) (useChrootRunner : Bool) (buildRR : RunRoot)
    (w : World) : RunResponse × World :=
  let buildHostWork := buildRR.WorkspaceHost
  let buildEnvWorkspaceInside := Join [str "/env", TrimPrefix buildRR.WorkspaceRel (str "/")]
  let src := Join [buildHostWork, str "code.c"]
  if h.fault w.tick then (internalError, w.next)
  else if h.fault (w.tick + 1) then
    (internalError, ((w.next).log (Event.writeFile src req.Code)).next)
  else
    let w := ((w.next).log (Event.writeFile src req.Code)).next
    let execLimit := defaultTimeLimitMs
    let globalLimitMs := envPos h "RUNNER_GLOBAL_TIMEOUT_MS" 5000
    let outLimit := envPos h "RUN_LIMIT_OUTPUT_BYTES" 65536
    let comp := compileLimits h outLimit
    let execCpu := cTwoStageRunCpu execLimit globalLimitMs
    let runLim := runLimits h execCpu outLimit
    let compileUseChrootRunner := false
    let compileShellPath := if compileUseChrootRunner then str "/bin/sh" else str "/env/bin/sh"
    let compileArgs :=
      cCompileArgs (mapToolPath compileUseChrootRunner (str "/usr/bin/gcc")) buildEnvWorkspaceInside
    let run := RunInChroot h RunKind.compile (some buildRR) buildEnvWorkspaceInside
      (compileArgv buildHostWork buildEnvWorkspaceInside compileShellPath compileArgs) [] comp
      compileUseChrootRunner w
    if run.1.err.isSome then
      ({ Result := str "Compile Error", Output := compileSummary run.1 outLimit }, run.2)
    else
      withRunRoot h (str "c") runOptions internalError
        (fun runRR => cRunStage h req useChrootRunner runRR runLim outLimit) run.2

/-- Function `executeCTwoStage`. -/
def executeCTwoStage (h : Host) (req : RunRequest) (useChrootRunner : Bool) (w : World) :
    RunResponse × World :=
  withRunRoot h (str "c") cBuildOptions internalError (cBuildStage h req useChrootRunner) w

/-- The closure `mkArgv` of `execute`. -/
def mkArgv (language hostWork workspaceRel workdir : GoString) (useChrootRunner : Bool) :
    Option (List GoString) :=
  if language = str "c" then
    some [insidePath hostWork workspaceRel (Join [workdir, str "code"])]
  else if language = str "python" then
    some [mapToolPath useChrootRunner (str "/usr/bin/python3"),
          insidePath hostWork workspaceRel (Join [workdir, str "code.py"])]
  else if language = str "ruby" then
    some [mapToolPath useChrootRunner (str "/usr/bin/ruby"),
          insidePath hostWork workspaceRel (Join [workdir, str "code.rb"])]
  else none

/-- The map literal of file extensions in `execute`; the empty string for a missing key. -/
def extOf (language : GoString) : GoString :=
  if language = str "c" then str ".c"
  else if language = str "python" then str ".py"
  else if language = str "ruby" then str ".rb"
  else []

/-- The end of `execute` (source lines 380-397): the argv of the language, then the tests. -/
def runOnRunRoot (h : Host) (req : RunRequest) (useChrootRunner : Bool) (rr : RunRoot)
    (runLim : RLimits) (outLimit : Int) (w : World) : RunResponse × World :=
  match mkArgv req.Language rr.WorkspaceHost rr.WorkspaceRel rr.WorkspaceDir useChrootRunner with
  | none => ({ Result := str "Unsupported language: " ++ req.Language }, w)
  | some argv =>
    runProgramWithTests h req rr rr.WorkspaceHost rr.WorkspaceDir useChrootRunner
      (if useChrootRunner then str "/bin/sh" else str "/env/bin/sh") argv runLim outLimit w

/-- The body of `execute` on its single run-root (source lines 191-397). -/
def executeOnRunRoot (h : Host) (req : RunRequest) (useChrootRunner : Bool) (rr : RunRoot)
    (w : World) : RunResponse × World :=
  let ext := extOf req.Language
  if ext = [] then ({ Result := str "Unsupported language: " ++ req.Language }, w)
  else
    let hostWork := rr.WorkspaceHost
    let workdir := rr.WorkspaceDir
    let src := Join [hostWork, str "code" ++ ext]
    if h.fault w.tick then (internalError, w.next)
    else if h.fault (w.tick + 1) then
      (internalError, ((w.next).log (Event.writeFile src req.Code)).next)
    else
      let w := ((w.next).log (Event.writeFile src req.Code)).next
      let execLimit := defaultTimeLimitMs
      let globalLimitMs := envPos h "RUNNER_GLOBAL_TIMEOUT_MS" 5000
      let outLimit := envPos h "RUN_LIMIT_OUTPUT_BYTES" 65536
      let comp := compileLimits h outLimit
      let execCpu := executeRunCpu execLimit globalLimitMs
      let runLim := runLimits h execCpu outLimit
      let shellPath := if useChrootRunner then str "/bin/sh" else str "/env/bin/sh"
      if req.Language = str "c" then
        let compileArgs := cCompileArgs (mapToolPath useChrootRunner (str "/usr/bin/gcc")) workdir
        let run := RunInChroot h RunKind.compile (some rr) workdir
          (compileArgv hostWork workdir shellPath compileArgs) [] comp useChrootRunner w
        if run.1.err.isSome then
          ({ Result := str "Compile Error", Output := compileSummary run.1 outLimit }, run.2)
        else
          let cap := RunOnHost h (setcapArgv (Join [hostWork, str "code"])) run.2
          if cap.1.2 then (internalError, cap.2)
          else runOnRunRoot h req useChrootRunner rr runLim outLimit cap.2
      else runOnRunRoot h req useChrootRunner rr runLim outLimit w

/-- The command line of the go-helper process. -/
def helperArgs (h : Host) (mode codePath testsPath : GoString) : List GoString :=
  [str "--mode", mode, str "--global-timeout",
   Itoa (envPos h "RUNNER_GLOBAL_TIMEOUT_MS" 30000).toNat,
   str "--output-limit", Itoa (envPos h "RUN_LIMIT_OUTPUT_BYTES" 65536).toNat,
   str "--code-file", codePath, str "--tests-file", testsPath] ++
  (if TrimSpace (h.getenv (str "SANDBOX_ENVS_DIR")) ≠ [] then
    [str "--sandbox-env", TrimSpace (h.getenv (str "SANDBOX_ENVS_DIR"))] else [])

/-- The normalisation of the failed index at the end of `executeGoViaHelper`. -/
def normalizeFailedIndex (resp : RunResponse) : RunResponse :=
  if resp.Result = str "Compile Error" ∨
      (resp.Result ≠ str "Wrong Answer" ∧ resp.Result ≠ str "Runtime Error" ∧
        resp.Result ≠ str "Time Limit Exceeded") then
    { resp with FailedIndex := -1 }
  else resp

/-- The observable part of the go-helper client `executeGoViaHelper` after the tests are
known (source lines 103-180): job directory, code and tests files, the child process, the
parsed response. -/
def goHelperClient (h : Host) (req : RunRequest) (mode : GoString)
    (sanitize : RunResponse → RunResponse) (w : World) : RunResponse × World :=
  let jobDir := Join [h.tempDir, str "gohelper-" ++ Itoa w.temps]
  let codePath := Join [jobDir, str "code.go"]
  let testsPath := Join [jobDir, str "tests.json"]
  let w1 := { w.next with temps := w.temps + 1 }
  let w2 := (w1.next).log (Event.writeFile codePath req.Code)
  let w3 := (w2.next).log (Event.helper (helperArgs h mode codePath testsPath))
  let reply := h.helper w3.tick
  if h.fault w.tick then (internalError, w.next)
  else if h.fault w1.tick then (sanitize internalError, w1.next)
  else if h.fault w2.tick then (sanitize internalError, w2.next)
  else if reply.runErr ∧ reply.timedOut then (sanitize internalError, w3.next)
  else if reply.outputEmpty then (sanitize internalError, w3.next)
  else
    match reply.parsed with
    | none => (sanitize internalError, w3.next)
    | some resp => (sanitize (normalizeFailedIndex resp), w3.next)

/-- The mode `executeGoViaHelper` hands to the helper. -/
def helperMode (req : RunRequest) : GoString :=
  if TrimSpace req.Challenge = [] then str "single"
  else if ToLower (TrimSpace req.Mode) = [] then str "judge"
  else ToLower (TrimSpace req.Mode)

/-- The closure `sanitize` of `executeGoViaHelper`. -/
def helperSanitize (req : RunRequest) (res : RunResponse) : RunResponse :=
  sanitizeRunResponse req
    (if helperMode req = str "sample" ∨ helperMode req = str "single" then res
     else { res with Output := [], Expected := [] })

/-- Function `executeGoViaHelper` (`runner/go_helper.go`). -/
def executeGoViaHelper (h : Host) (req : RunRequest) (w : World) : RunResponse × World :=
  if TrimSpace req.Challenge ≠ [] then
    if (getRunnerTests h (TrimSpace req.Challenge) req.Mode).length = 0 then
      (helperSanitize req { Result := str "Unknown challenge" }, w)
    else goHelperClient h req (helperMode req) (helperSanitize req) w
  else goHelperClient h req (helperMode req) (helperSanitize req) w

/-- Function `execute`. -/
def execute (h : Host) (req : RunRequest) (w : World) : RunResponse × World :=
  let sandboxMode0 := TrimSpace req.Sandbox
  let sandboxMode := if sandboxMode0 = [] then str "default" else sandboxMode0
  if sandboxMode ≠ str "default" ∧ sandboxMode ≠ str "nsjail_only" then
    ({ Result := str "Unsupported sandbox mode" }, w)
  else if req.Language = str "go" then
    if sandboxMode ≠ str "default" then ({ Result := str "Unsupported sandbox mode" }, w)
    else executeGoViaHelper h req w
  else if req.Language = str "c" then executeCTwoStage h req false w
  else
    let useChrootRunner : Bool := sandboxMode ≠ str "nsjail_only"
    let prep := PrepareRunRoot h req.Language w
    match prep.1 with
    | Except.error _ => (internalError, prep.2)
    | Except.ok rr =>
      let r := executeOnRunRoot h req useChrootRunner rr prep.2
      (r.1, rr.Cleanup r.2)

/-! ## `runner/internal/gohelper/gohelper.go` -/

namespace gohelper

/-- Type `gohelper.Request`; a `TestCase` has the fields of a `runnerTest`. -/
structure Request where
  Code : GoString := []
  Mode : GoString := []
  GlobalTimeoutMs : Int := 0
  OutputLimit : Int := 0
  SandboxEnv : GoString := []
  Tests : List runnerTest := []
  deriving DecidableEq, Repr

/-- The constant `defaultExecTimeLimitMs`. -/
def defaultExecTimeLimitMs : Int := 1000

/-- The pattern `x := toBytes(d); if n, err := strconv.Atoi(os.Getenv(key)); err == nil &&
n > 0 { x = toBytes(n) }`. -/
def envBytes (h : Host) (key : String) (dflt : Int) : Int := toBytes (envPos h key dflt)

/-- Function `buildGoCompileLimits`. -/
def buildGoCompileLimits (h : Host) (outputLimit : Int) : RLimits :=
  { CPUSeconds := envPos h "RUN_LIMIT_COMPILE_CPU_SEC" 15,
    ASBytes := envBytes h "RUN_LIMIT_COMPILE_AS_MB" 512,
    FSizeBytes := envBytes h "RUN_LIMIT_COMPILE_FSIZE_MB" 64,
    NProc := envPos h "RUN_LIMIT_COMPILE_NPROC" 128,
    NOFile := envPos h "RUN_LIMIT_COMPILE_NOFILE" 512,
    OutputLimit := outputLimit }

/-- Function `buildGoRunLimits`. -/
def buildGoRunLimits (h : Host) (execLimit globalLimitMs outputLimit : Int) : RLimits :=
  let execCpu := Int.tdiv (execLimit + 999) 1000 + 1
  let execCpu :=
    if globalLimitMs > 0 then
      if Int.tdiv globalLimitMs 1000 > 0 ∧ execCpu > Int.tdiv globalLimitMs 1000 then
        Int.tdiv globalLimitMs 1000
      else execCpu
    else execCpu
  { CPUSeconds := envPos h "RUN_LIMIT_CPU_SEC" execCpu,
    ASBytes := envBytes h "RUN_LIMIT_AS_MB" 1024,
    FSizeBytes := envBytes h "RUN_LIMIT_FSIZE_MB" 16,
    NProc := envPos h "RUN_LIMIT_NPROC" 64,
    NOFile := envPos h "RUN_LIMIT_NOFILE" 128,
    OutputLimit := outputLimit }

/-- The closure `sanitize` of `Execute`. -/
def sanitize (revealExpected : Bool) (res : RunResponse) : RunResponse :=
  if revealExpected then res else { res with Output := [], Expected := [] }

/-- The `expected` value the loop attaches to a failure. -/
def expectedOf (revealExpected : Bool) (tc : runnerTest) : GoString :=
  if revealExpected then tc.Output else []

/-- The body of the test loop of `Execute` after the run of test `i` has returned (source
lines 279-336): `some` response when the loop returns, `none` when the test passed. `total`
already includes the duration of this run. -/
def judgeTest (revealExpected singleMode : Bool) (outLimit : Int) (i : Nat) (total : Int)
    (tc : runnerTest) (reply : RunReply) : Option RunResponse :=
  let runStdout := readFileLimited reply.stdoutFile outLimit
  let runStderr := readFileLimited reply.stderrFile outLimit
  let trimmedStdout := TrimSpace runStdout
  let combined := combineOutput runStdout runStderr
  let combined :=
    if combined = [] then TrimSpace (reply.res.Stdout ++ str "\n" ++ reply.res.Stderr)
    else combined
  let expected := expectedOf revealExpected tc
  if reply.err.isSome then
    if reply.execDeadline ∨ reply.globalDeadline then
      some (sanitize revealExpected
        { Result := str "Time Limit Exceeded", Output := trimmedStdout, DurationMs := total,
          FailedIndex := i, Expected := expected })
    else
      some (sanitize revealExpected
        { Result := str "Runtime Error", Output := combined, DurationMs := total,
          FailedIndex := i, Expected := expected })
  else if reply.execDeadline ∨ reply.globalDeadline then
    some (sanitize revealExpected
      { Result := str "Time Limit Exceeded", Output := trimmedStdout, DurationMs := total,
        FailedIndex := i, Expected := expected })
  else
    let expectedTrim := TrimSpace tc.Output
    if singleMode then
      if expectedTrim ≠ [] ∧ TrimSpace trimmedStdout ≠ expectedTrim then
        some (sanitize revealExpected
          { Result := str "Wrong Answer", Output := trimmedStdout, DurationMs := total,
            FailedIndex := i, Expected := expected })
      else none
    else if TrimSpace trimmedStdout ≠ expectedTrim then
      some (sanitize revealExpected
        { Result := str "Wrong Answer", Output := trimmedStdout, DurationMs := total,
          FailedIndex := i, Expected := expected })
    else none

/-- The test loop of `Execute` (source lines 259-348), from test `i` on. -/
def testLoop (h : Host) (revealExpected singleMode : Bool) (globalLimitMs outLimit : Int)
    (runRR : RunRoot) (runWorkspaceHost runWorkspaceInside : GoString) (argv : List GoString)
    (runLim : RLimits) : Nat → Int → GoString → List runnerTest → World → RunResponse × World
  | _, total, lastStdout, [], w =>
    (sanitize revealExpected
      { Result := str "Success", DurationMs := total, FailedIndex := -1,
        Output := if singleMode then lastStdout else [] }, w)
  | i, total, _, tc :: rest, w =>
    if globalLimitMs > 0 ∧ h.pastDeadline w.tick then
      (sanitize revealExpected
        { Result := str "Time Limit Exceeded", DurationMs := total, FailedIndex := i,
          Expected := expectedOf revealExpected tc }, w.next)
    else
      let run := RunInChroot h (RunKind.test i) (some runRR) runWorkspaceInside
        (testArgv runWorkspaceHost runWorkspaceInside (str "/env/bin/sh") argv
          (str "test-" ++ Itoa i)) tc.Input runLim false w.next
      let total := total + run.1.durMs
      match judgeTest revealExpected singleMode outLimit i total tc run.1 with
      | some resp => (resp, run.2)
      | none =>
        if (ResetChrootTmp h run.2).1 then
          (sanitize revealExpected internalError, (ResetChrootTmp h run.2).2)
        else
          testLoop h revealExpected singleMode globalLimitMs outLimit runRR runWorkspaceHost
            runWorkspaceInside argv runLim (i + 1) total
            (TrimSpace (readFileLimited run.1.stdoutFile outLimit)) rest
            (ResetChrootTmp h run.2).2

/-- The run phase of `Execute` (source lines 211-348), on the prepared run run-root. -/
def runStage (h : Host) (req : Request) (revealExpected singleMode : Bool)
    (globalLimitMs outLimit : Int) (runRR : RunRoot) (w : World) : RunResponse × World :=
  let runWorkspaceHost := runRR.WorkspaceHost
  let runWorkspaceRel := runRR.WorkspaceRel
  let runWorkspaceInside := runRR.WorkspaceDir
  let runtimeBinaryHostPath := Join [runWorkspaceHost, str "code"]
  if h.fault w.tick then (sanitize revealExpected internalError, w.next)
  else if h.fault (w.tick + 1) then (sanitize revealExpected internalError, w.next.next)
  else
    let cap := RunOnHost h (setcapArgv runtimeBinaryHostPath) w.next.next
    if cap.1.2 then (sanitize revealExpected internalError, cap.2)
    else if h.fault cap.2.tick then (sanitize revealExpected internalError, cap.2.next)
    else
      let runLim := buildGoRunLimits h defaultExecTimeLimitMs globalLimitMs outLimit
      let argv :=
        [insidePath runWorkspaceHost runWorkspaceRel (Join [runWorkspaceInside, str "code"])]
      testLoop h revealExpected singleMode globalLimitMs outLimit runRR runWorkspaceHost
        runWorkspaceInside argv runLim 0 0 [] req.Tests cap.2.next

/-- The command line of the Go compiler in `Execute`. -/
def goCompileArgs (workdir : GoString) : List GoString :=
  [str "env", str "GOCACHE=/tmp/go-build-cache", str "GOMODCACHE=/tmp/go-mod-cache",
   str "/usr/bin/go", str "build", str "-o", Join [workdir, str "code"],
   Join [workdir, str "code.go"]]

/-- The summary of the compile run in `Execute`. -/
def goCompileSummary (reply : RunReply) (outLimit : Int) : GoString :=
  let summary := combineOutput (readFileLimited reply.stdoutFile outLimit)
    (readFileLimited reply.stderrFile outLimit)
  let summary :=
    if summary = [] then combineOutput reply.res.Stdout reply.res.Stderr else summary
  let summary := TrimSpace summary
  match reply.err with
  | some e => if summary = [] then e else summary
  | none => summary

/-- The options of the build run-root of `Execute`. -/
def goBuildOptions : PrepareRunRootOptions := { ForGoBuilder := true }

/-- The build phase of `Execute` (source lines 122-209), on the prepared build run-root. -/
def buildStage (h : Host) (req : Request) (revealExpected singleMode : Bool)
    (globalLimitMs outLimit : Int) (buildRR : RunRoot) (w : World) : RunResponse × World :=
  let buildWorkspaceHost := buildRR.WorkspaceHost
  let buildWorkspaceInside := buildRR.WorkspaceDir
  let codeHostPath := Join [buildWorkspaceHost, str "code.go"]
  let w1 := (w.next.next).log (Event.writeFile codeHostPath req.Code)
  if h.fault w.tick then (sanitize revealExpected internalError, w.next)
  else if h.fault (w.tick + 1) then (sanitize revealExpected internalError, w.next.next)
  else if h.fault w1.tick then (sanitize revealExpected internalError, w1.next)
  else if h.fault (w1.tick + 1) then (sanitize revealExpected internalError, w1.next.next)
  else
    let run := RunInChroot h RunKind.compile (some buildRR) buildWorkspaceInside
      (compileArgv buildWorkspaceHost buildWorkspaceInside (str "/bin/sh")
        (goCompileArgs buildWorkspaceInside)) [] (buildGoCompileLimits h outLimit) true
      w1.next.next
    if run.1.err.isSome then
      (sanitize revealExpected
        { Result := str "Compile Error", Output := goCompileSummary run.1 outLimit,
          FailedIndex := -1 }, run.2)
    else if h.fault run.2.tick then (sanitize revealExpected internalError, run.2.next)
    else
      withRunRoot h (str "go") runOptions (sanitize revealExpected internalError)
        (runStage h req revealExpected singleMode globalLimitMs outLimit) run.2.next

/-- The environment of the helper process after `Execute` has set `SANDBOX_ENVS_DIR`. -/
def helperHost (h : Host) (req : Request) : Host :=
  let envBase := TrimSpace req.SandboxEnv
  let key := str "SANDBOX_ENVS_DIR"
  if envBase ≠ [] then { h with getenv := fun k => if k = key then envBase else h.getenv k }
  else if TrimSpace (h.getenv key) = [] then
    { h with getenv := fun k => if k = key then str "/opt/sandbox-envs" else h.getenv k }
  else h

/-- Function `Execute`.  The host is the one of the helper process; `os.Setenv` on
`SANDBOX_ENVS_DIR` is an update of its environment. -/
def Execute (h : Host) (req : Request) (w : World) : RunResponse × World :=
  let globalLimitMs :=
    if req.GlobalTimeoutMs ≤ 0 then envPos h "RUNNER_GLOBAL_TIMEOUT_MS" 30000
    else req.GlobalTimeoutMs
  let outLimit :=
    if req.OutputLimit ≤ 0 then envPos h "RUN_LIMIT_OUTPUT_BYTES" 65536 else req.OutputLimit
  let mode0 := ToLower (TrimSpace req.Mode)
  let mode := if mode0 = [] then str "judge" else mode0
  let singleMode : Bool := mode = str "single"
  let revealExpected : Bool := mode = str "sample" ∨ singleMode
  if h.fault w.tick then (internalError, w.next)
  else if h.fault (w.tick + 1) then (internalError, w.next.next)
  else if req.Tests.length = 0 then ({ Result := str "Unknown challenge" }, w.next.next)
  else
    withRunRoot (helperHost h req) (str "go") goBuildOptions (sanitize revealExpected internalError)
      (buildStage (helperHost h req) req revealExpected singleMode globalLimitMs outLimit)
      w.next.next

end gohelper

/-! ## `safeCapBuffer` (`runner/internal/sandbox/sandbox.go`) -/

/-- Type `safeCapBuffer`; the mutex makes every method atomic, so a buffer is its fields. -/
structure safeCapBuffer where
  buf : GoString := []
  max : Int := 0
  over : Bool := false
  deriving DecidableEq, Repr

namespace safeCapBuffer

/-- Method `Write`: the pair the call returns (count and error) and the buffer afterwards. -/
def Write (b : safeCapBuffer) (p : GoString) : (Int × Option GoString) × safeCapBuffer :=
  if b.max ≤ 0 then ((p.length, none), { b with buf := b.buf ++ p })
  else
    let remain := b.max - b.buf.length
    if remain > 0 then
      if (p.length : Int) ≤ remain then ((p.length, none), { b with buf := b.buf ++ p })
      else ((p.length, none), { b with buf := b.buf ++ p.take remain.toNat, over := true })
    else ((p.length, none), { b with over := true })

/-- Method `String`. -/
def String (b : safeCapBuffer) : GoString := b.buf

/-- A sequence of `Write` calls, in the order they take the mutex: the returned pairs and the
buffer afterwards. -/
def writeAll : safeCapBuffer → List GoString → List (Int × Option GoString) × safeCapBuffer
  | b, [] => ([], b)
  | b, p :: ps => ((b.Write p).1 :: (writeAll (b.Write p).2 ps).1, (writeAll (b.Write p).2 ps).2)

end safeCapBuffer

/-! ## The nsjail invocation of `RunInChroot` (`runner/internal/sandbox/sandbox.go`) -/

/-- The first entries of `nsArgs` in `RunInChroot` (source lines 398-411). -/
def nsjailFixedArgs (configPath root pathEnv : GoString) : List GoString :=
  [str "--config", configPath,
   str "--chroot", root,
   str "--cwd", str "/",
   str "--keep_caps",
   str "--cap", str "CAP_SYS_CHROOT",
   str "--disable_no_new_privs",
   str "--keep_env",
   str "--env", pathEnv,
   str "--env", str "HOME=/tmp",
   str "--env", str "TMPDIR=/tmp",
   str "--env", str "LANG=C.UTF-8",
   str "--env", str "LD=/usr/bin/x86_64-linux-gnu-ld"]

/-- The table `extra` of `RunInChroot`: sub-directory of the template root and destination. -/
def extraMountSpecs : List (GoString × GoString) :=
  [(str "bin", str "/bin"), (str "lib", str "/lib"), (str "lib64", str "/lib64"),
   (str "usr", str "/usr"), (str "etc", str "/etc")]

/-- Whether `os.Stat` succeeds on a path and reports a directory. -/
def statIsDir (h : Host) (p : GoString) : Bool :=
  match h.stat p with
  | StatResult.ok isDir _ => isDir
  | _ => false

/-- The loop over `extra` (source lines 423-430): a read-only bind flag for every listed
sub-directory of the template root that exists. -/
def extraBindLoop (h : Host) (envRoot : GoString) :
    List (GoString × GoString) → List GoString → List GoString
  | [], nsArgs => nsArgs
  | ms :: rest, nsArgs =>
    let hostPath := Join [envRoot, ms.1]
    if statIsDir h hostPath then
      extraBindLoop h envRoot rest (nsArgs ++ [str "--bindmount_ro", hostPath ++ str ":" ++ ms.2])
    else extraBindLoop h envRoot rest nsArgs

/-- The search for the value of `--cwd` (source lines 432-438): `-1` when there is none. -/
def findCwdIndex : List GoString → Nat → Int
  | [], _ => -1
  | [_], _ => -1
  | a :: b :: rest, i => if a = str "--cwd" then (i : Int) + 1 else findCwdIndex (b :: rest) (i + 1)

/-- The in-root destination of a mount target (source lines 444-448). -/
def mountDest (root target : GoString) : GoString :=
  let dest := TrimPrefix target root
  let dest := if HasPrefix dest (str "/") then dest else str "/" ++ dest
  Clean dest

/-- The loop over `rr.mounts` (source lines 439-450). -/
def mountFlagsLoop (root : GoString) : List bindMount → List GoString → List GoString
  | [], nsArgs => nsArgs
  | m :: rest, nsArgs =>
    let option := if m.readOnly then str "--bindmount_ro" else str "--bindmount"
    mountFlagsLoop root rest (nsArgs ++ [option, m.host ++ str ":" ++ mountDest root m.target])

/-- The working directory handed to the command (source lines 455-460). -/
def innerWorkdirOf (rr : RunRoot) (workdir : GoString) : GoString :=
  let workdir := if workdir = [] then rr.WorkDir else workdir
  let innerWorkdir := TrimSpace workdir
  if innerWorkdir = [] then str "/"
  else if HasPrefix innerWorkdir (str "/") = false then str "/" ++ innerWorkdir
  else innerWorkdir

/-- The variable `pathEnv` of `RunInChroot`. -/
def pathEnvOf (useChrootRunner : Bool) : GoString :=
  if useChrootRunner then str "PATH=/.runner:/usr/local/bin:/usr/bin:/bin"
  else str "PATH=/.runner:/env/usr/local/bin:/env/usr/bin:/env/bin:/usr/local/bin:/usr/bin:/bin"

/-- The argument vector `nsArgs` that `RunInChroot` hands to nsjail (source lines 398-479),
for a prepared run-root and the path of the nsjail configuration file. -/
def nsjailArgs (h : Host) (rr : RunRoot) (workdir : GoString) (argv : List GoString)
    (useChrootRunner : Bool) (configPath : GoString) : List GoString :=
  let nsArgs := nsjailFixedArgs configPath rr.Root (pathEnvOf useChrootRunner)
  let nsArgs :=
    if useChrootRunner = false ∧ rr.EnvRoot ≠ [] then
      extraBindLoop h rr.EnvRoot extraMountSpecs nsArgs
    else nsArgs
  let cwdIndex := findCwdIndex nsArgs 0
  let nsArgs := mountFlagsLoop rr.Root rr.mounts nsArgs
  let chrootDest := if rr.WorkDir = [] then str "/" else rr.WorkDir
  let innerWorkdir := innerWorkdirOf rr workdir
  let nsArgs := nsArgs ++ [str "--"]
  if useChrootRunner then
    let binPath := if rr.ChrootBin = [] then chrootRunPath else rr.ChrootBin
    nsArgs ++ ([binPath, chrootDest, innerWorkdir, str "--"] ++ argv)
  else
    let nsArgs :=
      if cwdIndex ≥ 0 then
        if innerWorkdir ≠ [] ∧ innerWorkdir ≠ str "/" then nsArgs.set cwdIndex.toNat innerWorkdir
        else nsArgs.set cwdIndex.toNat (str "/")
      else nsArgs
    nsArgs ++ argv

/-- The child process `RunInChroot` starts: program, arguments, environment, standard input
(`none` when it is left unset) and the caps of the two capture buffers. -/
structure Invocation where
  path : GoString
  args : List GoString
  env : List GoString
  stdin : Option GoString
  stdoutMax : Int
  stderrMax : Int
  deriving DecidableEq, Repr

/-- The command `RunInChroot` builds (source lines 380-497). -/
def nsjailInvocation (h : Host) (rr : RunRoot) (workdir : GoString) (argv : List GoString)
    (stdin : GoString) (lim : RLimits) (useChrootRunner : Bool) (configPath : GoString) :
    Invocation :=
  let nsjailPath :=
    if h.getenv (str "NSJAIL_PATH") = [] then str "/usr/bin/nsjail"
    else h.getenv (str "NSJAIL_PATH")
  let debugDirsEnv := TrimSpace (h.getenv (str "SANDBOX_DEBUG_DIRS"))
  let debugDepthEnv := TrimSpace (h.getenv (str "SANDBOX_DEBUG_DIR_DEPTH"))
  let env := [pathEnvOf useChrootRunner, str "HOME=/tmp", str "TMPDIR=/tmp", str "LANG=C.UTF-8",
              str "LD=/usr/bin/x86_64-linux-gnu-ld"]
  let env := if debugDirsEnv ≠ [] then env ++ [str "CHROOT_RUN_DEBUG_DIRS=" ++ debugDirsEnv] else env
  let env :=
    if debugDepthEnv ≠ [] then env ++ [str "CHROOT_RUN_DEBUG_DEPTH=" ++ debugDepthEnv] else env
  { path := nsjailPath
    args := nsjailArgs h rr workdir argv useChrootRunner configPath
    env := env
    stdin := if stdin ≠ [] then some stdin else none
    stdoutMax := lim.OutputLimit
    stderrMax := lim.OutputLimit }

/-! ## The chroot-entry helper (`runner/cmd/chroot-run/main.go`) -/

/-- How the helper process ends: `os.Exit` with a code, a run-time panic, or the image of the
process replaced by the command (`syscall.Exec`), in the given directory of the new root. -/
inductive HelperEnd where
  | exit (code : Nat)
  | panicked
  | exec (newroot : GoString) (cwd : GoString) (cmd : GoString) (args : List GoString)
  deriving DecidableEq, Repr

/-- Function `main` of `chroot-run` on `os.Args`; `fault i` tells whether the `i`-th system
call of the run fails (`Chdir(newroot)`, `Chdir(relWork)`, `Chroot`, `Chdir("/")`, `Exec`). -/
def chrootRunMain (fault : Nat → Bool) (args : List GoString) : HelperEnd :=
  if args.length < 5 then
    if args = [] then HelperEnd.panicked else HelperEnd.exit 97
  else
    let newroot := args.getD 1 []
    let workdir := args.getD 2 []
    let idx := 3
    if idx < args.length ∧ args.getD idx [] ≠ str "--" then HelperEnd.exit 98
    else if idx ≥ args.length then HelperEnd.exit 100
    else
      let idx := idx + 1
      if fault 0 then HelperEnd.exit 101
      else
        let workdir := if workdir = [] then str "/" else workdir
        let workdir := Clean workdir
        let workdir := if workdir = str "." then str "/" else workdir
        let workdir := if HasPrefix workdir (str "/") = false then str "/" ++ workdir else workdir
        let relWork := TrimPrefix workdir (str "/")
        if relWork ≠ [] ∧ fault 1 then HelperEnd.exit 102
        else if fault 2 then HelperEnd.exit 103
        else if relWork = [] ∧ fault 3 then HelperEnd.exit 104
        else if fault 4 then HelperEnd.exit 127
        else HelperEnd.exec newroot workdir (args.getD idx []) (args.drop idx)

/-! ## The submission dispatcher (`patchable/web/queue.go`, `patchable/web/db.go`) -/

/-- A row of the table `submissions`, with the columns the dispatcher reads and writes. -/
structure SubmissionRow where
  id : Int
  user_id : Int := 0
  challenge : GoString := []
  language : GoString := []
  code : GoString := []
  result : GoString := []
  created_at : Int := 0
  execution_time_ms : Int := 0
  fail_case_index : Int := 0
  last_output : GoString := []
  expected_output : GoString := []
  deriving DecidableEq, Repr

/-- Type `pendingJob`. -/
structure pendingJob where
  ID : Int := 0
  UserID : Int := 0
  Challenge : GoString := []
  Language : GoString := []
  Code : GoString := []
  deriving DecidableEq, Repr

/-- What the database does in one call of `claimNextPending`: which of its steps fail, and
which of the oldest `Pending` rows the query returns when several have the same
`created_at`. -/
structure ClaimOracle where
  beginFails : Bool := false
  queryFails : Bool := false
  execFails : Bool := false
  commitFails : Bool := false
  tie : Nat := 0
  deriving DecidableEq, Repr

/-- The rows with `result = 'Pending'`. -/
def pendingRows (t : List SubmissionRow) : List SubmissionRow :=
  t.filter (fun r => r.result = str "Pending")

/-- The query `SELECT ... WHERE result = 'Pending' ORDER BY created_at ASC LIMIT 1 FOR UPDATE
SKIP LOCKED`, run while no other transaction holds a row lock: one of the `Pending` rows
with the least `created_at`, or no row. -/
def oldestPending (t : List SubmissionRow) (tie : Nat) : Option SubmissionRow :=
  match pendingRows t with
  | [] => none
  | p :: ps =>
    let least := ps.foldl (fun acc r => min acc r.created_at) p.created_at
    let oldest := (p :: ps).filter (fun r => r.created_at = least)
    oldest.get? (tie % oldest.length)

/-- The statement `UPDATE submissions SET result = 'Running' WHERE id = $1 AND result =
'Pending'`. -/
def markRunning (t : List SubmissionRow) (id : Int) : List SubmissionRow :=
  t.map (fun r => if r.id = id ∧ r.result = str "Pending" then { r with result := str "Running" } else r)

/-- Function `claimNextPending`: the job, `ok`, the error, and the table afterwards.  A
failure before the commit rolls the transaction back. -/
def claimNextPending (o : ClaimOracle) (t : List SubmissionRow) :
    (pendingJob × Bool × Option GoString) × List SubmissionRow :=
  if o.beginFails then (({}, false, some (str "begin")), t)
  else if o.queryFails then (({}, false, some (str "query")), t)
  else
    match oldestPending t o.tie with
    | none => (({}, false, none), t)
    | some row =>
      if o.execFails then (({}, false, some (str "exec")), t)
      else if o.commitFails then (({}, false, some (str "commit")), t)
      else
        (({ ID := row.id, UserID := row.user_id, Challenge := row.challenge,
            Language := row.language, Code := row.code }, true, none), markRunning t row.id)

/-- Function `updateSubmissionAfterRun`: the error and the table afterwards. -/
def updateSubmissionAfterRun (fails : Bool) (t : List SubmissionRow) (id : Int)
    (result : GoString) (durationMs failIdx : Int) (lastOut expect : GoString) :
    Option GoString × List SubmissionRow :=
  if fails then (some (str "update"), t)
  else
    (none, t.map (fun r =>
      if r.id = id then
        { r with result := result, execution_time_ms := durationMs, fail_case_index := failIdx,
                 last_output := lastOut, expected_output := expect }
      else r))

/-- Function `createSubmission`: the database assigns the id `newId`; `id` is the key of the
table, so the insert fails when a row has that id already. -/
def createSubmission (newId : Int) (sub : SubmissionRow) (t : List SubmissionRow) :
    Option Int × List SubmissionRow :=
  if newId ∈ t.map (fun r => r.id) then (none, t)
  else (some newId, t ++ [{ sub with id := newId }])

/-- The dispatcher: the table, the job every worker is executing, if any, and the ids the
calls of `claimNextPending` have returned so far (latest first; a ghost of the model). -/
structure Dispatcher where
  table : List SubmissionRow
  holding : Nat → Option pendingJob := fun _ => none
  claimed : List Int := []

/-- One atomic step of the system: a worker at the head of its loop calls
`claimNextPending`; a worker that holds a job writes the verdict of `executeSubmission` back
with `updateSubmissionAfterRun`; a handler inserts a submission. -/
inductive Action where
  | claim (worker : Nat) (o : ClaimOracle)
  | finish (worker : Nat) (result : GoString) (durationMs failIdx : Int)
      (lastOut expect : GoString) (updateFails : Bool)
  | submit (newId : Int) (sub : SubmissionRow)

/-- One step of `submissionWorkerLoop` of a worker, or one insert by a handler. -/
def step (s : Dispatcher) : Action → Dispatcher
  | Action.claim w o =>
    match s.holding w with
    | some _ => s
    | none =>
      let r := claimNextPending o s.table
      if r.1.2.1 then
        { table := r.2,
          holding := fun v => if v = w then some r.1.1 else s.holding v,
          claimed := r.1.1.ID :: s.claimed }
      else { s with table := r.2 }
  | Action.finish w result durationMs failIdx lastOut expect updateFails =>
    match s.holding w with
    | none => s
    | some job =>
      { table := (updateSubmissionAfterRun updateFails s.table job.ID result durationMs failIdx
          lastOut expect).2,
        holding := fun v => if v = w then none else s.holding v,
        claimed := s.claimed }
  | Action.submit newId sub => { s with table := (createSubmission newId sub s.table).2 }

/-- The system after a sequence of steps. -/
def run (s : Dispatcher) (acts : List Action) : Dispatcher := acts.foldl step s

/-! ## `runner/seed.go` and the case tables -/

/-- Go `strings.TrimRight` for a cutset of ASCII characters. -/
def TrimRight (s cutset : GoString) : GoString :=
  (s.reverse.dropWhile (fun c => decide (c ∈ cutset))).reverse

/-- A row of `sample_cases` or of `judge_cases`: the four columns the statements of the
source name. -/
structure caseRow where
  challenge : GoString
  idx : Int
  input : GoString
  output : GoString
  deriving DecidableEq, Repr

/-- A row of `challenges`, with the columns of the upsert of `seedOneChallenge`. -/
structure challengeRow where
  name : GoString
  description : GoString
  input : GoString := []
  output : GoString := []
  points : Int
  is_public : Bool := true
  deriving DecidableEq, Repr

/-- The three tables `seedOneChallenge` writes; a table is the list of its rows, oldest
first. -/
structure Store where
  challenges : List challengeRow := []
  sample_cases : List caseRow := []
  judge_cases : List caseRow := []
  deriving DecidableEq, Repr

/-- The query `SELECT idx, input, output FROM <table> WHERE challenge=$1 ORDER BY idx ASC` of
`getRunnerTests`. -/
def selectCases (table : List caseRow) (challenge : GoString) : List caseRow :=
  (table.filter (fun r => r.challenge = challenge)).insertionSort (fun a b => a.idx ≤ b.idx)

/-- The host `h` with the database `db` behind its two case queries, which succeed. -/
def storeHost (h : Host) (db : Store) : Host :=
  { h with
    sampleCases := fun c =>
      QueryResult.rows ((selectCases db.sample_cases c).map (fun r => (r.input, r.output))) false
    judgeCases := fun c =>
      QueryResult.rows ((selectCases db.judge_cases c).map (fun r => (r.input, r.output))) false }

/-- Type `seedTest`. -/
structure seedTest where
  Input : GoString := []
  Output : GoString := []
  Sample : Bool := false
  deriving DecidableEq, Repr

/-- Type `seedChallenge`. -/
structure seedChallenge where
  Name : GoString := []
  Description : GoString := []
  Points : Int := 0
  Tests : List seedTest := []
  deriving DecidableEq, Repr

/-- The statement `INSERT INTO challenges ... ON CONFLICT(name) DO UPDATE SET ...`. -/
def upsertChallenge (t : List challengeRow) (name desc : GoString) (points : Int) :
    List challengeRow :=
  if t.any (fun r => decide (r.name = name)) then
    t.map (fun r =>
      if r.name = name then { r with description := desc, points := points, is_public := true }
      else r)
  else t ++ [{ name := name, description := desc, points := points }]

/-- The statement `DELETE FROM <table> WHERE challenge=$1`. -/
def deleteCases (t : List caseRow) (name : GoString) : List caseRow :=
  t.filter (fun r => r.challenge ≠ name)

/-- One iteration of the first loop of `seedOneChallenge` over `ch.Tests`: a test whose
input and output are both blank is skipped, the others go to the samples or to the judge
cases with their trailing line ends removed. -/
def splitStep (acc : List seedTest × List seedTest) (t : seedTest) :
    List seedTest × List seedTest :=
  let inp := TrimRight t.Input (str "\r\n")
  let out := TrimRight t.Output (str "\r\n")
  if TrimSpace inp = [] ∧ TrimSpace out = [] then acc
  else
    let entry : seedTest := { Input := inp, Output := out, Sample := t.Sample }
    if t.Sample then (acc.1 ++ [entry], acc.2) else (acc.1, acc.2 ++ [entry])

/-- The samples `seedOneChallenge` derives from the tests: those marked as samples, or the
first test when none is. -/
def seedSamples (tests : List seedTest) : List seedTest :=
  let samples := (tests.foldl splitStep ([], [])).1
  match tests with
  | first :: _ =>
    if samples.length = 0 then
      samples ++ [{ Input := TrimRight first.Input (str "\r\n"),
                    Output := TrimRight first.Output (str "\r\n"), Sample := true }]
    else samples
  | [] => samples

/-- The judge cases `seedOneChallenge` derives from the tests: those not marked as samples,
or every test when there is none. -/
def seedJudges (tests : List seedTest) : List seedTest :=
  let judges := (tests.foldl splitStep ([], [])).2
  if judges.length = 0 then
    judges ++ tests.map (fun t =>
      { Input := TrimRight t.Input (str "\r\n"), Output := TrimRight t.Output (str "\r\n") })
  else judges

/-- The loop `for idx, t := range cases` with its `INSERT` statement, from index `idx` on. -/
def insertCases (name : GoString) : Nat → List seedTest → List caseRow
  | _, [] => []
  | idx, t :: ts =>
    { challenge := name, idx := idx, input := t.Input, output := t.Output } ::
      insertCases name (idx + 1) ts

/-- Function `seedOneChallenge` on a database whose statements succeed: the error, if any,
and the state of the tables afterwards. -/
def seedOneChallenge (db : Store) (ch : seedChallenge) : Option GoString × Store :=
  let name := TrimSpace ch.Name
  if name = [] then (some (str "challenge name is empty"), db)
  else
    let desc := TrimSpace ch.Description
    if desc = [] then (some (str "challenge description is empty"), db)
    else
      let points := if ch.Points ≤ 0 then 100 else ch.Points
      (none,
        { challenges := upsertChallenge db.challenges name desc points,
          sample_cases :=
            deleteCases db.sample_cases name ++ insertCases name 0 (seedSamples ch.Tests),
          judge_cases :=
            deleteCases db.judge_cases name ++ insertCases name 0 (seedJudges ch.Tests) })

/-- The loop of `seedInitialChallenges` over the seeds, inside its transaction: the first
error ends it. -/
def seedLoop : List seedChallenge → Store → Option GoString × Store
  | [], db => (none, db)
  | ch :: rest, db =>
    match (seedOneChallenge db ch).1 with
    | some e => (some e, (seedOneChallenge db ch).2)
    | none => seedLoop rest (seedOneChallenge db ch).2

/-- Function `seedInitialChallenges` for the parsed seeds `items`: the transaction is
committed when every seed went through; an error ends the process before the commit and
leaves the tables as they were. -/
def seedInitialChallenges (items : List seedChallenge) (db : Store) : Option GoString × Store :=
  match (seedLoop items db).1 with
  | some e => (some e, db)
  | none => (none, (seedLoop items db).2)

/-! ## Notions used in the statements -/

/-- A concatenation of byte sequences taken from `pats`. -/
def RunOf (pats : List GoString) (x : GoString) : Prop :=
  ∃ ps : List GoString, (∀ p ∈ ps, p ∈ pats) ∧ x = ps.flatten

/-- A string that consists of white-space runes only. -/
def WhiteOnly (x : GoString) : Prop := RunOf spaceEncodings x

/-- A host with template roots for `c`, `python`, `go` and `cobol`, none for `rust`, an existing
`/flag2`, no failing operation, and one sample test `("", "hi")` for every challenge; every
sandboxed command exits with status zero and leaves `hi` in its stdout capture file. -/
def okHost : Host :=
  { getenv := fun _ => [],
    tempDir := str "/tmp",
    evalSymlinks := fun _ => none,
    stat := fun p =>
      if p = str "/opt/sandbox-envs/c" ∨ p = str "/opt/sandbox-envs/python" ∨
          p = str "/opt/sandbox-envs/go" ∨ p = str "/opt/sandbox-envs/cobol" then
        StatResult.ok true 0o755
      else if p = str "/opt/sandbox-envs/rust" then StatResult.notExist
      else StatResult.ok false 0o644,
    readDir := fun _ => some [{ name := str "bin", kind := EntryKind.symlink },
                              { name := str "usr", kind := EntryKind.dir },
                              { name := str "etc", kind := EntryKind.dir }],
    fault := fun _ => false,
    sandbox := fun _ => { stdoutFile := FileRead.data (str "hi\n") },
    hostRun := fun _ => ([], false),
    helper := fun _ => {},
    pastDeadline := fun _ => false,
    sampleCases := fun _ => QueryResult.rows [([], str "hi")] false,
    judgeCases := fun _ => QueryResult.rows [] false }

/-- The host `okHost` on which every sandboxed command exits with status 1 and leaves a
diagnostic in its stderr capture file (a failing compiler). -/
def compileFailHost : Host :=
  { okHost with
    sandbox := fun _ =>
      { err := some (str "exit status 1"),
        stderrFile := FileRead.data (str "code.c:1:10: error: FLAG\x7bsecret\x7d") } }

/-- A judge-mode submission in C whose source includes the sensitive file. -/
def includeFlagRequest : RunRequest :=
  { Language := str "c", Code := str "#include \"/flag2\"", Challenge := str "hello",
    Mode := str "judge" }

/-- A judge-mode submission in Python that prints the expected output. -/
def helloRequest : RunRequest :=
  { Language := str "python", Code := str "print(\"hi\")", Challenge := str "hello",
    Mode := str "judge" }

/-- A run that was killed at the per-test deadline after printing the expected output. -/
def killedReply : RunReply :=
  { err := some (str "signal: killed"), stdoutFile := FileRead.data (str "hi\n"), durMs := 1000,
    execDeadline := true }

/-- The host `okHost` on which every sandboxed command is killed at the per-test deadline. -/
def slowHost : Host := { okHost with sandbox := fun _ => killedReply }

/-- The host `okHost` with a challenge whose only test expects no output, and on which every
sandboxed command prints `foo`. -/
def blankHost : Host :=
  { okHost with
    sandbox := fun _ => { stdoutFile := FileRead.data (str "foo\n") },
    sampleCases := fun _ => QueryResult.rows [([], [])] false }

/-- A Go submission to a challenge, sent with `mode = "single"`. -/
def goSingleRequest : RunRequest :=
  { Language := str "go", Code := str "package main", Challenge := str "hello",
    Mode := str "single" }

/-- The request the go-helper process builds from the command line and the tests file the
runner writes for `goSingleRequest` on `blankHost`. -/
def goSingleHelperRequest : gohelper.Request :=
  { Code := str "package main", Mode := str "single", GlobalTimeoutMs := 30000,
    OutputLimit := 65536, Tests := [{ Input := [], Output := [], IsSample := true }] }

/-- The outcome of one test run, in the words of the spec: deadline exceeded, non-zero exit,
trimmed output different from trimmed expected, or a pass. -/
inductive Outcome where
  | pass
  | timeLimit
  | runtimeError
  | wrongAnswer
  deriving DecidableEq, Repr

/-- The verdict string of a failing outcome (`Success` for a pass). -/
def Outcome.verdict : Outcome → GoString
  | Outcome.pass => str "Success"
  | Outcome.timeLimit => str "Time Limit Exceeded"
  | Outcome.runtimeError => str "Runtime Error"
  | Outcome.wrongAnswer => str "Wrong Answer"

/-- The outcome the spec assigns to a finished run: a deadline exceeded is a time limit, else
a failed run is a runtime error, else a trimmed captured stdout different from the trimmed
expected output is a wrong answer, else the test passes. -/
def outcomeOf (outLimit : Int) (tc : runnerTest) (reply : RunReply) : Outcome :=
  if reply.execDeadline = true ∨ reply.globalDeadline = true then Outcome.timeLimit
  else if reply.err.isSome then Outcome.runtimeError
  else if TrimSpace (readFileLimited reply.stdoutFile outLimit) ≠ TrimSpace tc.Output then
    Outcome.wrongAnswer
  else Outcome.pass

/-- What the run of test `j` returns when the test loop of `runProgramWithTests` is entered in
world `w`: each earlier iteration has used two oracle answers, one for its run and one for the
reset of the temp directory. -/
def testReply (h : Host) (rr : RunRoot) (hostWork workdir : GoString) (useChrootRunner : Bool)
    (shellPath : GoString) (argv : List GoString) (runLim : RLimits) (w : World) (j : Nat)
    (tc : runnerTest) : RunReply :=
  (RunInChroot h (RunKind.test j) (some rr) workdir
    (testArgv hostWork workdir shellPath argv (str "test-" ++ Itoa j)) tc.Input runLim
    useChrootRunner { w with tick := w.tick + 2 * j }).1

/-- What `RunInChroot`, called at tick `t` with a run-root and a non-empty argv, returns. -/
def observedAt (h : Host) (t : Nat) : RunReply :=
  if (h.sandbox t).configErr then
    { (h.sandbox t) with
      res := {}
      err := some (str "prepare nsjail config: " ++ ((h.sandbox t).err.getD [])) }
  else h.sandbox t

/-- The host `okHost` with a challenge of two tests, expecting `hi` and then `bye`; every
sandboxed command prints `hi`. -/
def secondFailsHost : Host :=
  { okHost with sampleCases := fun _ => QueryResult.rows [([], str "hi"), ([], str "bye")] false }

/-- Events that compile, run or store a submission: a sandboxed run, a file written on the
host, a start of the go-helper process. -/
def Event.isWork : Event → Bool
  | Event.run _ _ _ _ _ _ => true
  | Event.writeFile _ _ => true
  | Event.helper _ => true
  | _ => false

/-- The events the world `w1` has recorded beyond those of `w`. -/
def newEvents (w w1 : World) : List Event := w1.trace.drop w.trace.length

/-- The world `w1` extends the trace of `w` by events that all satisfy `P`. -/
def Adds (P : Event → Prop) (w w1 : World) : Prop :=
  w.trace <+: w1.trace ∧ ∀ e ∈ newEvents w w1, P e

/-- An event of the set-up of the run-root `root` after its directory exists: a command on the
host, or the removal of `root`. -/
def SetupEvent (root : GoString) (e : Event) : Prop :=
  e = Event.removed root ∨ ∃ a, e = Event.hostRun a

/-- An event of a call of `PrepareRunRootWithOptions` whose fresh directory is `root`. -/
def PrepEvent (language : GoString) (opts : PrepareRunRootOptions) (root : GoString)
    (e : Event) : Prop :=
  e = Event.prepare language opts ∨ e = Event.created root language opts ∨ SetupEvent root e

/-- A run of the user's program (a test run or the single run) in the run-root `root`. -/
def IsProgramRun (root : GoString) (e : Event) : Prop :=
  ∃ k wd a s u, k ≠ RunKind.compile ∧ e = Event.run k root wd a s u

/-- The shape of the events of a two-stage pipeline with build run-root `b` (options
`buildOpts`) and run run-root `r` (options `runOptions`): every preparation is one of the
two, the only run in `b` is the compile run, every run of the user's program is in `r`, and no
helper process is started. -/
def TwoRootEvent (language : GoString) (buildOpts : PrepareRunRootOptions) (b r : GoString)
    (e : Event) : Prop :=
  match e with
  | Event.prepare l o => l = language ∧ (o = buildOpts ∨ o = runOptions)
  | Event.created root l o =>
    l = language ∧ ((root = b ∧ o = buildOpts) ∨ (root = r ∧ o = runOptions))
  | Event.removed root => root = b ∨ root = r
  | Event.run kind root _ _ _ _ =>
    (kind = RunKind.compile ∧ root = b) ∨ (kind ≠ RunKind.compile ∧ root = r)
  | Event.hostRun _ => True
  | Event.writeFile _ _ => True
  | Event.helper _ => False

/-- The event is not a run of the user's program in any run-root. -/
def NoProgramRun (e : Event) : Prop := ∀ root, ¬ IsProgramRun root e

/-- The two-run-root discipline of a pipeline that ran between the worlds `w` and `w1`, with
`b` and `r` the first and the second fresh directory under `dir`: the two differ, every new
event has the shape `TwoRootEvent` allows, and whenever the user's program was run, the
run-root `r` it ran in had been created with `runOptions`. -/
def TwoRootPipeline (language : GoString) (buildOpts : PrepareRunRootOptions) (dir : GoString)
    (w w1 : World) : Prop :=
  tempName dir w.temps ≠ tempName dir (w.temps + 1) ∧
  (∀ e ∈ newEvents w w1,
    TwoRootEvent language buildOpts (tempName dir w.temps) (tempName dir (w.temps + 1)) e) ∧
  ((∃ e ∈ newEvents w w1, IsProgramRun (tempName dir (w.temps + 1)) e) →
    Event.created (tempName dir (w.temps + 1)) language runOptions ∈ newEvents w w1)

/-- The kind and the run-root of a sandboxed run. -/
def runOf : Event → Option (RunKind × GoString)
  | Event.run k root _ _ _ _ => some (k, root)
  | _ => none

/-- The sandbox field of a request is one `execute` accepts: blank, `default` or
`nsjail_only`. -/
def ValidSandbox (req : RunRequest) : Prop :=
  TrimSpace req.Sandbox = [] ∨ TrimSpace req.Sandbox = str "default" ∨
    TrimSpace req.Sandbox = str "nsjail_only"

instance (req : RunRequest) : Decidable (ValidSandbox req) := by
  unfold ValidSandbox
  infer_instance

/-- The languages `execute` has a pipeline for. -/
def supportedLanguages : List GoString := [str "c", str "go", str "python", str "ruby"]

/-- A path element that `filepath.Clean` keeps as it is: not empty, without a separator, and
neither `.` nor `..`. -/
def Regular (name : GoString) : Prop :=
  name ≠ [] ∧ slash ∉ name ∧ name ≠ str "." ∧ name ≠ str ".."

instance (name : GoString) : Decidable (Regular name) := by
  unfold Regular
  infer_instance

/-- The text of a cleaned directory in front of a further element: the leading separator of a
rooted path, then the elements, each followed by a separator. -/
def renderDir (rooted : Bool) (elems : List GoString) : GoString :=
  (if rooted then [slash] else []) ++
    (if elems = [] then [] else [slash].intercalate elems ++ [slash])

/-- The invariant of the output of `filepath.Clean`'s scan (last element first): no element
is empty, `.` or contains a separator, and `..` occurs only in unrooted paths, on top of
nothing but `..`. -/
def stackOK (rooted : Bool) : List GoString → Prop
  | [] => True
  | c :: st =>
    (c ≠ [] ∧ slash ∉ c ∧ c ≠ str "." ∧ (c = str ".." → rooted = false ∧ ∀ d ∈ st, d = str ".."))
      ∧ stackOK rooted st

/-- The names `os.ReadDir` reports for the directory `p` are file names: not empty and
without a separator. -/
def DirNamesOK (h : Host) (p : GoString) : Prop :=
  match h.readDir p with
  | some entries => ∀ e ∈ entries, e.name ≠ [] ∧ slash ∉ e.name
  | none => True

instance (h : Host) (p : GoString) : Decidable (DirNamesOK h p) := by
  unfold DirNamesOK
  split <;> infer_instance

/-- The run run-root of a C request on `okHost`. -/
def cRunRootExample : RunRoot :=
  match (PrepareRunRootWithOptions okHost (str "c") runOptions {}).1 with
  | Except.ok rr => rr
  | Except.error _ => {}

/-- The build run-root of a C request on `okHost`. -/
def cBuildRootExample : RunRoot :=
  match (PrepareRunRootWithOptions okHost (str "c") cBuildOptions {}).1 with
  | Except.ok rr => rr
  | Except.error _ => {}

/-- Options of a caller that is not the C run stage and names one flag destination, `/x`. -/
def customDestOptions : PrepareRunRootOptions := { FlagDestinations := [str "/x"] }

/-- The run-root prepared on `okHost` with `customDestOptions`. -/
def customDestRunRoot : RunRoot :=
  match (PrepareRunRootWithOptions okHost (str "c") customDestOptions {}).1 with
  | Except.ok rr => rr
  | Except.error _ => {}

/-- The sort key of `dedupeAndSortMounts`, as an element of the lexicographic order on
(target, host, readOnly), writable before read-only. -/
def mountRank (m : bindMount) : GoString ×ₗ GoString ×ₗ Bool :=
  toLex (m.target, toLex (m.host, m.readOnly))

/-- Strictly ascending in the lexicographic order on (target, host). -/
def targetHostLt (a b : bindMount) : Prop :=
  a.target < b.target ∨ (a.target = b.target ∧ a.host < b.host)

/-- The bind flag of one mount, in the words of the spec: `--bindmount_ro` for a read-only
entry and `--bindmount` otherwise, with the value `host:dest`, where `dest` is the target
relative to the root of the run-root, as an absolute path. -/
def bindFlag (root : GoString) (m : bindMount) : List GoString :=
  [if m.readOnly then str "--bindmount_ro" else str "--bindmount",
   m.host ++ str ":" ++ mountDest root m.target]

/-- What follows the separator: the helper invocation around `argv`, or `argv` itself. -/
def commandTail (rr : RunRoot) (workdir : GoString) (argv : List GoString)
    (useChrootRunner : Bool) : List GoString :=
  if useChrootRunner then
    [if rr.ChrootBin = [] then chrootRunPath else rr.ChrootBin,
     if rr.WorkDir = [] then str "/" else rr.WorkDir, innerWorkdirOf rr workdir, str "--"] ++ argv
  else argv

/-- The host `okHost` whose test store has no test for any challenge. -/
def noTestsHost : Host := { okHost with sampleCases := fun _ => QueryResult.rows [] false }

/-- The terminal verdicts of a submission, as the spec lists them. -/
def terminalVerdicts : List GoString :=
  [str "Success", str "Wrong Answer", str "Runtime Error", str "Time Limit Exceeded",
   str "Compile Error", str "Internal Error", str "Unknown challenge",
   str "Unsupported language"]

/-- A step writes back a terminal verdict, if it writes a verdict back at all. -/
def Action.terminal : Action → Prop
  | Action.finish _ result _ _ _ _ _ => result ∈ terminalVerdicts
  | _ => True

instance (a : Action) : Decidable a.terminal := by
  cases a <;> unfold Action.terminal <;> infer_instance

/-- The `result` of the first row with the given id. -/
def resultOf (t : List SubmissionRow) (id : Int) : Option GoString :=
  (t.find? (fun r => r.id = id)).map (fun r => r.result)

/-- The moves of a `result` the spec allows in one step: none, `Pending` to `Running`, or
`Running` to a terminal verdict. -/
def LegalMove (r r1 : GoString) : Prop :=
  r1 = r ∨ (r = str "Pending" ∧ r1 = str "Running") ∨
    (r = str "Running" ∧ r1 ∈ terminalVerdicts)

/-- No step of the database fails in a call of `claimNextPending`. -/
def ClaimOracle.noFailure (o : ClaimOracle) : Prop :=
  o.beginFails = false ∧ o.queryFails = false ∧ o.execFails = false ∧ o.commitFails = false

instance (o : ClaimOracle) : Decidable o.noFailure := by
  unfold ClaimOracle.noFailure
  infer_instance

/-- The ids of the rows of a table are pairwise different (`id` is its key). -/
def UniqueIds (t : List SubmissionRow) : Prop := (t.map (fun r => r.id)).Nodup

instance (t : List SubmissionRow) : Decidable (UniqueIds t) := by
  unfold UniqueIds
  infer_instance

/-- A table with three rows; the rows 2 and 3 are `Pending`, row 3 is the older one. -/
def exampleTable : List SubmissionRow :=
  [{ id := 1, result := str "Success", created_at := 5 },
   { id := 2, result := str "Pending", created_at := 20 },
   { id := 3, result := str "Pending", created_at := 10 }]

/-- The invariant of the dispatcher: the ids of the table are distinct; no id was returned
twice; every returned id is in the table and its row is not `Pending`; the row of a job that a
worker holds is `Running`; no two workers hold the same job. -/
def DispatcherInv (s : Dispatcher) : Prop :=
  UniqueIds s.table ∧
  s.claimed.Nodup ∧
  (∀ id ∈ s.claimed, id ∈ s.table.map (fun r => r.id)) ∧
  (∀ id ∈ s.claimed, ∀ r ∈ s.table, r.id = id → r.result ≠ str "Pending") ∧
  (∀ w job, s.holding w = some job →
    job.ID ∈ s.claimed ∧ ∀ r ∈ s.table, r.id = job.ID → r.result = str "Running") ∧
  (∀ w v job job1, s.holding w = some job → s.holding v = some job1 → job.ID = job1.ID → w = v)

/-- A state in which the workers start: distinct ids, no worker holds a job, nothing has been
claimed. -/
def Dispatcher.initial (s : Dispatcher) : Prop :=
  UniqueIds s.table ∧ (∀ w, s.holding w = none) ∧ s.claimed = []

/-- The step from `s` to `s1` moves the `result` of every row in an allowed way. -/
def LegalStep (s s1 : Dispatcher) : Prop :=
  ∀ id r, resultOf s.table id = some r → ∃ r1, resultOf s1.table id = some r1 ∧ LegalMove r r1

/-- Two workers and a handler: both workers claim, worker 0 reports `Success`, a submission
arrives, worker 1 reports `Wrong Answer`, worker 0 claims again. -/
def exampleSchedule : List Action :=
  [Action.claim 0 {}, Action.claim 1 {},
   Action.finish 0 (str "Success") 12 (-1) [] [] false,
   Action.submit 4 { id := 0, result := str "Pending", created_at := 30 },
   Action.finish 1 (str "Wrong Answer") 7 0 [] [] false]

/-- The host `okHost` on which the nsjail configuration file cannot be created: every call of
`RunInChroot` fails in `nsjailConfigPath` before nsjail is started, so no command runs and no
capture file is written. -/
def configFailHost : Host :=
  { okHost with
    sandbox := fun _ =>
      { configErr := true,
        err := some (str "open /tmp/nsjail-config-1.cfg: permission denied") } }

/-- The host `okHost` on which `os.Stat("/flag2")` fails with an error other than "does not
exist" (for instance an I/O error of the file system holding it). -/
def flagStatFailHost : Host :=
  { okHost with stat := fun p => if p = str "/flag2" then StatResult.failed else okHost.stat p }

/-- The test `getRunnerTests` builds from a row of `sample_cases`. -/
def sampleTest (r : caseRow) : runnerTest := { Input := r.input, Output := r.output, IsSample := true }

/-- The test `getRunnerTests` builds from a row of `judge_cases`. -/
def hiddenTest (r : caseRow) : runnerTest := { Input := r.input, Output := r.output }

/-- A database with the cases of two challenges, stored out of order. -/
def exampleStore : Store :=
  { sample_cases :=
      [{ challenge := str "hello", idx := 1, input := str "b", output := str "B" },
       { challenge := str "other", idx := 0, input := str "x", output := str "X" },
       { challenge := str "hello", idx := 0, input := str "a", output := str "A" }],
    judge_cases :=
      [{ challenge := str "hello", idx := 2, input := str "e", output := str "E" },
       { challenge := str "hello", idx := 0, input := str "c", output := str "C" },
       { challenge := str "hello", idx := 1, input := str "d", output := str "D" }] }

/-- Applying `seedOneChallenge` to each seed in turn; a seed it rejects changes nothing. -/
def seedEach (items : List seedChallenge) (db : Store) : Store :=
  items.foldl (fun d ch => (seedOneChallenge d ch).2) db

/-- What a seed does to a case table: nothing when `seedOneChallenge` rejects it, otherwise
the rows of its challenge are replaced by the rows derived from its tests by `cases`. -/
def caseUpdate (cases : List seedTest → List seedTest) (ch : seedChallenge) :
    Option (GoString × List caseRow) :=
  if TrimSpace ch.Name = [] ∨ TrimSpace ch.Description = [] then none
  else some (TrimSpace ch.Name, insertCases (TrimSpace ch.Name) 0 (cases ch.Tests))

/-- A replacement of the rows of one challenge in a case table. -/
def applyUpdate (t : List caseRow) : Option (GoString × List caseRow) → List caseRow
  | none => t
  | some u => deleteCases t u.1 ++ u.2

/-- The challenges a list of replacements names. -/
def updateNames (us : List (Option (GoString × List caseRow))) : List GoString :=
  us.filterMap (fun u => u.map Prod.fst)

/-- Every row of a replacement belongs to the challenge of the replacement. -/
def UpdateOK (u : Option (GoString × List caseRow)) : Prop :=
  ∀ v, u = some v → ∀ r ∈ v.2, r.challenge = v.1

/-- A parent directory and a path below it: `p` is a proper path prefix of `q`. -/
def ParentPath (p q : GoString) : Prop :=
  p ≠ q ∧ (HasPrefix q (p ++ str "/") = true ∨
    (HasSuffix p (str "/") = true ∧ HasPrefix q p = true))

instance (p q : GoString) : Decidable (ParentPath p q) := by
  unfold ParentPath
  infer_instance

/-- A mount list that names a device below the work directory before the work directory
and the run-root. -/
def nestedMounts : List bindMount :=
  [{ host := str "/dev/null", target := str "/r/env/dev/null", readOnly := false },
   { host := str "/opt/env/usr", target := str "/r/env/usr", readOnly := true },
   { host := str "/opt/env", target := str "/r/env", readOnly := true },
   { host := str "/r", target := str "/", readOnly := true }]

/-- The host `okHost` with a global timeout of half a second in `RUNNER_GLOBAL_TIMEOUT_MS`. -/
def shortGlobalHost : Host :=
  { okHost with
    getenv := fun k => if k = str "RUNNER_GLOBAL_TIMEOUT_MS" then str "500" else [] }

/-! ## The shell command language, as far as the runner writes it

The token rules of the POSIX shell for the fragment `buildCaptureCommand` produces: words made
of literal characters, single-quoted text and backslash escapes, separated by blanks; the
operator `&&`; and the output redirection `>` with an optional file-descriptor number.  Every
other special character outside quotes is rejected. -/

/-- A token of the shell command language. -/
inductive ShellToken where
  /-- A word, after quote removal. -/
  | word (w : GoString)
  /-- The operator `&&`. -/
  | andIf
  /-- The redirection `>` of file descriptor `fd`. -/
  | redirectOut (fd : Nat)
  deriving DecidableEq, Repr

/-- Where the scanner is: outside quotes, inside single quotes, right after a backslash,
right after one `&`, right after `>`. -/
inductive ScanMode where
  | unquoted
  | quoted
  | escaped
  | amp
  | gt
  deriving DecidableEq, Repr

/-- The state of the scanner: the tokens delimited so far, the word under construction if
there is one, whether that word consists of unquoted literal characters only, and the
mode. -/
structure ScanState where
  toks : List ShellToken := []
  cur : Option GoString := none
  bare : Bool := true
  mode : ScanMode := ScanMode.unquoted
  deriving DecidableEq, Repr

/-- The characters, other than the quote, the backslash, the blanks, `&` and `>`, that are or
may be special outside quotes: newline, the other operator characters, the characters that
start an expansion or a double quote, and the pattern, comment, tilde, assignment and
reserved-word characters. -/
def shellSpecial : List Nat :=
  [10, 124, 59, 60, 40, 41, 36, 96, 34, 42, 63, 91, 93, 35, 126, 61, 37, 33, 123, 125]

/-- The end of the word under construction: it is delimited as a token. -/
def flushWord (st : ScanState) : ScanState :=
  match st.cur with
  | some w => { st with toks := st.toks ++ [ShellToken.word w], cur := none, bare := true }
  | none => st

/-- The value of a string of decimal digits. -/
def digitsValue (w : GoString) : Nat := w.foldl (fun a c => 10 * a + (c - 48)) 0

/-- One character outside quotes.  A quote opens quoted text in the current word, a backslash
escapes the next character, a blank ends the current word, `&` must start `&&`, and `>` is a
redirection, whose file descriptor is the current word when that word consists of unquoted
digits only. -/
def stepUnquoted (st : ScanState) (c : Nat) : Option ScanState :=
  if c = 39 then
    some { st with cur := some (st.cur.getD []), bare := false, mode := ScanMode.quoted }
  else if c = 92 then some { st with mode := ScanMode.escaped }
  else if c = 32 ∨ c = 9 then some { flushWord st with mode := ScanMode.unquoted }
  else if c = 38 then some { flushWord st with mode := ScanMode.amp }
  else if c = 62 then
    match st.cur with
    | some w =>
      if st.bare = true ∧ w ≠ [] ∧ w.all (fun d => decide (48 ≤ d ∧ d ≤ 57)) = true then
        some { toks := st.toks ++ [ShellToken.redirectOut (digitsValue w)], cur := none,
               bare := true, mode := ScanMode.gt }
      else
        some { toks := st.toks ++ [ShellToken.word w, ShellToken.redirectOut 1], cur := none,
               bare := true, mode := ScanMode.gt }
    | none => some { st with toks := st.toks ++ [ShellToken.redirectOut 1], mode := ScanMode.gt }
  else if c ∈ shellSpecial then none
  else some { st with cur := some (st.cur.getD [] ++ [c]), mode := ScanMode.unquoted }

/-- One character of the command text. -/
def scanStep (st : ScanState) (c : Nat) : Option ScanState :=
  match st.mode with
  | ScanMode.unquoted => stepUnquoted st c
  | ScanMode.quoted =>
    if c = 39 then some { st with mode := ScanMode.unquoted }
    else some { st with cur := some (st.cur.getD [] ++ [c]) }
  | ScanMode.escaped =>
    if c = 10 then some { st with mode := ScanMode.unquoted }
    else some { st with cur := some (st.cur.getD [] ++ [c]), bare := false,
                        mode := ScanMode.unquoted }
  | ScanMode.amp =>
    if c = 38 then some { st with toks := st.toks ++ [ShellToken.andIf], mode := ScanMode.unquoted }
    else none
  | ScanMode.gt =>
    if c = 62 ∨ c = 38 ∨ c = 124 then none else stepUnquoted st c

/-- The scanner run over a text. -/
def scan : ScanState → GoString → Option ScanState
  | st, [] => some st
  | st, c :: cs =>
    match scanStep st c with
    | none => none
    | some st1 => scan st1 cs

/-- The tokens of a command text: `none` when the text ends inside quotes, after a backslash
or right after an operator character, or uses a character outside the fragment. -/
def shellTokens (text : GoString) : Option (List ShellToken) :=
  match scan {} text with
  | none => none
  | some st =>
    match st.mode with
    | ScanMode.unquoted => some (flushWord st).toks
    | _ => none

/-- A judge-mode submission in Python that asks for the sandbox variant `nsjail_only`. -/
def nsjailOnlyRequest : RunRequest :=
  { Language := str "python", Code := str "print(open(\"/flag2\").read())",
    Challenge := str "hello", Mode := str "judge", Sandbox := str "nsjail_only" }

/-- The directory that becomes the root of the process `RunInChroot` starts in a run-root:
the work directory `/env` of the run-root when the chroot helper is used, the run-root itself
when it is not. -/
def processRoot (rr : RunRoot) (useChrootRunner : Bool) : GoString :=
  if useChrootRunner then rr.WorkHost else rr.Root

/-- A path lies inside the file-system view rooted at `root`. -/
def InsideView (root path : GoString) : Prop :=
  path = root ∨ HasPrefix path (root ++ str "/") = true

instance (root path : GoString) : Decidable (InsideView root path) := by
  unfold InsideView
  infer_instance

/-- The call site, the run-root and the use of the chroot helper of a sandboxed run. -/
def runModeOf : Event → Option (RunKind × GoString × Bool)
  | Event.run kind root _ _ _ useChrootRunner => some (kind, root, useChrootRunner)
  | _ => none

/-- Two mounts with different hosts and targets and the same de-duplication key
`/a->/b->/c`. -/
def collidingMounts : List bindMount :=
  [{ host := str "/a", target := str "/b->/c", readOnly := true },
   { host := str "/a->/b", target := str "/c", readOnly := true }]

/-- The host and the target of a mount. -/
def mountPair (m : bindMount) : GoString × GoString := (m.host, m.target)

/-- No host path of the list contains the text `->`. -/
def ArrowFreeHosts (ms : List bindMount) : Prop := ∀ m ∈ ms, ¬ (str "->" <:+: m.host)

instance (ms : List bindMount) : Decidable (ArrowFreeHosts ms) := by
  unfold ArrowFreeHosts
  infer_instance

/-! ## Lemmas on strings -/

theorem headWidth_nil (pats : List GoString) : headWidth pats [] = 0 := by
  unfold headWidth
  split
  · next p hp =>
    have := List.find?_some hp
    simp at this
    simp [this]
  · rfl

theorem stripHead_of_headWidth_zero (pats : List GoString) (fuel : Nat) (s : GoString)
    (h0 : headWidth pats s = 0) : stripHead pats fuel s = s := by
  cases fuel with
  | zero => rfl
  | succ f => simp [stripHead, h0]

theorem stripHead_headWidth (pats : List GoString) :
    ∀ (fuel : Nat) (s : GoString), s.length ≤ fuel → headWidth pats (stripHead pats fuel s) = 0 := by
  intro fuel
  induction fuel with
  | zero =>
    intro s hs
    have : s = [] := List.length_eq_zero.mp (Nat.le_zero.mp hs)
    subst this
    simpa [stripHead] using headWidth_nil pats
  | succ f ih =>
    intro s hs
    unfold stripHead
    split
    · next h0 => exact h0
    · next n hn =>
      apply ih
      simp only [List.length_drop]
      omega

theorem headWidth_take (pats : List GoString) (s : GoString) (n : Nat)
    (hn : headWidth pats s = n + 1) : s.take (n + 1) ∈ pats ∧ s = s.take (n + 1) ++ s.drop (n + 1) := by
  unfold headWidth at hn
  split at hn
  · next p hp =>
    have hmem := List.mem_of_find?_eq_some hp
    have hpre := List.find?_some hp
    simp only [List.isPrefixOf_iff_prefix] at hpre
    obtain ⟨t, ht⟩ := hpre
    subst ht
    rw [← hn]
    simp [hmem]
  · simp at hn

theorem stripHead_split (pats : List GoString) :
    ∀ (fuel : Nat) (s : GoString), ∃ l, RunOf pats l ∧ s = l ++ stripHead pats fuel s := by
  intro fuel
  induction fuel with
  | zero => intro s; exact ⟨[], ⟨[], by simp, by simp⟩, by simp [stripHead]⟩
  | succ f ih =>
    intro s
    unfold stripHead
    split
    · exact ⟨[], ⟨[], by simp, by simp⟩, by simp⟩
    · next n hn =>
      obtain ⟨hmem, hs⟩ := headWidth_take pats s n hn
      obtain ⟨l, ⟨ps, hps, hl⟩, hrest⟩ := ih (s.drop (n + 1))
      refine ⟨s.take (n + 1) ++ l, ⟨s.take (n + 1) :: ps, ?_, ?_⟩, ?_⟩
      · intro p hp
        rcases List.mem_cons.mp hp with h | h
        · exact h ▸ hmem
        · exact hps p h
      · simp [hl]
      · rw [List.append_assoc, ← hrest]; exact hs

theorem headWidth_of_prefix (pats : List GoString) (hne : ∀ p ∈ pats, p ≠ [])
    (t u : GoString) (hu : u <+: t) (h0 : headWidth pats t = 0) : headWidth pats u = 0 := by
  unfold headWidth at h0 ⊢
  split
  · next p hp =>
    exfalso
    have hmem := List.mem_of_find?_eq_some hp
    have hpre := List.find?_some hp
    simp only [List.isPrefixOf_iff_prefix] at hpre
    have hpt : p <+: t := hpre.trans hu
    split at h0
    · next q hq =>
      have hqm := List.mem_of_find?_eq_some hq
      exact hne q hqm (List.length_eq_zero.mp h0)
    · next hnone =>
      rw [List.find?_eq_none] at hnone
      have := hnone p hmem
      simp [List.isPrefixOf_iff_prefix, hpt] at this
  · rfl


theorem spaceEncodings_ne_nil : ∀ p ∈ spaceEncodings, p ≠ [] := by decide

theorem spaceEncodingsRev_ne_nil : ∀ p ∈ spaceEncodings.map List.reverse, p ≠ [] := by decide

theorem TrimLeftSpace_headWidth (s : GoString) :
    headWidth spaceEncodings (TrimLeftSpace s) = 0 :=
  stripHead_headWidth _ _ _ (Nat.le_refl _)

theorem TrimRightSpace_initial (s : GoString) : TrimRightSpace s <+: s := by
  obtain ⟨l, _, hl⟩ := stripHead_split (spaceEncodings.map List.reverse) s.length s.reverse
  refine ⟨l.reverse, ?_⟩
  have := congrArg List.reverse hl
  simp only [List.reverse_reverse, List.reverse_append] at this
  exact this.symm

theorem TrimRightSpace_idem (s : GoString) : TrimRightSpace (TrimRightSpace s) = TrimRightSpace s := by
  have h0 := stripHead_headWidth (spaceEncodings.map List.reverse) s.length s.reverse (by simp)
  unfold TrimRightSpace
  rw [List.reverse_reverse, stripHead_of_headWidth_zero _ _ _ h0]

theorem TrimLeftSpace_of_headWidth_zero (s : GoString) (h0 : headWidth spaceEncodings s = 0) :
    TrimLeftSpace s = s := stripHead_of_headWidth_zero _ _ _ h0

/-- Trimming is idempotent. -/
theorem TrimSpace_idem (s : GoString) : TrimSpace (TrimSpace s) = TrimSpace s := by
  unfold TrimSpace
  have h1 : headWidth spaceEncodings (TrimRightSpace (TrimLeftSpace s)) = 0 :=
    headWidth_of_prefix _ spaceEncodings_ne_nil _ _ (TrimRightSpace_initial _)
      (TrimLeftSpace_headWidth s)
  rw [TrimLeftSpace_of_headWidth_zero _ h1, TrimRightSpace_idem]

theorem RunOf_reverse (pats : List GoString) (x : GoString)
    (hx : RunOf (pats.map List.reverse) x) : RunOf pats x.reverse := by
  obtain ⟨ps, hps, rfl⟩ := hx
  refine ⟨(ps.map List.reverse).reverse, ?_, ?_⟩
  · intro p hp
    simp only [List.mem_reverse, List.mem_map] at hp
    obtain ⟨q, hq, rfl⟩ := hp
    have := hps q hq
    simp only [List.mem_map] at this
    obtain ⟨r, hr, rfl⟩ := this
    simpa using hr
  · simp [List.reverse_flatten]

/-- Trimming removes a white-space-only prefix and a white-space-only suffix, nothing else. -/
theorem TrimSpace_split (s : GoString) :
    ∃ l r, WhiteOnly l ∧ WhiteOnly r ∧ s = l ++ TrimSpace s ++ r := by
  obtain ⟨l, hl, hs⟩ := stripHead_split spaceEncodings s.length s
  obtain ⟨r, hr, ht⟩ :=
    stripHead_split (spaceEncodings.map List.reverse) (TrimLeftSpace s).length (TrimLeftSpace s).reverse
  refine ⟨l, r.reverse, hl, RunOf_reverse _ _ hr, ?_⟩
  have ht2 := congrArg List.reverse ht
  simp only [List.reverse_reverse, List.reverse_append] at ht2
  have : TrimLeftSpace s = TrimSpace s ++ r.reverse := by
    unfold TrimSpace TrimRightSpace
    exact ht2
  rw [List.append_assoc, ← this]
  exact hs


/-! ## C1: secrecy of output and expected -/

/-- C1 (code defect): a judge-mode C submission that fails to compile gets the compiler's
diagnostic back in `output`: `executeCTwoStage` returns its `Compile Error` response without
passing it through `sanitizeRunResponse`. -/
theorem c_compile_error_output_not_cleared :
    TrimSpace includeFlagRequest.Challenge ≠ [] ∧
    ToLower (TrimSpace includeFlagRequest.Mode) ≠ str "sample" ∧
    (execute compileFailHost includeFlagRequest {}).1 =
      { Result := str "Compile Error",
        Output := str "code.c:1:10: error: FLAG\x7bsecret\x7d" } := by
  decide

/-! ## C6: failed index of a successful judgement -/

/-- C6 (code defect): when every test passes, `runProgramWithTests` answers `Success` with
`failed_index = 0`, the zero value of the field, instead of `-1`. -/
theorem success_failed_index_is_zero :
    (execute okHost helloRequest {}).1.Result = str "Success" ∧
    (execute okHost helloRequest {}).1.FailedIndex = 0 ∧
    (execute okHost helloRequest {}).1.FailedIndex ≠ -1 := by
  decide

/-! ## C9: deadlines -/

@[simp] theorem sanitizeRunResponse_Result (req : RunRequest) (r : RunResponse) :
    (sanitizeRunResponse req r).Result = r.Result := by
  unfold sanitizeRunResponse; dsimp only; split_ifs <;> rfl

@[simp] theorem sanitizeRunResponse_FailedIndex (req : RunRequest) (r : RunResponse) :
    (sanitizeRunResponse req r).FailedIndex = r.FailedIndex := by
  unfold sanitizeRunResponse; dsimp only; split_ifs <;> rfl

@[simp] theorem gohelper_sanitize_Result (b : Bool) (r : RunResponse) :
    (gohelper.sanitize b r).Result = r.Result := by
  unfold gohelper.sanitize; split <;> rfl

@[simp] theorem gohelper_sanitize_FailedIndex (b : Bool) (r : RunResponse) :
    (gohelper.sanitize b r).FailedIndex = r.FailedIndex := by
  unfold gohelper.sanitize; split <;> rfl

theorem judgeTest_deadline (req : RunRequest) (outLimit : Int) (i : Nat) (total : Int)
    (tc : runnerTest) (reply : RunReply)
    (hd : reply.execDeadline = true ∨ reply.globalDeadline = true) :
    ∃ r, judgeTest req outLimit i total tc reply = some r ∧
      r.Result = str "Time Limit Exceeded" ∧ r.FailedIndex = i := by
  unfold judgeTest
  simp only [hd, if_true]
  split <;> exact ⟨_, rfl, by simp, by simp⟩

theorem gohelper_judgeTest_deadline (reveal single : Bool) (outLimit : Int) (i : Nat) (total : Int)
    (tc : runnerTest) (reply : RunReply)
    (hd : reply.execDeadline = true ∨ reply.globalDeadline = true) :
    ∃ r, gohelper.judgeTest reveal single outLimit i total tc reply = some r ∧
      r.Result = str "Time Limit Exceeded" ∧ r.FailedIndex = i := by
  unfold gohelper.judgeTest
  simp only [hd, if_true]
  split <;> exact ⟨_, rfl, by simp, by simp⟩

/-- C9: in both verdict loops, when the run of test `i` returns with the per-test or the
global deadline exceeded, the loop returns `Time Limit Exceeded` with `failed_index = i`,
whatever the run's exit status and captured output; in the Go helper the same answer is given
when the global deadline is found exceeded before the run. -/
theorem deadline_exceeded_is_time_limit_exceeded (reply : RunReply) (i : Nat) (tc : runnerTest)
    (hd : reply.execDeadline = true ∨ reply.globalDeadline = true) :
    (∀ (h : Host) (req : RunRequest) (rr : RunRoot) (hostWork workdir : GoString) (ucr : Bool)
        (shellPath : GoString) (argv : List GoString) (runLim : RLimits) (outLimit total : Int)
        (rest : List runnerTest) (w : World),
        (RunInChroot h (RunKind.test i) (some rr) workdir
          (testArgv hostWork workdir shellPath argv (str "test-" ++ Itoa i)) tc.Input runLim ucr
          w).1 = reply →
        (testLoop h req rr hostWork workdir ucr shellPath argv runLim outLimit i total
          (tc :: rest) w).1.Result = str "Time Limit Exceeded" ∧
        (testLoop h req rr hostWork workdir ucr shellPath argv runLim outLimit i total
          (tc :: rest) w).1.FailedIndex = i) ∧
    (∀ (h : Host) (reveal single : Bool) (globalLimitMs outLimit : Int) (runRR : RunRoot)
        (wsHost wsInside : GoString) (argv : List GoString) (runLim : RLimits) (total : Int)
        (last : GoString) (rest : List runnerTest) (w : World),
        (RunInChroot h (RunKind.test i) (some runRR) wsInside
          (testArgv wsHost wsInside (str "/env/bin/sh") argv (str "test-" ++ Itoa i)) tc.Input
          runLim false w.next).1 = reply →
        (gohelper.testLoop h reveal single globalLimitMs outLimit runRR wsHost wsInside argv
          runLim i total last (tc :: rest) w).1.Result = str "Time Limit Exceeded" ∧
        (gohelper.testLoop h reveal single globalLimitMs outLimit runRR wsHost wsInside argv
          runLim i total last (tc :: rest) w).1.FailedIndex = i) := by
  constructor
  · intro h req rr hostWork workdir ucr shellPath argv runLim outLimit total rest w hr
    obtain ⟨r, hj, h1, h2⟩ := judgeTest_deadline req outLimit i (total + reply.durMs) tc reply hd
    simp only [testLoop, hr, hj]
    exact ⟨h1, h2⟩
  · intro h reveal single globalLimitMs outLimit runRR wsHost wsInside argv runLim total last rest
      w hr
    obtain ⟨r, hj, h1, h2⟩ :=
      gohelper_judgeTest_deadline reveal single outLimit i (total + reply.durMs) tc reply hd
    unfold gohelper.testLoop
    split
    · simp
    · simp only [hr, hj]
      exact ⟨h1, h2⟩


/-- Witness of C9's theorem: on a host whose sandboxed runs are killed at the per-test deadline
after printing the expected output, both loops answer `Time Limit Exceeded` at index 0. -/
theorem deadline_exceeded_witness :
    (killedReply.execDeadline = true ∨ killedReply.globalDeadline = true) ∧
    (testLoop slowHost helloRequest {} [] [] true [] [] {} 65536 0 0 [{ Output := str "hi" }]
      {}).1.Result = str "Time Limit Exceeded" ∧
    (gohelper.testLoop slowHost false false 30000 65536 {} [] [] [] {} 0 0 []
      [{ Output := str "hi" }] {}).1.FailedIndex = 0 :=
  ⟨Or.inl rfl,
   ((deadline_exceeded_is_time_limit_exceeded killedReply 0 { Output := str "hi" }
      (Or.inl rfl)).1 slowHost helloRequest {} [] [] true [] [] {} 65536 0 [] {} rfl).1,
   ((deadline_exceeded_is_time_limit_exceeded killedReply 0 { Output := str "hi" }
      (Or.inl rfl)).2 slowHost false false 30000 65536 {} [] [] [] {} 0 [] [] {} rfl).2⟩

/-! ## C8: the trimmed comparison -/

/-- In `runProgramWithTests`, a run that exits with status zero before any deadline passes
exactly when the trimmed captured stdout equals the trimmed expected output. -/
theorem judgeTest_pass_iff (req : RunRequest) (outLimit : Int) (i : Nat) (total : Int)
    (tc : runnerTest) (reply : RunReply) (herr : reply.err = none)
    (hd1 : reply.execDeadline = false) (hd2 : reply.globalDeadline = false) :
    judgeTest req outLimit i total tc reply = none ↔
      TrimSpace (readFileLimited reply.stdoutFile outLimit) = TrimSpace tc.Output := by
  unfold judgeTest
  simp only [hd1, hd2, herr, TrimSpace_idem]
  simp only [Bool.false_eq_true, or_self, if_false, Option.isSome_none]
  split_ifs <;> simp_all

/-- In the Go helper, outside mode `single`, a run that exits with status zero before any
deadline passes exactly when the trimmed captured stdout equals the trimmed expected output. -/
theorem gohelper_judgeTest_pass_iff (reveal : Bool) (outLimit : Int) (i : Nat) (total : Int)
    (tc : runnerTest) (reply : RunReply) (herr : reply.err = none)
    (hd1 : reply.execDeadline = false) (hd2 : reply.globalDeadline = false) :
    gohelper.judgeTest reveal false outLimit i total tc reply = none ↔
      TrimSpace (readFileLimited reply.stdoutFile outLimit) = TrimSpace tc.Output := by
  unfold gohelper.judgeTest
  simp only [hd1, hd2, herr, TrimSpace_idem]
  simp only [Bool.false_eq_true, or_self, if_false, Option.isSome_none]
  split_ifs <;> simp_all

/-- Two outputs with the same trimmed form differ at most in leading and trailing white space:
they share the trimmed form as their core, interior white space included. -/
theorem same_trim_same_core (a b : GoString) (hab : TrimSpace a = TrimSpace b) :
    ∃ core la ra lb rb, WhiteOnly la ∧ WhiteOnly ra ∧ WhiteOnly lb ∧ WhiteOnly rb ∧
      a = la ++ core ++ ra ∧ b = lb ++ core ++ rb := by
  obtain ⟨la, ra, hla, hra, ha⟩ := TrimSpace_split a
  obtain ⟨lb, rb, hlb, hrb, hb⟩ := TrimSpace_split b
  exact ⟨TrimSpace a, la, ra, lb, rb, hla, hra, hlb, hrb, ha, hab ▸ hb⟩

/-- C8 (code defect): a Go submission to a challenge sent with `mode = "single"` is handed to
the helper in mode `single` (first conjunct: the helper's command line), where a test whose
expected output is blank passes whatever the program prints (second conjunct: output `foo`,
expected empty, verdict `Success`); the same submission in Python is judged `Wrong Answer` by
`runProgramWithTests` (third conjunct). -/
theorem go_single_mode_skips_blank_expected :
    Event.helper [str "--mode", str "single", str "--global-timeout", str "30000",
      str "--output-limit", str "65536", str "--code-file", str "/tmp/gohelper-0/code.go",
      str "--tests-file", str "/tmp/gohelper-0/tests.json"] ∈
        (execute blankHost goSingleRequest {}).2.trace ∧
    (TrimSpace (str "foo\n") ≠ TrimSpace [] ∧
      (gohelper.Execute blankHost goSingleHelperRequest {}).1.Result = str "Success") ∧
    (execute blankHost { goSingleRequest with Language := str "python" } {}).1.Result =
      str "Wrong Answer" := by
  decide

/-! ## C7: the first failure decides -/

/-- What a caller of `RunInChroot` with a run-root and a non-empty argv gets from the oracle's
answer. -/
theorem RunInChroot_fst (h : Host) (k : RunKind) (rr : RunRoot) (wd : GoString) (a : GoString)
    (as : List GoString) (s : GoString) (lim : RLimits) (u : Bool) (w : World) :
    (RunInChroot h k (some rr) wd (a :: as) s lim u w).1 = observedAt h w.tick := by
  unfold RunInChroot observedAt
  dsimp only
  split_ifs <;> rfl

theorem RunInChroot_tick (h : Host) (k : RunKind) (rr : RunRoot) (wd : GoString) (a : GoString)
    (as : List GoString) (s : GoString) (lim : RLimits) (u : Bool) (w : World) :
    (RunInChroot h k (some rr) wd (a :: as) s lim u w).2.tick = w.tick + 1 := by
  unfold RunInChroot
  dsimp only
  split_ifs <;> rfl

theorem RunInChroot_trace (h : Host) (k : RunKind) (rr : RunRoot) (wd : GoString) (a : GoString)
    (as : List GoString) (s : GoString) (lim : RLimits) (u : Bool) (w : World) :
    (RunInChroot h k (some rr) wd (a :: as) s lim u w).2.trace = w.trace ∨
    (RunInChroot h k (some rr) wd (a :: as) s lim u w).2.trace =
      w.trace ++ [Event.run k rr.Root wd (a :: as) s u] := by
  unfold RunInChroot
  dsimp only
  split_ifs
  · left; rfl
  · right; rfl

theorem testArgv_cons (hostWork workdir shellPath : GoString) (argv : List GoString)
    (base : GoString) :
    ∃ as, testArgv hostWork workdir shellPath argv base = shellPath :: as := ⟨_, rfl⟩

theorem judgeTest_of_outcome (req : RunRequest) (outLimit : Int) (i : Nat) (total : Int)
    (tc : runnerTest) (reply : RunReply) :
    (outcomeOf outLimit tc reply = Outcome.pass → judgeTest req outLimit i total tc reply = none) ∧
    (outcomeOf outLimit tc reply ≠ Outcome.pass →
      ∃ r, judgeTest req outLimit i total tc reply = some r ∧
        r.Result = (outcomeOf outLimit tc reply).verdict ∧ r.FailedIndex = i) := by
  unfold outcomeOf judgeTest
  simp only [TrimSpace_idem]
  split_ifs <;> simp [Outcome.verdict]

theorem testReply_eq (h : Host) (rr : RunRoot) (hostWork workdir : GoString) (ucr : Bool)
    (shellPath : GoString) (argv : List GoString) (runLim : RLimits) (w : World) (j : Nat)
    (tc : runnerTest) :
    testReply h rr hostWork workdir ucr shellPath argv runLim w j tc =
      observedAt h (w.tick + 2 * j) := by
  unfold testReply
  obtain ⟨as, has⟩ := testArgv_cons hostWork workdir shellPath argv (str "test-" ++ Itoa j)
  rw [has, RunInChroot_fst]

theorem testLoop_first_failure (h : Host) (req : RunRequest) (rr : RunRoot)
    (hostWork workdir : GoString) (ucr : Bool) (shellPath : GoString) (argv : List GoString)
    (runLim : RLimits) (outLimit : Int) :
    ∀ (pre : List runnerTest) (i0 : Nat) (total : Int) (w : World) (tc : runnerTest)
      (post : List runnerTest),
      (∀ j tj, pre[j]? = some tj →
        outcomeOf outLimit tj (observedAt h (w.tick + 2 * j)) = Outcome.pass) →
      outcomeOf outLimit tc (observedAt h (w.tick + 2 * pre.length)) ≠ Outcome.pass →
      (testLoop h req rr hostWork workdir ucr shellPath argv runLim outLimit i0 total
          (pre ++ tc :: post) w).1.Result =
        (outcomeOf outLimit tc (observedAt h (w.tick + 2 * pre.length))).verdict ∧
      (testLoop h req rr hostWork workdir ucr shellPath argv runLim outLimit i0 total
          (pre ++ tc :: post) w).1.FailedIndex = ((i0 + pre.length : Nat) : Int) ∧
      ∀ e ∈ (testLoop h req rr hostWork workdir ucr shellPath argv runLim outLimit i0 total
          (pre ++ tc :: post) w).2.trace,
        e ∈ w.trace ∨ ∃ k root wd a s u,
          e = Event.run (RunKind.test k) root wd a s u ∧ k ≤ i0 + pre.length := by
  intro pre
  induction pre with
  | nil =>
    intro i0 total w tc post _ hfail
    obtain ⟨as, has⟩ := testArgv_cons hostWork workdir shellPath argv (str "test-" ++ Itoa i0)
    simp only [List.length_nil, Nat.mul_zero, Nat.add_zero] at hfail ⊢
    obtain ⟨r, hr, h1, h2⟩ := (judgeTest_of_outcome req outLimit i0
      (total + (observedAt h w.tick).durMs) tc (observedAt h w.tick)).2 hfail
    simp only [List.nil_append, testLoop, has, RunInChroot_fst, hr]
    refine ⟨h1, h2, ?_⟩
    intro e he
    rcases RunInChroot_trace h (RunKind.test i0) rr workdir shellPath as tc.Input runLim ucr w
      with ht | ht
    · rw [ht] at he; exact Or.inl he
    · rw [ht] at he
      rcases List.mem_append.mp he with he | he
      · exact Or.inl he
      · right
        simp only [List.mem_singleton] at he
        exact ⟨i0, _, _, _, _, _, he, Nat.le_refl _⟩
  | cons t pre ih =>
    intro i0 total w tc post hpass hfail
    obtain ⟨as, has⟩ := testArgv_cons hostWork workdir shellPath argv (str "test-" ++ Itoa i0)
    have hp0 := hpass 0 t (by simp)
    simp only [Nat.mul_zero, Nat.add_zero] at hp0
    have hj := (judgeTest_of_outcome req outLimit i0
      (total + (observedAt h w.tick).durMs) t (observedAt h w.tick)).1 hp0
    have htick : (ResetChrootTmp h (RunInChroot h (RunKind.test i0) (some rr) workdir
        (shellPath :: as) t.Input runLim ucr w).2).2.tick = w.tick + 2 := by
      simp [ResetChrootTmp, World.next, RunInChroot_tick]
    have htrace : (ResetChrootTmp h (RunInChroot h (RunKind.test i0) (some rr) workdir
        (shellPath :: as) t.Input runLim ucr w).2).2.trace =
        (RunInChroot h (RunKind.test i0) (some rr) workdir
          (shellPath :: as) t.Input runLim ucr w).2.trace := by
      simp [ResetChrootTmp, World.next]
    have hlen : (t :: pre).length = pre.length + 1 := rfl
    have key := ih (i0 + 1) (total + (observedAt h w.tick).durMs)
      (ResetChrootTmp h (RunInChroot h (RunKind.test i0) (some rr) workdir
        (shellPath :: as) t.Input runLim ucr w).2).2 tc post
      (by
        intro j tj hjn
        rw [htick]
        have := hpass (j + 1) tj (by simpa using hjn)
        rw [show w.tick + 2 + 2 * j = w.tick + 2 * (j + 1) by ring]
        exact this)
      (by
        rw [htick, show w.tick + 2 + 2 * pre.length = w.tick + 2 * (t :: pre).length by
          rw [hlen]; ring]
        exact hfail)
    rw [htick, show w.tick + 2 + 2 * pre.length = w.tick + 2 * (t :: pre).length by
          rw [hlen]; ring] at key
    simp only [List.cons_append, testLoop, has, RunInChroot_fst, hj]
    refine ⟨key.1, ?_, ?_⟩
    · exact key.2.1.trans (by rw [hlen]; congr 1; omega)
    · intro e he
      rcases key.2.2 e he with h1 | ⟨k, root, wd, a, s, u, he, hk⟩
      · rw [htrace] at h1
        rcases RunInChroot_trace h (RunKind.test i0) rr workdir shellPath as t.Input runLim ucr w
          with ht | ht
        · rw [ht] at h1; exact Or.inl h1
        · rw [ht] at h1
          rcases List.mem_append.mp h1 with h1 | h1
          · exact Or.inl h1
          · right
            simp only [List.mem_singleton] at h1
            exact ⟨i0, _, _, _, _, _, h1, by omega⟩
      · right
        exact ⟨k, root, wd, a, s, u, he, by rw [hlen]; omega⟩

/-- C7: in `runProgramWithTests` on a challenge request with tests `pre ++ tc :: post`, when
every test of `pre` passes and `tc` (index `i = pre.length`) is the first whose outcome is not
a pass, the response carries that test's verdict (`Time Limit Exceeded`, `Runtime Error` or
`Wrong Answer`) and `failed_index = i`, and every sandbox run the call adds to the trace is the
run of a test of index at most `i`. -/
theorem first_failing_test_decides (h : Host) (req : RunRequest) (rr : RunRoot)
    (hostWork workdir : GoString) (ucr : Bool) (shellPath : GoString) (argv : List GoString)
    (runLim : RLimits) (outLimit : Int) (w : World) (pre : List runnerTest) (tc : runnerTest)
    (post : List runnerTest)
    (hch : TrimSpace req.Challenge ≠ [])
    (htests : getRunnerTests h req.Challenge req.Mode = pre ++ tc :: post)
    (hpass : ∀ j tj, pre[j]? = some tj →
      outcomeOf outLimit tj (testReply h rr hostWork workdir ucr shellPath argv runLim w j tj) =
        Outcome.pass)
    (hfail : outcomeOf outLimit tc
      (testReply h rr hostWork workdir ucr shellPath argv runLim w pre.length tc) ≠ Outcome.pass) :
    (runProgramWithTests h req rr hostWork workdir ucr shellPath argv runLim outLimit w).1.Result =
      (outcomeOf outLimit tc
        (testReply h rr hostWork workdir ucr shellPath argv runLim w pre.length tc)).verdict ∧
    (runProgramWithTests h req rr hostWork workdir ucr shellPath argv runLim outLimit
      w).1.FailedIndex = (pre.length : Int) ∧
    ∀ e ∈ (runProgramWithTests h req rr hostWork workdir ucr shellPath argv runLim outLimit
        w).2.trace,
      e ∈ w.trace ∨ ∃ k root wd a s u,
        e = Event.run (RunKind.test k) root wd a s u ∧ k ≤ pre.length := by
  have key := testLoop_first_failure h req rr hostWork workdir ucr shellPath argv runLim outLimit
    pre 0 0 w tc post
    (by intro j tj hj; rw [← testReply_eq h rr hostWork workdir ucr shellPath argv runLim w j tj]
        exact hpass j tj hj)
    (by rw [← testReply_eq h rr hostWork workdir ucr shellPath argv runLim w pre.length tc]
        exact hfail)
  rw [← testReply_eq h rr hostWork workdir ucr shellPath argv runLim w pre.length tc] at key
  simp only [Nat.zero_add] at key
  have hlen : ¬ (pre ++ tc :: post).length = 0 := by simp
  unfold runProgramWithTests
  simp only [hch, ne_eq, not_false_eq_true, if_true, htests, hlen, if_false]
  exact key

/-- Witness of C7's theorem: with tests expecting `hi` and then `bye` and a program that always
prints `hi`, the verdict is `Wrong Answer` at index 1. -/
theorem first_failing_test_witness :
    (runProgramWithTests secondFailsHost helloRequest {} [] [] true [] [] {} 65536 {}).1.Result =
      str "Wrong Answer" ∧
    (runProgramWithTests secondFailsHost helloRequest {} [] [] true [] [] {} 65536
      {}).1.FailedIndex = 1 :=
  have key := first_failing_test_decides secondFailsHost helloRequest {} [] [] true [] [] {} 65536
    {} [{ Input := [], Output := str "hi", IsSample := true }]
    { Input := [], Output := str "bye", IsSample := true } []
    (by decide) (by decide)
    (by
      intro j tj hj
      cases j with
      | zero =>
        simp only [List.getElem?_cons_zero, Option.some.injEq] at hj
        subst hj
        decide
      | succ n => simp at hj)
    (by decide)
  ⟨key.1, key.2.1⟩


/-! ## C10: the capture cap -/

/-- C10 (counterexample): with cap 1, output `ab` and expected output `a`, the test passes on
the truncated output, while the same run judged on the full output (no cap) is a
`Wrong Answer`. -/
theorem truncation_changes_verdict :
    judgeTest helloRequest 1 0 0 { Output := str "a" }
      { stdoutFile := FileRead.data (str "ab") } = none ∧
    (judgeTest helloRequest 0 0 0 { Output := str "a" }
      { stdoutFile := FileRead.data (str "ab") }).map (fun r => r.Result) =
        some (str "Wrong Answer") := by
  decide

theorem readFileLimited_fits (bytes : GoString) (cap : Int)
    (hfit : (bytes.length : Int) ≤ cap) : readFileLimited (FileRead.data bytes) cap = bytes := by
  unfold readFileLimited
  simp only
  split_ifs with hc
  · omega
  · rfl

/-- C10 (amended): for a positive cap, `readFileLimited` keeps exactly the first `cap` bytes of
the captured stdout, and the verdict of the run (pass, or the result of the failure response)
is the one computed, without a cap, from those first `cap` bytes; when the captured stdout is
no longer than the cap, it is the verdict computed without a cap from the full output. -/
theorem verdict_unchanged_when_output_fits (req : RunRequest) (cap : Int) (i : Nat)
    (total : Int) (tc : runnerTest) (reply : RunReply) (bytes : GoString)
    (hcap : 0 < cap) (hout : reply.stdoutFile = FileRead.data bytes) :
    readFileLimited reply.stdoutFile cap = bytes.take cap.toNat ∧
    (judgeTest req cap i total tc reply).map (fun r => r.Result) =
      (judgeTest req 0 i total tc
        { reply with stdoutFile := FileRead.data (bytes.take cap.toNat) }).map
          (fun r => r.Result) ∧
    ((bytes.length : Int) ≤ cap →
      (judgeTest req cap i total tc reply).map (fun r => r.Result) =
        (judgeTest req 0 i total tc reply).map (fun r => r.Result)) := by
  have hread : readFileLimited reply.stdoutFile cap = bytes.take cap.toNat := by
    rw [hout]
    unfold readFileLimited
    simp only
    split_ifs with hc
    · rfl
    · have : bytes.length ≤ cap.toNat := by omega
      exact (List.take_of_length_le this).symm
  refine ⟨hread, ?_, ?_⟩
  · have h0 : readFileLimited (FileRead.data (bytes.take cap.toNat)) 0 =
        bytes.take cap.toNat := by
      unfold readFileLimited; simp
    unfold judgeTest
    simp only [hread, h0]
    split_ifs <;> simp
  · intro hfit
    have h1 : readFileLimited reply.stdoutFile cap = bytes := by
      rw [hout]; exact readFileLimited_fits bytes cap hfit
    have h0 : readFileLimited reply.stdoutFile 0 = bytes := by
      rw [hout]; unfold readFileLimited; simp
    unfold judgeTest
    simp only [h1, h0]
    split_ifs <;> simp

/-- Witness of C10's amended theorem: output `ab` under cap 1, judged as its first byte `a`,
and under cap 2, judged as the full output. -/
theorem verdict_unchanged_witness :
    readFileLimited (FileRead.data (str "ab")) 2 = (str "ab").take 2 ∧
    (judgeTest helloRequest 2 0 0 { Output := str "a" }
      { stdoutFile := FileRead.data (str "ab") }).map (fun r => r.Result) =
    (judgeTest helloRequest 0 0 0 { Output := str "a" }
      { stdoutFile := FileRead.data (str "ab") }).map (fun r => r.Result) ∧
    (judgeTest helloRequest 1 0 0 { Output := str "a" }
      { stdoutFile := FileRead.data (str "ab") }).map (fun r => r.Result) =
    (judgeTest helloRequest 0 0 0 { Output := str "a" }
      { stdoutFile := FileRead.data ((str "ab").take 1) }).map (fun r => r.Result) :=
  have key := verdict_unchanged_when_output_fits helloRequest 2 0 0 { Output := str "a" }
    { stdoutFile := FileRead.data (str "ab") } (str "ab") (by decide) rfl
  have key1 := verdict_unchanged_when_output_fits helloRequest 1 0 0 { Output := str "a" }
    { stdoutFile := FileRead.data (str "ab") } (str "ab") (by decide) rfl
  ⟨key.1, key.2.2 (by decide), key1.2.1⟩

/-! ## The effects of preparing a run-root -/

theorem envMountsLoop_frame (h : Host) (root envRoot : GoString) :
    ∀ (es : List DirEntry) (acc : List bindMount) (w : World),
      (envMountsLoop h root envRoot es acc w).2.trace = w.trace ∧
      (envMountsLoop h root envRoot es acc w).2.temps = w.temps ∧
      (envMountsLoop h root envRoot es acc w).2.live = w.live := by
  intro es
  induction es with
  | nil => intro acc w; simp [envMountsLoop]
  | cons e es ih =>
    intro acc w
    unfold envMountsLoop
    split_ifs <;> simp [ih, World.next]

theorem buildEnvMounts_frame (h : Host) (root envRoot : GoString) (w : World) :
    (buildEnvMounts h root envRoot w).2.trace = w.trace ∧
    (buildEnvMounts h root envRoot w).2.temps = w.temps ∧
    (buildEnvMounts h root envRoot w).2.live = w.live := by
  unfold buildEnvMounts
  split
  · simp
  · exact envMountsLoop_frame h root envRoot _ _ _

theorem deviceMountsLoop_frame (h : Host) (root : GoString) :
    ∀ (ds : List GoString) (acc : List bindMount) (w : World),
      (deviceMountsLoop h root ds acc w).2.trace = w.trace ∧
      (deviceMountsLoop h root ds acc w).2.temps = w.temps ∧
      (deviceMountsLoop h root ds acc w).2.live = w.live := by
  intro ds
  induction ds with
  | nil => intro acc w; simp [deviceMountsLoop]
  | cons d ds ih =>
    intro acc w
    unfold deviceMountsLoop
    split <;> (try split_ifs) <;> simp [ih, World.next]

theorem flagMountsLoop_frame (h : Host) (root : GoString) :
    ∀ (ds seen : List GoString) (acc : List bindMount) (w : World),
      (flagMountsLoop h root ds seen acc w).2.trace = w.trace ∧
      (flagMountsLoop h root ds seen acc w).2.temps = w.temps ∧
      (flagMountsLoop h root ds seen acc w).2.live = w.live := by
  intro ds
  induction ds with
  | nil => intro seen acc w; simp [flagMountsLoop]
  | cons d ds ih =>
    intro seen acc w
    unfold flagMountsLoop
    dsimp only
    split_ifs <;> simp [ih, World.next]


@[simp] theorem World.next_trace (w : World) : w.next.trace = w.trace := rfl
@[simp] theorem World.next_temps (w : World) : w.next.temps = w.temps := rfl
@[simp] theorem World.next_tick (w : World) : w.next.tick = w.tick + 1 := rfl
@[simp] theorem World.log_trace (w : World) (e : Event) : (w.log e).trace = w.trace ++ [e] := rfl
@[simp] theorem World.log_temps (w : World) (e : Event) : (w.log e).temps = w.temps := rfl
@[simp] theorem World.log_tick (w : World) (e : Event) : (w.log e).tick = w.tick := rfl
@[simp] theorem World.remove_trace (w : World) (r : GoString) :
    (w.remove r).trace = w.trace ++ [Event.removed r] := rfl
@[simp] theorem World.remove_temps (w : World) (r : GoString) : (w.remove r).temps = w.temps := rfl

theorem Adds.refl (P : Event → Prop) (w : World) : Adds P w w :=
  ⟨List.prefix_refl _, by simp [newEvents]⟩

theorem Adds.of_trace_eq (P : Event → Prop) (w w1 : World) (ht : w1.trace = w.trace) :
    Adds P w w1 := by
  unfold Adds newEvents
  rw [ht]
  simp

theorem Adds.trans {P : Event → Prop} {w w1 w2 : World} (h1 : Adds P w w1) (h2 : Adds P w1 w2) :
    Adds P w w2 := by
  obtain ⟨⟨e1, he1⟩, hp1⟩ := h1
  obtain ⟨⟨e2, he2⟩, hp2⟩ := h2
  unfold newEvents at hp1 hp2
  rw [← he1] at hp1
  rw [← he2] at hp2
  simp only [List.drop_left] at hp1 hp2
  refine ⟨⟨e1 ++ e2, by rw [← he2, ← he1, List.append_assoc]⟩, ?_⟩
  unfold newEvents
  rw [← he2, ← he1, List.append_assoc, List.drop_left]
  intro e he
  rcases List.mem_append.mp he with h | h
  · exact hp1 e h
  · exact hp2 e h

theorem Adds.mono {P Q : Event → Prop} {w w1 : World} (hpq : ∀ e, P e → Q e)
    (h1 : Adds P w w1) : Adds Q w w1 :=
  ⟨h1.1, fun e he => hpq e (h1.2 e he)⟩

theorem Adds.of_append (P : Event → Prop) (w w1 : World) (es : List Event)
    (ht : w1.trace = w.trace ++ es) (hp : ∀ e ∈ es, P e) : Adds P w w1 := by
  unfold Adds newEvents
  rw [ht]
  simpa using hp

theorem Adds.mem {P : Event → Prop} {w w1 : World} (h1 : Adds P w w1) (e : Event)
    (he : e ∈ w1.trace) : e ∈ w.trace ∨ P e := by
  obtain ⟨⟨es, hes⟩, hp⟩ := h1
  unfold newEvents at hp
  rw [← hes] at hp he
  simp only [List.drop_left] at hp
  rcases List.mem_append.mp he with h | h
  · exact Or.inl h
  · exact Or.inr (hp e h)

theorem RunOnHost_setcap (h : Host) (p : GoString) (w : World) :
    (RunOnHost h (setcapArgv p) w).2.trace = w.trace ++ [Event.hostRun (setcapArgv p)] ∧
    (RunOnHost h (setcapArgv p) w).2.temps = w.temps ∧
    (RunOnHost h (setcapArgv p) w).2.live = w.live ∧
    (RunOnHost h (setcapArgv p) w).2.tick = w.tick + 1 := by
  simp [RunOnHost, setcapArgv, World.next, World.log]

theorem finishRunRoot_adds (h : Host) (rr : RunRoot) (envRoot : GoString) (mounts : List bindMount)
    (w : World) :
    Adds (SetupEvent rr.Root) w (finishRunRoot h rr envRoot mounts w).2 := by
  have hr := RunOnHost_setcap h (Join [Join [rr.Root, str ".runner"], str "chroot-run"])
      w.next.next.next
  unfold finishRunRoot
  dsimp only
  split_ifs
  · exact Adds.of_append _ _ _ [Event.removed rr.Root] (by simp) (by simp [SetupEvent])
  · exact Adds.of_append _ _ _ [Event.removed rr.Root] (by simp) (by simp [SetupEvent])
  · exact Adds.of_append _ _ _ [Event.removed rr.Root] (by simp) (by simp [SetupEvent])
  · exact Adds.of_append _ _ _
      [Event.hostRun (setcapArgv (Join [Join [rr.Root, str ".runner"], str "chroot-run"])),
        Event.removed rr.Root]
      (by simp [hr.1]) (by simp [SetupEvent])
  · exact Adds.of_append _ _ _
      [Event.hostRun (setcapArgv (Join [Join [rr.Root, str ".runner"], str "chroot-run"]))]
      (by simp [hr.1]) (by simp [SetupEvent])

theorem finishRunRoot_temps (h : Host) (rr : RunRoot) (envRoot : GoString)
    (mounts : List bindMount) (w : World) :
    (finishRunRoot h rr envRoot mounts w).2.temps = w.temps := by
  have hr := RunOnHost_setcap h (Join [Join [rr.Root, str ".runner"], str "chroot-run"])
      w.next.next.next
  unfold finishRunRoot
  dsimp only
  split_ifs <;> simp [hr.2.1]

theorem prepareMounts_adds (h : Host) (opts : PrepareRunRootOptions) (rr : RunRoot)
    (envRoot : GoString) (w : World) :
    Adds (SetupEvent rr.Root) w (prepareMounts h opts rr envRoot w).2 ∧
    (prepareMounts h opts rr envRoot w).2.temps = w.temps := by
  have he := buildEnvMounts_frame h rr.WorkHost envRoot w
  have hd := deviceMountsLoop_frame h rr.WorkHost devicePaths []
    (buildEnvMounts h rr.WorkHost envRoot w).2.next.next.next
  have hf := flagMountsLoop_frame h rr.Root (flagTargets opts rr.WorkspaceRel) [] []
    (buildDeviceMounts h rr.WorkHost (buildEnvMounts h rr.WorkHost envRoot w).2.next.next.next).2
  have hdw : Adds (SetupEvent rr.Root) w
      (buildDeviceMounts h rr.WorkHost (buildEnvMounts h rr.WorkHost envRoot w).2.next.next.next).2 :=
    Adds.of_trace_eq _ _ _ (by unfold buildDeviceMounts; rw [hd.1]; simp [he.1])
  have hdt : (buildDeviceMounts h rr.WorkHost
      (buildEnvMounts h rr.WorkHost envRoot w).2.next.next.next).2.temps = w.temps := by
    unfold buildDeviceMounts; rw [hd.2.1]; simp [he.2.1]
  unfold buildDeviceMounts at hf
  unfold prepareMounts
  dsimp only
  split
  · exact ⟨Adds.of_append _ _ _ [Event.removed rr.Root] (by simp [he.1]) (by simp [SetupEvent]),
      by simp [he.2.1]⟩
  · split_ifs
    · exact ⟨Adds.of_append _ _ _ [Event.removed rr.Root] (by simp [he.1])
        (by simp [SetupEvent]), by simp [he.2.1]⟩
    · exact ⟨Adds.of_append _ _ _ [Event.removed rr.Root] (by simp [he.1])
        (by simp [SetupEvent]), by simp [he.2.1]⟩
    · exact ⟨Adds.of_append _ _ _ [Event.removed rr.Root] (by simp [he.1])
        (by simp [SetupEvent]), by simp [he.2.1]⟩
    · split
      · split
        · refine ⟨Adds.of_append _ _ _ [Event.removed rr.Root] ?_ (by simp [SetupEvent]), ?_⟩
          · simp only [World.remove_trace, buildDeviceMounts]
            rw [hf.1, hd.1]; simp [he.1]
          · simp only [World.remove_temps, buildDeviceMounts]
            rw [hf.2.1, hd.2.1]; simp [he.2.1]
        · refine ⟨Adds.trans (Adds.of_trace_eq _ _ _ ?_) (finishRunRoot_adds _ _ _ _ _), ?_⟩
          · simp only [buildDeviceMounts]
            rw [hf.1, hd.1]; simp [he.1]
          · rw [finishRunRoot_temps]
            simp only [buildDeviceMounts]
            rw [hf.2.1, hd.2.1]; simp [he.2.1]
      · exact ⟨Adds.trans hdw (finishRunRoot_adds _ _ _ _ _), by rw [finishRunRoot_temps]; exact hdt⟩
      · exact ⟨hdw, hdt⟩
    · exact ⟨Adds.trans hdw (finishRunRoot_adds _ _ _ _ _), by rw [finishRunRoot_temps]; exact hdt⟩


/-- The run-root `finishRunRoot` returns on success. -/
theorem finishRunRoot_ok (h : Host) (rr : RunRoot) (envRoot : GoString) (mounts : List bindMount)
    (w : World) (rr1 : RunRoot) (hok : (finishRunRoot h rr envRoot mounts w).1 = Except.ok rr1) :
    rr1 = { rr with
      mounts := dedupeAndSortMounts mounts
      ChrootBin := str "/.runner/" ++ str "chroot-run"
      EnvRoot := envRoot
      cleanupRemoves := decide (ToLower (h.getenv (str "SANDBOX_KEEP_RUNROOT")) ≠ str "1") } ∧
    (finishRunRoot h rr envRoot mounts w).2.trace = w.trace ++
      [Event.hostRun (setcapArgv (Join [Join [rr.Root, str ".runner"], str "chroot-run"]))] := by
  have hr := RunOnHost_setcap h (Join [Join [rr.Root, str ".runner"], str "chroot-run"])
      w.next.next.next
  unfold finishRunRoot at hok ⊢
  dsimp only at hok ⊢
  split_ifs at hok ⊢
  cases hok
  exact ⟨rfl, by simp [hr.1]⟩

/-- Where the mounts of a successfully prepared run-root come from. -/
theorem prepareMounts_ok (h : Host) (opts : PrepareRunRootOptions) (rr : RunRoot)
    (envRoot : GoString) (w : World) (rr1 : RunRoot)
    (hok : (prepareMounts h opts rr envRoot w).1 = Except.ok rr1) :
    (prepareMounts h opts rr envRoot w).2.trace = w.trace ++
      [Event.hostRun (setcapArgv (Join [Join [rr.Root, str ".runner"], str "chroot-run"]))] ∧
    ∃ envMounts flags,
      (buildEnvMounts h rr.WorkHost envRoot w).1 = some envMounts ∧
      (flags = [] ∨ (opts.ForCBuilder = false ∧ statOk h (str "/flag2") = true ∧
        ∃ w1, (flagMountsLoop h rr.Root (flagTargets opts rr.WorkspaceRel) [] [] w1).1 =
          some flags)) ∧
      (opts.ForCBuilder = false → statOk h (str "/flag2") = true →
        ∃ w1, (flagMountsLoop h rr.Root (flagTargets opts rr.WorkspaceRel) [] [] w1).1 =
          some flags) ∧
      rr1 = { rr with
        mounts := dedupeAndSortMounts (allMounts rr envMounts
          (buildDeviceMounts h rr.WorkHost
            (buildEnvMounts h rr.WorkHost envRoot w).2.next.next.next).1 flags)
        ChrootBin := str "/.runner/" ++ str "chroot-run"
        EnvRoot := envRoot
        cleanupRemoves := decide (ToLower (h.getenv (str "SANDBOX_KEEP_RUNROOT")) ≠ str "1") } := by
  have he := buildEnvMounts_frame h rr.WorkHost envRoot w
  have hd := deviceMountsLoop_frame h rr.WorkHost devicePaths []
    (buildEnvMounts h rr.WorkHost envRoot w).2.next.next.next
  have hf := flagMountsLoop_frame h rr.Root (flagTargets opts rr.WorkspaceRel) [] []
    (buildDeviceMounts h rr.WorkHost (buildEnvMounts h rr.WorkHost envRoot w).2.next.next.next).2
  have hdt : (buildDeviceMounts h rr.WorkHost
      (buildEnvMounts h rr.WorkHost envRoot w).2.next.next.next).2.trace = w.trace := by
    unfold buildDeviceMounts; rw [hd.1]; simp [he.1]
  unfold prepareMounts at hok ⊢
  dsimp only at hok ⊢
  split at hok
  · simp at hok
  · next envMounts henv =>
    simp only [henv]
    split_ifs at hok ⊢ <;> try (simp at hok)
    · split at hok
      · next isDir perm hst =>
        try simp only [hst]
        split at hok
        · simp at hok
        · next flags hfl =>
          try simp only [hfl]
          obtain ⟨h1, h2⟩ := finishRunRoot_ok _ _ _ _ _ _ hok
          refine ⟨?_, envMounts, flags, rfl, Or.inr ⟨by assumption, by simp [statOk, hst], _, hfl⟩,
            fun _ _ => ⟨_, hfl⟩, h1⟩
          rw [h2, hf.1, hdt]
      · next hst =>
        try simp only [hst]
        obtain ⟨h1, h2⟩ := finishRunRoot_ok _ _ _ _ _ _ hok
        refine ⟨?_, envMounts, [], rfl, Or.inl rfl, ?_, h1⟩
        · rw [h2, hdt]
        · intro _ hs; simp [statOk, hst] at hs
      · simp at hok
    · obtain ⟨h1, h2⟩ := finishRunRoot_ok _ _ _ _ _ _ hok
      refine ⟨?_, envMounts, [], rfl, Or.inl rfl, ?_, h1⟩
      · rw [h2, hdt]
      · intro hc; simp_all

theorem prepareDirs_adds (h : Host) (opts : PrepareRunRootOptions) (rr : RunRoot)
    (envRoot : GoString) (w : World) :
    Adds (SetupEvent rr.Root) w (prepareDirs h opts rr envRoot w).2 ∧
    (prepareDirs h opts rr envRoot w).2.temps = w.temps := by
  unfold prepareDirs
  split_ifs
  · exact ⟨Adds.of_append _ _ _ [Event.removed rr.Root] (by simp) (by simp [SetupEvent]),
      by simp⟩
  · exact ⟨Adds.of_append _ _ _ [Event.removed rr.Root] (by simp) (by simp [SetupEvent]),
      by simp⟩
  · exact ⟨Adds.of_append _ _ _ [Event.removed rr.Root] (by simp) (by simp [SetupEvent]),
      by simp⟩
  · exact ⟨Adds.of_append _ _ _ [Event.removed rr.Root] (by simp) (by simp [SetupEvent]),
      by simp⟩
  · exact ⟨Adds.of_append _ _ _ [Event.removed rr.Root] (by simp) (by simp [SetupEvent]),
      by simp⟩
  · exact ⟨Adds.of_append _ _ _ [Event.removed rr.Root] (by simp) (by simp [SetupEvent]),
      by simp⟩
  · obtain ⟨h1, h2⟩ := prepareMounts_adds h opts rr envRoot w.next.next.next.next.next.next
    exact ⟨Adds.trans (Adds.of_trace_eq _ _ _ (by simp)) h1, by rw [h2]; simp⟩

theorem prepare_events (h : Host) (language : GoString) (opts : PrepareRunRootOptions)
    (w : World) :
    Adds (PrepEvent language opts (tempName (runRootsDirOf h) w.temps)) w
      (PrepareRunRootWithOptions h language opts w).2 := by
  unfold PrepareRunRootWithOptions
  dsimp only
  split_ifs
  · exact Adds.of_append _ _ _ [Event.prepare language opts] (by simp) (by simp [PrepEvent])
  · exact Adds.of_append _ _ _ [Event.prepare language opts] (by simp) (by simp [PrepEvent])
  · exact Adds.of_append _ _ _ [Event.prepare language opts] (by simp) (by simp [PrepEvent])
  · refine Adds.trans ?_ (Adds.mono ?_ (prepareDirs_adds _ _ _ _ _).1)
    · exact Adds.of_append _ _ _ [Event.prepare language opts,
        Event.created (tempName (runRootsDirOf h) w.temps) language opts]
        (by simp [World.created]) (by simp [PrepEvent])
    · intro e he
      exact Or.inr (Or.inr he)

theorem prepare_adds (h : Host) (language : GoString) (opts : PrepareRunRootOptions)
    (w : World) :
    Adds (fun e => e.isWork = false) w (PrepareRunRootWithOptions h language opts w).2 := by
  refine Adds.mono ?_ (prepare_events h language opts w)
  rintro e (rfl | rfl | rfl | ⟨a, rfl⟩) <;> rfl

/-- What a successful `PrepareRunRootWithOptions` has done: the run-root is the fresh
directory named after the number of temporary directories created before, and the trace has
grown by the call, the creation of the directory and the `setcap` on the helper copy. -/
theorem prepare_ok (h : Host) (language : GoString) (opts : PrepareRunRootOptions)
    (w : World) (rr : RunRoot)
    (hok : (PrepareRunRootWithOptions h language opts w).1 = Except.ok rr) :
    rr.Root = tempName (runRootsDirOf h) w.temps ∧
    (PrepareRunRootWithOptions h language opts w).2.temps = w.temps + 1 ∧
    (PrepareRunRootWithOptions h language opts w).2.trace = w.trace ++
      [Event.prepare language opts, Event.created rr.Root language opts,
       Event.hostRun (setcapArgv (Join [Join [rr.Root, str ".runner"], str "chroot-run"]))] := by
  unfold PrepareRunRootWithOptions at hok ⊢
  dsimp only at hok ⊢
  split_ifs at hok ⊢
  unfold prepareDirs at hok ⊢
  split_ifs at hok ⊢
  obtain ⟨ht, envMounts, flags, -, -, -, hrr⟩ := prepareMounts_ok _ _ _ _ _ _ hok
  have hroot : rr.Root = tempName (runRootsDirOf h) w.temps := by rw [hrr]; rfl
  refine ⟨hroot, ?_, ?_⟩
  · rw [(prepareMounts_adds _ _ _ _ _).2]; simp [World.created]
  · rw [ht, hroot]; simp [World.created, newRunRoot]


/-! ## C4: the two run-roots of the C pipeline and of the Go helper -/

theorem RunInChroot_temps (h : Host) (k : RunKind) (rr : RunRoot) (wd : GoString) (a : GoString)
    (as : List GoString) (s : GoString) (lim : RLimits) (u : Bool) (w : World) :
    (RunInChroot h k (some rr) wd (a :: as) s lim u w).2.temps = w.temps := by
  unfold RunInChroot
  dsimp only
  split_ifs <;> rfl

theorem RunInChroot_adds (h : Host) (k : RunKind) (rr : RunRoot) (wd : GoString) (a : GoString)
    (as : List GoString) (s : GoString) (lim : RLimits) (u : Bool) (w : World) :
    Adds (fun e => e = Event.run k rr.Root wd (a :: as) s u) w
      (RunInChroot h k (some rr) wd (a :: as) s lim u w).2 := by
  rcases RunInChroot_trace h k rr wd a as s lim u w with ht | ht
  · exact Adds.of_trace_eq _ _ _ ht
  · exact Adds.of_append _ _ _ _ ht (by simp)

theorem testLoop_adds (h : Host) (req : RunRequest) (rr : RunRoot)
    (hostWork workdir : GoString) (ucr : Bool) (shellPath : GoString) (argv : List GoString)
    (runLim : RLimits) (outLimit : Int) :
    ∀ (tests : List runnerTest) (i : Nat) (total : Int) (w : World),
      Adds (IsProgramRun rr.Root) w (testLoop h req rr hostWork workdir ucr shellPath argv runLim
        outLimit i total tests w).2 ∧
      (testLoop h req rr hostWork workdir ucr shellPath argv runLim outLimit i total tests
        w).2.temps = w.temps := by
  intro tests
  induction tests with
  | nil => intro i total w; exact ⟨by simpa [testLoop] using Adds.refl _ w, by simp [testLoop]⟩
  | cons tc rest ih =>
    intro i total w
    obtain ⟨as, has⟩ := testArgv_cons hostWork workdir shellPath argv (str "test-" ++ Itoa i)
    have hrun : Adds (IsProgramRun rr.Root) w (RunInChroot h (RunKind.test i) (some rr) workdir
        (shellPath :: as) tc.Input runLim ucr w).2 :=
      Adds.mono (fun e he => ⟨RunKind.test i, workdir, shellPath :: as, tc.Input, ucr,
        by simp, he⟩) (RunInChroot_adds h (RunKind.test i) rr workdir shellPath as tc.Input runLim ucr w)
    have htemps := RunInChroot_temps h (RunKind.test i) rr workdir shellPath as tc.Input runLim ucr w
    unfold testLoop
    simp only [has]
    split
    · exact ⟨hrun, htemps⟩
    · obtain ⟨h1, h2⟩ := ih (i + 1)
        (total + (RunInChroot h (RunKind.test i) (some rr) workdir
          (shellPath :: as) tc.Input runLim ucr w).1.durMs)
        (ResetChrootTmp h (RunInChroot h (RunKind.test i) (some rr) workdir
          (shellPath :: as) tc.Input runLim ucr w).2).2
      refine ⟨Adds.trans (Adds.trans hrun (Adds.of_trace_eq _ _ _ ?_)) h1, ?_⟩
      · simp [ResetChrootTmp]
      · rw [h2]; simpa [ResetChrootTmp] using htemps

theorem singleRun_adds (h : Host) (req : RunRequest) (rr : RunRoot)
    (hostWork workdir : GoString) (ucr : Bool) (shellPath : GoString) (argv : List GoString)
    (runLim : RLimits) (outLimit : Int) (w : World) :
    Adds (IsProgramRun rr.Root) w (singleRun h req rr hostWork workdir ucr shellPath argv runLim
      outLimit w).2 ∧
    (singleRun h req rr hostWork workdir ucr shellPath argv runLim outLimit w).2.temps =
      w.temps := by
  obtain ⟨as, has⟩ := testArgv_cons hostWork workdir shellPath argv (str "single")
  have hrun : Adds (IsProgramRun rr.Root) w (RunInChroot h RunKind.single (some rr) workdir
      (shellPath :: as) req.Input runLim ucr w).2 :=
    Adds.mono (fun e he => ⟨RunKind.single, workdir, shellPath :: as, req.Input, ucr,
      by simp, he⟩) (RunInChroot_adds h RunKind.single rr workdir shellPath as req.Input runLim ucr w)
  have htemps := RunInChroot_temps h RunKind.single rr workdir shellPath as req.Input runLim ucr w
  unfold singleRun
  simp only [has]
  split_ifs <;> exact ⟨hrun, htemps⟩

theorem runProgramWithTests_adds (h : Host) (req : RunRequest) (rr : RunRoot)
    (hostWork workdir : GoString) (ucr : Bool) (shellPath : GoString) (argv : List GoString)
    (runLim : RLimits) (outLimit : Int) (w : World) :
    Adds (IsProgramRun rr.Root) w (runProgramWithTests h req rr hostWork workdir ucr shellPath
      argv runLim outLimit w).2 ∧
    (runProgramWithTests h req rr hostWork workdir ucr shellPath argv runLim outLimit
      w).2.temps = w.temps := by
  unfold runProgramWithTests
  dsimp only
  split_ifs
  · exact ⟨Adds.refl _ _, rfl⟩
  · exact testLoop_adds _ _ _ _ _ _ _ _ _ _ _ _ _ _
  · exact singleRun_adds _ _ _ _ _ _ _ _ _ _ _


theorem digitsRev_value : ∀ (fuel n : Nat), n < fuel →
    (digitsRev fuel n).foldr (fun d acc => (d - 48) + 10 * acc) 0 = n := by
  intro fuel
  induction fuel with
  | zero => intro n hn; omega
  | succ f ih =>
    intro n hn
    unfold digitsRev
    split_ifs with h10
    · simp
    · have hlt : n / 10 < f := by omega
      simp only [List.foldr_cons, ih (n / 10) hlt]
      omega

theorem Itoa_injective (a b : Nat) (hab : Itoa a = Itoa b) : a = b := by
  unfold Itoa at hab
  have h1 := List.reverse_injective hab
  have h2 := congrArg (List.foldr (fun d acc => (d - 48) + 10 * acc) 0) h1
  rwa [digitsRev_value _ _ (Nat.lt_succ_self a), digitsRev_value _ _ (Nat.lt_succ_self b)] at h2

theorem tempName_injective (dir : GoString) (a b : Nat) (hab : tempName dir a = tempName dir b) :
    a = b := by
  unfold tempName at hab
  split_ifs at hab
  · exact Itoa_injective _ _ (List.append_cancel_left hab)
  · exact Itoa_injective _ _ (List.append_cancel_left hab)

theorem tempName_succ_ne (dir : GoString) (n : Nat) : tempName dir n ≠ tempName dir (n + 1) := by
  intro hab
  have := tempName_injective dir _ _ hab
  omega

theorem Cleanup_adds (rr : RunRoot) (w : World) :
    Adds (fun e => e = Event.removed rr.Root) w (rr.Cleanup w) ∧
    (rr.Cleanup w).temps = w.temps := by
  unfold RunRoot.Cleanup
  split_ifs
  · exact ⟨Adds.of_append _ _ _ [Event.removed rr.Root] (by simp) (by simp), by simp⟩
  · exact ⟨Adds.refl _ _, rfl⟩

theorem cRunStage_adds (h : Host) (req : RunRequest) (ucr : Bool) (runRR : RunRoot)
    (runLim : RLimits) (outLimit : Int) (w : World) :
    Adds (fun e => (∃ a, e = Event.hostRun a) ∨ IsProgramRun runRR.Root e) w
      (cRunStage h req ucr runRR runLim outLimit w).2 := by
  have hr := RunOnHost_setcap h (Join [runRR.WorkspaceHost, str "code"]) w.next.next.next
  have hcap : Adds (fun e => (∃ a, e = Event.hostRun a) ∨ IsProgramRun runRR.Root e) w
      (RunOnHost h (setcapArgv (Join [runRR.WorkspaceHost, str "code"])) w.next.next.next).2 :=
    Adds.of_append _ _ _ [Event.hostRun (setcapArgv (Join [runRR.WorkspaceHost, str "code"]))]
      (by simp [hr.1]) (by simp)
  unfold cRunStage
  dsimp only
  split_ifs
  · exact Adds.of_trace_eq _ _ _ (by simp)
  · exact Adds.of_trace_eq _ _ _ (by simp)
  · exact Adds.of_trace_eq _ _ _ (by simp)
  · exact hcap
  · exact Adds.trans hcap (Adds.mono (fun e he => Or.inr he)
      (runProgramWithTests_adds _ _ _ _ _ _ _ _ _ _ _).1)
  · exact Adds.trans hcap (Adds.mono (fun e he => Or.inr he)
      (runProgramWithTests_adds _ _ _ _ _ _ _ _ _ _ _).1)


theorem newEvents_append (w w1 w2 : World) (h1 : w.trace <+: w1.trace)
    (h2 : w1.trace <+: w2.trace) : newEvents w w2 = newEvents w w1 ++ newEvents w1 w2 := by
  obtain ⟨e1, he1⟩ := h1
  obtain ⟨e2, he2⟩ := h2
  unfold newEvents
  rw [← he2, ← he1]
  simp

theorem newEvents_of_append (w w1 : World) (es : List Event) (ht : w1.trace = w.trace ++ es) :
    newEvents w w1 = es := by
  unfold newEvents
  rw [ht]
  simp

theorem compileArgv_cons (hostWork workdir shellPath : GoString) (args : List GoString) :
    ∃ as, compileArgv hostWork workdir shellPath args = shellPath :: as := ⟨_, rfl⟩

theorem withRunRoot_adds (h : Host) (language : GoString) (opts : PrepareRunRootOptions)
    (onError : RunResponse) (body : RunRoot → World → RunResponse × World) (w : World)
    (P : Event → Prop)
    (hP : ∀ e, PrepEvent language opts (tempName (runRootsDirOf h) w.temps) e → P e)
    (hbody : ∀ rr w1, rr.Root = tempName (runRootsDirOf h) w.temps → w1.temps = w.temps + 1 →
      Adds P w1 (body rr w1).2) :
    Adds P w (withRunRoot h language opts onError body w).2 := by
  have hprep := Adds.mono hP (prepare_events h language opts w)
  unfold withRunRoot
  dsimp only
  split
  · exact hprep
  · next rr heq =>
    obtain ⟨hroot, htemps, -⟩ := prepare_ok h language opts w rr heq
    refine Adds.trans hprep (Adds.trans (hbody rr _ hroot htemps) (Adds.mono ?_ (Cleanup_adds rr _).1))
    rintro e rfl
    exact hP _ (Or.inr (Or.inr (Or.inl (by rw [hroot]))))

theorem withRunRoot_created (h : Host) (language : GoString) (opts : PrepareRunRootOptions)
    (onError : RunResponse) (body : RunRoot → World → RunResponse × World) (w : World)
    (hbody : ∀ rr w1, w1.trace <+: (body rr w1).2.trace) :
    Adds NoProgramRun w (withRunRoot h language opts onError body w).2 ∨
    Event.created (tempName (runRootsDirOf h) w.temps) language opts ∈
      newEvents w (withRunRoot h language opts onError body w).2 := by
  have hprep := prepare_events h language opts w
  unfold withRunRoot
  dsimp only
  split
  · left
    refine Adds.mono ?_ hprep
    rintro e (rfl | rfl | rfl | ⟨a, rfl⟩) <;> simp [NoProgramRun, IsProgramRun]
  · next rr heq =>
    right
    obtain ⟨hroot, -, htrace⟩ := prepare_ok h language opts w rr heq
    have h2 : (PrepareRunRootWithOptions h language opts w).2.trace <+:
        (rr.Cleanup (body rr (PrepareRunRootWithOptions h language opts w).2).2).trace :=
      (hbody rr _).trans (Cleanup_adds rr _).1.1
    rw [newEvents_append _ _ _ hprep.1 h2, newEvents_of_append _ _ _ htrace, ← hroot]
    simp


theorem cRunStage_prefix (h : Host) (req : RunRequest) (ucr : Bool) (runLim : RLimits)
    (outLimit : Int) (rr : RunRoot) (w : World) :
    w.trace <+: (cRunStage h req ucr rr runLim outLimit w).2.trace :=
  (cRunStage_adds h req ucr rr runLim outLimit w).1

theorem cBuildStage_adds (h : Host) (req : RunRequest) (ucr : Bool) (buildRR : RunRoot)
    (w : World) :
    Adds (TwoRootEvent (str "c") cBuildOptions buildRR.Root (tempName (runRootsDirOf h) w.temps))
      w (cBuildStage h req ucr buildRR w).2 ∧
    (Adds NoProgramRun w (cBuildStage h req ucr buildRR w).2 ∨
      Event.created (tempName (runRootsDirOf h) w.temps) (str "c") runOptions ∈
        newEvents w (cBuildStage h req ucr buildRR w).2) := by
  unfold cBuildStage
  dsimp only
  simp only [Bool.false_eq_true, if_false]
  generalize runLimits h _ _ = runLim
  generalize compileLimits h _ = comp
  generalize envPos h "RUN_LIMIT_OUTPUT_BYTES" 65536 = outLimit
  obtain ⟨as, has⟩ := compileArgv_cons buildRR.WorkspaceHost
    (Join [str "/env", TrimPrefix buildRR.WorkspaceRel (str "/")]) (str "/env/bin/sh")
    (cCompileArgs (mapToolPath false (str "/usr/bin/gcc"))
      (Join [str "/env", TrimPrefix buildRR.WorkspaceRel (str "/")]))
  rw [has]
  by_cases hf1 : h.fault w.tick = true
  · rw [if_pos hf1]
    exact ⟨Adds.of_trace_eq _ _ _ (by simp), Or.inl (Adds.of_trace_eq _ _ _ (by simp))⟩
  rw [if_neg hf1]
  by_cases hf2 : h.fault (w.tick + 1) = true
  · rw [if_pos hf2]
    exact ⟨Adds.of_append _ _ _ [Event.writeFile (Join [buildRR.WorkspaceHost, str "code.c"])
        req.Code] (by simp) (by simp [TwoRootEvent]),
      Or.inl (Adds.of_append _ _ _ [Event.writeFile (Join [buildRR.WorkspaceHost, str "code.c"])
        req.Code] (by simp) (by simp [NoProgramRun, IsProgramRun]))⟩
  rw [if_neg hf2]
  have hw1 : ∀ P : Event → Prop,
      P (Event.writeFile (Join [buildRR.WorkspaceHost, str "code.c"]) req.Code) →
      Adds P w (w.next.log (Event.writeFile (Join [buildRR.WorkspaceHost, str "code.c"])
        req.Code)).next := fun P hp =>
    Adds.of_append _ _ _ [Event.writeFile (Join [buildRR.WorkspaceHost, str "code.c"])
        req.Code] (by simp) (by simpa using hp)
  have hrun := RunInChroot_adds h RunKind.compile buildRR
    (Join [str "/env", TrimPrefix buildRR.WorkspaceRel (str "/")]) (str "/env/bin/sh") as []
    comp false (w.next.log (Event.writeFile (Join [buildRR.WorkspaceHost, str "code.c"])
        req.Code)).next
  have htemps := RunInChroot_temps h RunKind.compile buildRR
    (Join [str "/env", TrimPrefix buildRR.WorkspaceRel (str "/")]) (str "/env/bin/sh") as []
    comp false (w.next.log (Event.writeFile (Join [buildRR.WorkspaceHost, str "code.c"])
        req.Code)).next
  have hA : Adds (TwoRootEvent (str "c") cBuildOptions buildRR.Root
      (tempName (runRootsDirOf h) w.temps)) w _ :=
    Adds.trans (hw1 _ (by simp [TwoRootEvent])) (Adds.mono (by rintro e rfl; simp [TwoRootEvent]) hrun)
  have hB : Adds NoProgramRun w _ :=
    Adds.trans (hw1 _ (by simp [NoProgramRun, IsProgramRun]))
      (Adds.mono (by
        rintro e rfl root ⟨k, wd, a, s, u, hk, he⟩
        cases he
        exact hk rfl) hrun)
  split_ifs with herr
  · exact ⟨hA, Or.inl hB⟩
  · have htemps2 : (RunInChroot h RunKind.compile (some buildRR)
        (Join [str "/env", TrimPrefix buildRR.WorkspaceRel (str "/")]) (str "/env/bin/sh" :: as) []
        comp false (w.next.log (Event.writeFile (Join [buildRR.WorkspaceHost, str "code.c"])
          req.Code)).next).2.temps = w.temps := by rw [htemps]; simp
    refine ⟨Adds.trans hA (withRunRoot_adds _ _ _ _ _ _ _ ?_ ?_), ?_⟩
    · rw [htemps2]
      rintro e (rfl | rfl | rfl | ⟨a, rfl⟩) <;> simp [TwoRootEvent]
    · intro rr w1 hroot _
      rw [htemps2] at hroot
      refine Adds.mono ?_ (cRunStage_adds h req ucr rr runLim outLimit w1)
      rintro e (⟨a, rfl⟩ | ⟨k, wd, a, s, u, hk, rfl⟩)
      · simp [TwoRootEvent]
      · simp [TwoRootEvent, hk, hroot]
    · rcases withRunRoot_created h (str "c") runOptions internalError
        (fun runRR => cRunStage h req ucr runRR runLim outLimit) _
        (fun rr w1 => cRunStage_prefix h req ucr runLim outLimit rr w1) with hno | hmem
      · exact Or.inl (Adds.trans hB hno)
      · right
        rw [htemps2] at hmem
        rw [newEvents_append _ _ _ hA.1 (withRunRoot_adds _ _ _ _ _ _ (fun _ => True)
          (fun _ _ => trivial) (fun rr w1 _ _ => Adds.mono (fun _ _ => trivial)
            (cRunStage_adds h req ucr rr runLim outLimit w1))).1]
        exact List.mem_append_right _ hmem


theorem gohelper_testLoop_adds (h : Host) (reveal single : Bool) (globalLimitMs outLimit : Int)
    (rr : RunRoot) (hostWork workdir : GoString) (argv : List GoString) (runLim : RLimits) :
    ∀ (tests : List runnerTest) (i : Nat) (total : Int) (last : GoString) (w : World),
      Adds (IsProgramRun rr.Root) w (gohelper.testLoop h reveal single globalLimitMs outLimit rr
        hostWork workdir argv runLim i total last tests w).2 := by
  intro tests
  induction tests with
  | nil => intro i total last w; simpa [gohelper.testLoop] using Adds.refl _ w
  | cons tc rest ih =>
    intro i total last w
    obtain ⟨as, has⟩ := testArgv_cons hostWork workdir (str "/env/bin/sh") argv
      (str "test-" ++ Itoa i)
    have hrun : Adds (IsProgramRun rr.Root) w (RunInChroot h (RunKind.test i) (some rr) workdir
        (str "/env/bin/sh" :: as) tc.Input runLim false w.next).2 :=
      Adds.trans (Adds.of_trace_eq _ _ _ (by simp))
        (Adds.mono (fun e he => ⟨RunKind.test i, workdir, str "/env/bin/sh" :: as, tc.Input,
          false, by simp, he⟩)
          (RunInChroot_adds h (RunKind.test i) rr workdir (str "/env/bin/sh") as tc.Input runLim
            false w.next))
    have hreset : Adds (IsProgramRun rr.Root) w (ResetChrootTmp h
        (RunInChroot h (RunKind.test i) (some rr) workdir
          (str "/env/bin/sh" :: as) tc.Input runLim false w.next).2).2 :=
      Adds.trans hrun (Adds.of_trace_eq _ _ _ (by simp [ResetChrootTmp]))
    unfold gohelper.testLoop
    simp only [has]
    split_ifs
    · exact Adds.of_trace_eq _ _ _ (by simp)
    · split
      · exact hrun
      · exact hreset
    · split
      · exact hrun
      · exact Adds.trans hreset (ih _ _ _ _)

theorem gohelper_runStage_adds (h : Host) (req : gohelper.Request) (reveal single : Bool)
    (globalLimitMs outLimit : Int) (runRR : RunRoot) (w : World) :
    Adds (fun e => (∃ a, e = Event.hostRun a) ∨ IsProgramRun runRR.Root e) w
      (gohelper.runStage h req reveal single globalLimitMs outLimit runRR w).2 := by
  have hr := RunOnHost_setcap h (Join [runRR.WorkspaceHost, str "code"]) w.next.next
  have hcap : Adds (fun e => (∃ a, e = Event.hostRun a) ∨ IsProgramRun runRR.Root e) w
      (RunOnHost h (setcapArgv (Join [runRR.WorkspaceHost, str "code"])) w.next.next).2 :=
    Adds.of_append _ _ _ [Event.hostRun (setcapArgv (Join [runRR.WorkspaceHost, str "code"]))]
      (by simp [hr.1]) (by simp)
  unfold gohelper.runStage
  dsimp only
  split_ifs
  · exact Adds.of_trace_eq _ _ _ (by simp)
  · exact Adds.of_trace_eq _ _ _ (by simp)
  · exact hcap
  · exact Adds.trans hcap (Adds.of_trace_eq _ _ _ (by simp))
  · exact Adds.trans hcap (Adds.trans (Adds.of_trace_eq _ _ _ (by simp))
      (Adds.mono (fun e he => Or.inr he) (gohelper_testLoop_adds _ _ _ _ _ _ _ _ _ _ _ _ _ _ _)))


theorem gohelper_buildStage_adds (h : Host) (req : gohelper.Request) (reveal single : Bool)
    (globalLimitMs outLimit : Int) (buildRR : RunRoot) (w : World) :
    Adds (TwoRootEvent (str "go") gohelper.goBuildOptions buildRR.Root
      (tempName (runRootsDirOf h) w.temps))
      w (gohelper.buildStage h req reveal single globalLimitMs outLimit buildRR w).2 ∧
    (Adds NoProgramRun w
        (gohelper.buildStage h req reveal single globalLimitMs outLimit buildRR w).2 ∨
      Event.created (tempName (runRootsDirOf h) w.temps) (str "go") runOptions ∈
        newEvents w (gohelper.buildStage h req reveal single globalLimitMs outLimit buildRR w).2) := by
  unfold gohelper.buildStage
  dsimp only
  generalize gohelper.buildGoCompileLimits h _ = comp
  obtain ⟨as, has⟩ := compileArgv_cons buildRR.WorkspaceHost buildRR.WorkspaceDir (str "/bin/sh")
    (gohelper.goCompileArgs buildRR.WorkspaceDir)
  rw [has]
  have hw1 : ∀ P : Event → Prop,
      P (Event.writeFile (Join [buildRR.WorkspaceHost, str "code.go"]) req.Code) →
      Adds P w (w.next.next.log (Event.writeFile (Join [buildRR.WorkspaceHost, str "code.go"])
        req.Code)).next.next := fun P hp =>
    Adds.of_append _ _ _ [Event.writeFile (Join [buildRR.WorkspaceHost, str "code.go"])
        req.Code] (by simp) (by simpa using hp)
  have hrun := RunInChroot_adds h RunKind.compile buildRR buildRR.WorkspaceDir (str "/bin/sh") as []
    comp true (w.next.next.log (Event.writeFile (Join [buildRR.WorkspaceHost, str "code.go"])
        req.Code)).next.next
  have htemps := RunInChroot_temps h RunKind.compile buildRR buildRR.WorkspaceDir (str "/bin/sh")
    as [] comp true (w.next.next.log (Event.writeFile (Join [buildRR.WorkspaceHost, str "code.go"])
        req.Code)).next.next
  have hA : Adds (TwoRootEvent (str "go") gohelper.goBuildOptions buildRR.Root
      (tempName (runRootsDirOf h) w.temps)) w _ :=
    Adds.trans (hw1 _ (by simp [TwoRootEvent])) (Adds.mono (by rintro e rfl; simp [TwoRootEvent]) hrun)
  have hB : Adds NoProgramRun w _ :=
    Adds.trans (hw1 _ (by simp [NoProgramRun, IsProgramRun]))
      (Adds.mono (by
        rintro e rfl root ⟨k, wd, a, s, u, hk, he⟩
        cases he
        exact hk rfl) hrun)
  have hnext : ∀ (P : Event → Prop) (w0 : World), Adds P w0 w0.next := fun P w0 =>
    Adds.of_trace_eq _ _ _ (by simp)
  by_cases hf1 : h.fault w.tick = true
  · rw [if_pos hf1]
    exact ⟨Adds.of_trace_eq _ _ _ (by simp), Or.inl (Adds.of_trace_eq _ _ _ (by simp))⟩
  rw [if_neg hf1]
  by_cases hf2 : h.fault (w.tick + 1) = true
  · rw [if_pos hf2]
    exact ⟨Adds.of_trace_eq _ _ _ (by simp), Or.inl (Adds.of_trace_eq _ _ _ (by simp))⟩
  rw [if_neg hf2]
  split_ifs
  · exact ⟨Adds.of_append _ _ _ [Event.writeFile (Join [buildRR.WorkspaceHost, str "code.go"])
        req.Code] (by simp) (by simp [TwoRootEvent]),
      Or.inl (Adds.of_append _ _ _ [Event.writeFile (Join [buildRR.WorkspaceHost, str "code.go"])
        req.Code] (by simp) (by simp [NoProgramRun, IsProgramRun]))⟩
  · exact ⟨hw1 _ (by simp [TwoRootEvent]), Or.inl (hw1 _ (by simp [NoProgramRun, IsProgramRun]))⟩
  · exact ⟨hA, Or.inl hB⟩
  · exact ⟨Adds.trans hA (hnext _ _), Or.inl (Adds.trans hB (hnext _ _))⟩
  · have htemps2 : (RunInChroot h RunKind.compile (some buildRR) buildRR.WorkspaceDir
        (str "/bin/sh" :: as) [] comp true
        (w.next.next.log (Event.writeFile (Join [buildRR.WorkspaceHost, str "code.go"])
          req.Code)).next.next).2.next.temps = w.temps := by simp [htemps]
    have hA2 := Adds.trans hA (hnext _ _)
    have hB2 := Adds.trans hB (hnext _ _)
    refine ⟨Adds.trans hA2 (withRunRoot_adds _ _ _ _ _ _ _ ?_ ?_), ?_⟩
    · rw [htemps2]
      rintro e (rfl | rfl | rfl | ⟨a, rfl⟩) <;> simp [TwoRootEvent]
    · intro rr w1 hroot _
      rw [htemps2] at hroot
      refine Adds.mono ?_ (gohelper_runStage_adds h req reveal single globalLimitMs outLimit rr w1)
      rintro e (⟨a, rfl⟩ | ⟨k, wd, a, s, u, hk, rfl⟩)
      · simp [TwoRootEvent]
      · simp [TwoRootEvent, hk, hroot]
    · rcases withRunRoot_created h (str "go") runOptions (gohelper.sanitize reveal internalError)
        (gohelper.runStage h req reveal single globalLimitMs outLimit) _
        (fun rr w1 => (gohelper_runStage_adds h req reveal single globalLimitMs outLimit rr
          w1).1) with hno | hmem
      · exact Or.inl (Adds.trans hB2 hno)
      · right
        rw [htemps2] at hmem
        rw [newEvents_append _ _ _ hA2.1 (withRunRoot_adds _ _ _ _ _ _ (fun _ => True)
          (fun _ _ => trivial) (fun rr w1 _ _ => Adds.mono (fun _ _ => trivial)
            (gohelper_runStage_adds h req reveal single globalLimitMs outLimit rr w1))).1]
        exact List.mem_append_right _ hmem


theorem withRunRoot_two_roots (h : Host) (language : GoString) (buildOpts : PrepareRunRootOptions)
    (onError : RunResponse) (body : RunRoot → World → RunResponse × World) (w : World)
    (hbody : ∀ rr w1,
      Adds (TwoRootEvent language buildOpts rr.Root (tempName (runRootsDirOf h) w1.temps)) w1
        (body rr w1).2 ∧
      (Adds NoProgramRun w1 (body rr w1).2 ∨
        Event.created (tempName (runRootsDirOf h) w1.temps) language runOptions ∈
          newEvents w1 (body rr w1).2)) :
    TwoRootPipeline language buildOpts (runRootsDirOf h) w
      (withRunRoot h language buildOpts onError body w).2 := by
  have hprep := prepare_events h language buildOpts w
  have hno : Adds NoProgramRun w (PrepareRunRootWithOptions h language buildOpts w).2 := by
    refine Adds.mono ?_ hprep
    rintro e (rfl | rfl | rfl | ⟨a, rfl⟩) <;> simp [NoProgramRun, IsProgramRun]
  refine ⟨tempName_succ_ne _ _, ?_, ?_⟩
  · refine (withRunRoot_adds h language buildOpts onError body w _ ?_ ?_).2
    · rintro e (rfl | rfl | rfl | ⟨a, rfl⟩) <;> simp [TwoRootEvent]
    · intro rr w1 hroot htemps
      have := (hbody rr w1).1
      rwa [hroot, htemps] at this
  · rintro ⟨e, he, hrun⟩
    revert he
    unfold withRunRoot
    dsimp only
    split
    · intro he
      exact absurd hrun (hno.2 e he _)
    · next rr heq =>
      obtain ⟨-, htemps, -⟩ := prepare_ok h language buildOpts w rr heq
      have hcl := Cleanup_adds rr (body rr (PrepareRunRootWithOptions h language buildOpts w).2).2
      have hb := hbody rr (PrepareRunRootWithOptions h language buildOpts w).2
      rw [htemps] at hb
      have hpre : w.trace <+: (body rr (PrepareRunRootWithOptions h language buildOpts w).2).2.trace :=
        hprep.1.trans hb.1.1
      rw [newEvents_append _ _ _ hpre hcl.1.1, newEvents_append _ _ _ hprep.1 hb.1.1]
      intro he
      rcases hb.2 with hnb | hmem
      · exfalso
        simp only [List.mem_append] at he
        rcases he with (he | he) | he
        · exact hno.2 e he _ hrun
        · exact hnb.2 e he _ hrun
        · have := hcl.1.2 e he
          subst this
          obtain ⟨k, wd, a, s, u, -, h0⟩ := hrun
          cases h0
      · simp only [List.mem_append]
        exact Or.inl (Or.inr hmem)

theorem newEvents_self (w : World) : newEvents w w = [] := by simp [newEvents]

theorem TwoRootPipeline_of_trace_eq (language : GoString) (buildOpts : PrepareRunRootOptions)
    (dir : GoString) (w w1 : World) (ht : w1.trace = w.trace) :
    TwoRootPipeline language buildOpts dir w w1 := by
  have hnil : newEvents w w1 = [] := by simp [newEvents, ht]
  refine ⟨tempName_succ_ne _ _, ?_, ?_⟩ <;> simp [hnil]

theorem TwoRootPipeline_shift (language : GoString) (buildOpts : PrepareRunRootOptions)
    (dir : GoString) (w w0 w1 : World) (ht : w0.trace = w.trace) (hn : w0.temps = w.temps)
    (hp : TwoRootPipeline language buildOpts dir w0 w1) :
    TwoRootPipeline language buildOpts dir w w1 := by
  unfold TwoRootPipeline newEvents at hp ⊢
  rwa [ht, hn] at hp

/-- Claim C4.  A request in C (through `execute`) and a request to the Go helper (`Execute`)
each work in two distinct run-roots: every compile run is in the first (the build run-root,
prepared with the build options), every run of the user's program is in the second, which was
prepared with `runOptions`, whose `ForCBuilder` is true; no other run-root is prepared, and in
particular a request in C never calls `PrepareRunRoot` (the default options). -/
theorem two_stage_pipelines_use_two_run_roots (h : Host) (req : RunRequest)
    (greq : gohelper.Request) (w : World) :
    TwoRootPipeline (str "c") cBuildOptions (runRootsDirOf h) w
      (execute h { req with Language := str "c" } w).2 ∧
    TwoRootPipeline (str "go") gohelper.goBuildOptions (runRootsDirOf (gohelper.helperHost h greq))
      w (gohelper.Execute h greq w).2 ∧
    runOptions.ForCBuilder = true ∧
    (∀ language, Event.prepare language {} ∉
      newEvents w (execute h { req with Language := str "c" } w).2) := by
  have hc : TwoRootPipeline (str "c") cBuildOptions (runRootsDirOf h) w
      (execute h { req with Language := str "c" } w).2 := by
    unfold execute
    dsimp only
    rw [if_neg (by decide : ¬ str "c" = str "go"), if_pos rfl]
    unfold executeCTwoStage
    split_ifs <;> first
      | exact TwoRootPipeline_of_trace_eq _ _ _ _ _ rfl
      | exact withRunRoot_two_roots _ _ _ _ _ _ (fun rr w1 => cBuildStage_adds h _ false rr w1)
  refine ⟨hc, ?_, rfl, ?_⟩
  · unfold gohelper.Execute
    dsimp only
    split_ifs <;> first
      | exact TwoRootPipeline_shift _ _ _ w w.next.next _ rfl rfl
          (withRunRoot_two_roots _ _ _ _ _ _
            (fun rr w1 => gohelper_buildStage_adds _ greq _ _ _ _ rr w1))
      | exact TwoRootPipeline_of_trace_eq _ _ _ _ _ rfl
  · intro language hmem
    have := hc.2.1 _ hmem
    simp only [TwoRootEvent] at this
    rcases this.2 with h0 | h0
    · exact absurd h0 (by decide)
    · exact absurd h0 (by decide)


/-- A sample-mode request in C on `okHost`: the compiler runs in the first run-root, the test
in the second. -/
theorem c_pipeline_example :
    (execute okHost { includeFlagRequest with Mode := str "sample" } {}).2.trace.filterMap runOf =
      [(RunKind.compile, str "/tmp/sandbox-runroots/runroot-0"),
       (RunKind.test 0, str "/tmp/sandbox-runroots/runroot-1")] ∧
    (gohelper.Execute okHost goSingleHelperRequest {}).2.trace.filterMap runOf =
      [(RunKind.compile, str "/tmp/sandbox-runroots/runroot-0"),
       (RunKind.test 0, str "/tmp/sandbox-runroots/runroot-1")] := by
  decide


/-! ## C5: unsupported languages -/

/-- Claim C5, as stated, fails: for the language `rust`, whose template root is missing on
`okHost`, `execute` has called `PrepareRunRoot` and answers `Internal Error`; for the language
`cobol`, whose template root exists, a run-root has been created and the result is the text
`Unsupported language: cobol`, not `Unsupported language`. -/
theorem unsupported_language_prepares_run_root :
    ValidSandbox helloRequest ∧
    str "rust" ∉ supportedLanguages ∧ str "cobol" ∉ supportedLanguages ∧
    (execute okHost { helloRequest with Language := str "rust" } {}).1.Result =
      str "Internal Error" ∧
    Event.prepare (str "rust") {} ∈
      (execute okHost { helloRequest with Language := str "rust" } {}).2.trace ∧
    (execute okHost { helloRequest with Language := str "cobol" } {}).1.Result =
      str "Unsupported language: cobol" ∧
    str "Unsupported language: cobol" ≠ str "Unsupported language" ∧
    Event.created (str "/tmp/sandbox-runroots/runroot-0") (str "cobol") {} ∈
      (execute okHost { helloRequest with Language := str "cobol" } {}).2.trace := by
  decide

theorem extOf_unsupported (language : GoString) (hl : language ∉ supportedLanguages) :
    extOf language = [] := by
  simp only [supportedLanguages, List.mem_cons, List.mem_singleton, List.not_mem_nil, or_false,
    not_or] at hl
  unfold extOf
  rw [if_neg hl.1, if_neg hl.2.2.1, if_neg hl.2.2.2]

/-- Claim C5, amended.  For a request with a valid sandbox field whose language is none of
`c`, `go`, `python`, `ruby`, the result of `execute` is `Internal Error` or the text
`Unsupported language: ` followed by the language, and `execute` writes no source file, starts
no helper process and runs no command in a sandbox. -/
theorem unsupported_language_does_no_work (h : Host) (req : RunRequest) (w : World)
    (hs : ValidSandbox req) (hl : req.Language ∉ supportedLanguages) :
    ((execute h req w).1.Result = str "Internal Error" ∨
      (execute h req w).1.Result = str "Unsupported language: " ++ req.Language) ∧
    Adds (fun e => e.isWork = false) w (execute h req w).2 := by
  have hext := extOf_unsupported _ hl
  simp only [supportedLanguages, List.mem_cons, List.mem_singleton, List.not_mem_nil, or_false,
    not_or] at hl
  have hprep := prepare_adds h req.Language {} w
  have hvalid : ¬ ((if TrimSpace req.Sandbox = [] then str "default" else TrimSpace req.Sandbox) ≠
      str "default" ∧
      (if TrimSpace req.Sandbox = [] then str "default" else TrimSpace req.Sandbox) ≠
        str "nsjail_only") := by
    rcases hs with hs | hs | hs <;> rw [hs] <;> decide
  unfold execute
  dsimp only
  rw [if_neg hvalid, if_neg hl.2.1, if_neg hl.1]
  unfold PrepareRunRoot
  split
  · exact ⟨Or.inl rfl, hprep⟩
  · next rr heq =>
    unfold executeOnRunRoot
    dsimp only
    rw [if_pos hext]
    refine ⟨Or.inr rfl, Adds.trans hprep (Adds.mono ?_ (Cleanup_adds rr _).1)⟩
    rintro e rfl
    rfl

theorem unsupported_language_witness :
    (ValidSandbox helloRequest ∧ str "cobol" ∉ supportedLanguages) ∧
    ((execute okHost { helloRequest with Language := str "cobol" } {}).1.Result =
        str "Internal Error" ∨
      (execute okHost { helloRequest with Language := str "cobol" } {}).1.Result =
        str "Unsupported language: " ++ str "cobol") ∧
    Adds (fun e => e.isWork = false) {}
      (execute okHost { helloRequest with Language := str "cobol" } {}).2 :=
  ⟨⟨by decide, by decide⟩,
    unsupported_language_does_no_work okHost { helloRequest with Language := str "cobol" } {}
      (by decide) (by decide)⟩


/-! ## Paths: `filepath.Join` with a regular last element -/

theorem splitOn_slash_free (p : GoString) : ∀ c ∈ p.splitOn slash, slash ∉ c := by
  unfold List.splitOn
  induction p with
  | nil => simp
  | cons x xs ih =>
    rw [List.splitOnP_cons]
    split_ifs with hx
    · intro c hc
      rcases List.mem_cons.1 hc with rfl | hc
      · simp
      · exact ih c hc
    · cases hs : List.splitOnP (fun x => x == slash) xs with
      | nil => exact absurd hs (List.splitOnP_ne_nil _ _)
      | cons r0 rs =>
        rw [hs] at ih
        intro c hc
        simp only [List.modifyHead_cons, List.mem_cons] at hc
        rcases hc with rfl | hc
        · intro hmem
          rcases List.mem_cons.1 hmem with rfl | hmem
          · simp at hx
          · exact ih r0 (List.mem_cons_self _ _) hmem
        · exact ih c (List.mem_cons_of_mem _ hc)

theorem intercalate_append_single (xs : List GoString) (hne : xs ≠ []) (a : GoString) :
    [slash].intercalate (xs ++ [a]) = [slash].intercalate xs ++ slash :: a := by
  induction xs with
  | nil => exact absurd rfl hne
  | cons x xs ih =>
    cases xs with
    | nil => simp [List.intercalate]
    | cons y ys =>
      have := ih (by simp)
      simp only [List.intercalate, List.cons_append, List.intersperse_cons₂, List.flatten_cons,
        List.append_assoc] at this ⊢
      rw [this]

theorem splitOn_append_sep (p name : GoString) (hn : slash ∉ name) :
    (p ++ slash :: name).splitOn slash = p.splitOn slash ++ [name] := by
  have hne : p.splitOn slash ≠ [] := List.splitOnP_ne_nil _ _
  have h1 := List.splitOn_intercalate (p.splitOn slash ++ [name]) slash
    (by
      intro l hl
      rcases List.mem_append.1 hl with hl | hl
      · exact splitOn_slash_free p l hl
      · simp only [List.mem_singleton] at hl
        rw [hl]; exact hn)
    (by simp)
  rw [intercalate_append_single _ hne, List.intercalate_splitOn] at h1
  exact h1


theorem cleanStep_regular (r : Bool) (st : List GoString) (c : GoString) (hc : Regular c) :
    cleanStep r st c = c :: st := by
  obtain ⟨h1, -, h3, h4⟩ := hc
  unfold cleanStep
  rw [if_neg (by simp [h1, h3]), if_neg h4]

theorem cleanElems_append_sep (p name : GoString) (hp : p ≠ []) (hn : Regular name) :
    cleanElems (p ++ slash :: name) = cleanElems p ++ [name] ∧
    ((p ++ slash :: name).head? = some slash ↔ p.head? = some slash) := by
  have hh : (p ++ slash :: name).head? = p.head? := by
    cases p with
    | nil => exact absurd rfl hp
    | cons x xs => rfl
  refine ⟨?_, by rw [hh]⟩
  unfold cleanElems
  rw [splitOn_append_sep p name hn.2.1, List.foldl_append, hh]
  simp [cleanStep_regular _ _ _ hn]

theorem Clean_append_sep (p name : GoString) (hp : p ≠ []) (hn : Regular name) :
    Clean (p ++ slash :: name) =
      renderDir (p.head? = some slash) (cleanElems p) ++ name := by
  obtain ⟨h1, h2⟩ := cleanElems_append_sep p name hp hn
  unfold Clean renderDir
  rw [if_neg (by simp), h1]
  by_cases hr : p.head? = some slash
  · rw [if_pos (h2.2 hr)]
    by_cases he : cleanElems p = []
    · simp [hr, he, List.intercalate]
    · rw [intercalate_append_single _ he]
      simp [hr, he]
  · rw [if_neg (fun h => hr (h2.1 h)), if_neg (by simp)]
    by_cases he : cleanElems p = []
    · simp [hr, he, List.intercalate]
    · rw [intercalate_append_single _ he]
      simp [hr, he]

theorem Join_regular (p name : GoString) (hp : p ≠ []) (hn : Regular name) :
    Join [p, name] = renderDir (p.head? = some slash) (cleanElems p) ++ name := by
  rw [← Clean_append_sep p name hp hn]
  unfold Join
  simp [List.dropWhile, hp, List.intercalate]


theorem stackOK_mem (r : Bool) : ∀ (st : List GoString), stackOK r st →
    ∀ c ∈ st, c ≠ [] ∧ slash ∉ c ∧ c ≠ str "."
  | [], _, c, hc => by simp at hc
  | d :: st, h, c, hc => by
    rcases List.mem_cons.1 hc with rfl | hc
    · exact ⟨h.1.1, h.1.2.1, h.1.2.2.1⟩
    · exact stackOK_mem r st h.2 c hc

theorem cleanStep_ok (r : Bool) (st : List GoString) (c : GoString) (hst : stackOK r st)
    (hc : slash ∉ c) : stackOK r (cleanStep r st c) := by
  have hdd : str ".." ≠ [] ∧ str ".." ≠ str "." := by decide
  unfold cleanStep
  by_cases h1 : c = [] ∨ c = str "."
  · rw [if_pos h1]; exact hst
  rw [if_neg h1]
  by_cases h2 : c = str ".."
  · rw [if_pos h2]
    cases st with
    | nil =>
      dsimp only
      by_cases hr : r = true
      · rw [if_pos hr]; trivial
      · rw [if_neg hr]
        exact ⟨⟨by rw [h2]; exact hdd.1, hc, by rw [h2]; exact hdd.2,
          fun _ => ⟨by simpa using hr, by simp⟩⟩, trivial⟩
    | cons top rest =>
      dsimp only
      by_cases h3 : top = str ".." ∧ r = false
      · rw [if_pos h3]
        refine ⟨⟨by rw [h2]; exact hdd.1, hc, by rw [h2]; exact hdd.2, fun _ => ⟨h3.2, ?_⟩⟩, hst⟩
        intro d hd
        rcases List.mem_cons.1 hd with rfl | hd
        · exact h3.1
        · exact (hst.1.2.2.2 h3.1).2 d hd
      · rw [if_neg h3]; exact hst.2
  · rw [if_neg h2]
    exact ⟨⟨fun h => h1 (Or.inl h), hc, fun h => h1 (Or.inr h), fun h => absurd h h2⟩, hst⟩

theorem foldl_cleanStep_ok (r : Bool) : ∀ (cs : List GoString), (∀ c ∈ cs, slash ∉ c) →
    ∀ st, stackOK r st → stackOK r (cs.foldl (cleanStep r) st)
  | [], _, _, hst => hst
  | c :: cs, hcs, st, hst =>
    foldl_cleanStep_ok r cs (fun d hd => hcs d (List.mem_cons_of_mem _ hd)) _
      (cleanStep_ok r st c hst (hcs c (List.mem_cons_self _ _)))

theorem cleanElems_ok (p : GoString) :
    stackOK (p.head? = some slash) (cleanElems p).reverse := by
  unfold cleanElems
  rw [List.reverse_reverse]
  exact foldl_cleanStep_ok _ _ (splitOn_slash_free p) [] trivial

theorem cleanElems_mem (p c : GoString) (hc : c ∈ cleanElems p) :
    c ≠ [] ∧ slash ∉ c ∧ c ≠ str "." :=
  stackOK_mem _ _ (cleanElems_ok p) c (List.mem_reverse.2 hc)

/-- A cleaned unrooted path does not begin with a separator. -/
theorem intercalate_head_ne_slash (es : List GoString) (hne : es ≠ [])
    (hes : ∀ c ∈ es, c ≠ [] ∧ slash ∉ c) (rest : GoString) :
    ([slash].intercalate es ++ rest).head? ≠ some slash := by
  cases es with
  | nil => exact absurd rfl hne
  | cons e es =>
    obtain ⟨he1, he2⟩ := hes e (List.mem_cons_self _ _)
    cases e with
    | nil => exact absurd rfl he1
    | cons x xs =>
      have hx : x ≠ slash := fun h => he2 (by rw [h]; exact List.mem_cons_self _ _)
      cases es with
      | nil => simpa [List.intercalate] using hx
      | cons y ys => simpa [List.intercalate] using hx

/-- Joining a regular name to a directory gives `/flag2` only under the root directory. -/
theorem Join_eq_flag2 (p name : GoString) (hp : p ≠ []) (hn : Regular name)
    (h : Join [p, name] = str "/flag2") : Clean p = str "/" := by
  rw [Join_regular p name hp hn] at h
  unfold renderDir at h
  have hmem := cleanElems_mem p
  by_cases hr : p.head? = some slash
  · by_cases he : cleanElems p = []
    · unfold Clean
      rw [if_neg hp, if_pos hr, he]
      rfl
    · exfalso
      simp only [hr, he, decide_True, if_true, if_false] at h
      have h2 : slash ∈ (str "/flag2").tail := by
        rw [← h]
        simp
      exact absurd h2 (by decide)
  · exfalso
    by_cases he : cleanElems p = []
    · simp only [hr, he, decide_False, if_true, if_false] at h
      have h2 : slash ∈ name := by
        simp only [List.nil_append, Bool.false_eq_true, if_false] at h
        rw [h]
        decide
      exact hn.2.1 h2
    · simp only [hr, he, decide_False, if_false, Bool.false_eq_true, List.nil_append] at h
      have h3 := intercalate_head_ne_slash (cleanElems p) he
        (fun c hc => ⟨(hmem c hc).1, (hmem c hc).2.1⟩) ([slash] ++ name)
      rw [List.append_assoc] at h
      rw [h] at h3
      exact h3 rfl


/-! ## The mount list of a prepared run-root -/

theorem envMountsLoop_mem (h : Host) (root envRoot : GoString) :
    ∀ (es : List DirEntry) (acc : List bindMount) (w : World) (ms : List bindMount),
      (envMountsLoop h root envRoot es acc w).1 = some ms →
      ∀ m ∈ ms, m ∈ acc ∨ ∃ e ∈ es, e.name ≠ str "." ∧ e.name ≠ str ".." ∧
        m = { host := Join [envRoot, e.name], target := Join [root, e.name], readOnly := true } := by
  intro es
  induction es with
  | nil =>
    intro acc w ms hok m hm
    simp only [envMountsLoop, Option.some.injEq] at hok
    exact Or.inl (hok ▸ hm)
  | cons e es ih =>
    intro acc w ms hok m hm
    have hstep : ∀ acc1 w1, (envMountsLoop h root envRoot es acc1 w1).1 = some ms →
        (m ∈ acc1 → m ∈ acc ∨ ∃ e1 ∈ e :: es, e1.name ≠ str "." ∧ e1.name ≠ str ".." ∧
          m = { host := Join [envRoot, e1.name], target := Join [root, e1.name],
                readOnly := true }) →
        m ∈ acc ∨ ∃ e1 ∈ e :: es, e1.name ≠ str "." ∧ e1.name ≠ str ".." ∧
          m = { host := Join [envRoot, e1.name], target := Join [root, e1.name],
                readOnly := true } := by
      intro acc1 w1 h1 hacc
      rcases ih acc1 w1 ms h1 m hm with h2 | ⟨e1, he1, h3⟩
      · exact hacc h2
      · exact Or.inr ⟨e1, List.mem_cons_of_mem _ he1, h3⟩
    unfold envMountsLoop at hok
    split_ifs at hok with hdot hskip hsym hf1 hf2 hf3 hf4 hf5
    · exact hstep _ _ hok Or.inl
    · exact hstep _ _ hok Or.inl
    · exact hstep _ _ hok Or.inl
    · refine hstep _ _ hok (fun hm1 => ?_)
      rcases List.mem_append.1 hm1 with hm1 | hm1
      · exact Or.inl hm1
      · refine Or.inr ⟨e, List.mem_cons_self _ _, fun hx => hdot (Or.inl hx),
          fun hx => hdot (Or.inr hx), ?_⟩
        simpa using hm1

theorem buildEnvMounts_mem (h : Host) (root envRoot : GoString) (w : World)
    (ms : List bindMount) (hok : (buildEnvMounts h root envRoot w).1 = some ms) :
    ∃ entries, h.readDir envRoot = some entries ∧
      ∀ m ∈ ms, ∃ e ∈ entries, e.name ≠ str "." ∧ e.name ≠ str ".." ∧
        m = { host := Join [envRoot, e.name], target := Join [root, e.name], readOnly := true } := by
  unfold buildEnvMounts at hok
  split at hok
  · simp at hok
  · next entries hrd =>
    refine ⟨entries, hrd, fun m hm => ?_⟩
    rcases envMountsLoop_mem h root envRoot _ _ _ _ hok m hm with h1 | ⟨e, he, h2⟩
    · simp at h1
    · exact ⟨e, (List.perm_insertionSort _ _).mem_iff.1 he, h2⟩

theorem deviceMountsLoop_mem (h : Host) (root : GoString) :
    ∀ (ds : List GoString) (acc : List bindMount) (w : World),
      ∀ m ∈ (deviceMountsLoop h root ds acc w).1, m ∈ acc ∨ m.host ∈ ds := by
  intro ds
  induction ds with
  | nil => intro acc w m hm; exact Or.inl (by simpa [deviceMountsLoop] using hm)
  | cons d ds ih =>
    intro acc w m hm
    unfold deviceMountsLoop at hm
    split at hm
    · split_ifs at hm
      · rcases ih _ _ m hm with h1 | h1
        · exact Or.inl h1
        · exact Or.inr (List.mem_cons_of_mem _ h1)
      · rcases ih _ _ m hm with h1 | h1
        · rcases List.mem_append.1 h1 with h1 | h1
          · exact Or.inl h1
          · right
            simp only [List.mem_singleton] at h1
            rw [h1]
            exact List.mem_cons_self _ _
        · exact Or.inr (List.mem_cons_of_mem _ h1)
    · rcases ih _ _ m hm with h1 | h1
      · exact Or.inl h1
      · exact Or.inr (List.mem_cons_of_mem _ h1)

theorem dedupeMounts_mem : ∀ (ms : List bindMount) (seen : List GoString),
    ∀ m ∈ dedupeMounts seen ms, m ∈ ms := by
  intro ms
  induction ms with
  | nil => intro seen m hm; simp [dedupeMounts] at hm
  | cons x xs ih =>
    intro seen m hm
    unfold dedupeMounts at hm
    split_ifs at hm
    · exact List.mem_cons_of_mem _ (ih _ m hm)
    · rcases List.mem_cons.1 hm with rfl | hm
      · exact List.mem_cons_self _ _
      · exact List.mem_cons_of_mem _ (ih _ m hm)

theorem dedupeAndSortMounts_mem (ms : List bindMount) (m : bindMount) :
    m ∈ dedupeAndSortMounts ms ↔ m ∈ dedupeMounts [] ms := by
  unfold dedupeAndSortMounts
  exact (List.perm_insertionSort _ _).mem_iff


/-- The mount list of a successfully prepared run-root and the host paths it is built from. -/
theorem prepare_ok_mounts (h : Host) (language : GoString) (opts : PrepareRunRootOptions)
    (w : World) (rr : RunRoot)
    (hok : (PrepareRunRootWithOptions h language opts w).1 = Except.ok rr) :
    ∃ envMounts devs flags,
      (∃ w0, (buildEnvMounts h (Join [rr.Root, str "env"]) (envRootOf h language) w0).1 =
        some envMounts) ∧
      (∃ w1, devs = (buildDeviceMounts h (Join [rr.Root, str "env"]) w1).1) ∧
      (flags = [] ∨ (opts.ForCBuilder = false ∧ statOk h (str "/flag2") = true ∧
        ∃ w2, (flagMountsLoop h rr.Root (flagTargets opts (str "/workspace")) [] [] w2).1 =
          some flags)) ∧
      (opts.ForCBuilder = false → statOk h (str "/flag2") = true →
        ∃ w2, (flagMountsLoop h rr.Root (flagTargets opts (str "/workspace")) [] [] w2).1 =
          some flags) ∧
      rr.mounts = dedupeAndSortMounts (envMounts ++
        [{ host := Join [rr.Root, str "workspace"], target := Join [rr.Root, str "workspace"],
           readOnly := false },
         { host := Join [rr.Root, str "workspace"],
           target := Join [Join [rr.Root, str "env"], str "workspace"], readOnly := false },
         { host := Join [rr.Root, str "tmp"],
           target := Join [Join [rr.Root, str "env"], str "tmp"], readOnly := false }] ++
        devs ++ flags) := by
  unfold PrepareRunRootWithOptions at hok
  dsimp only at hok
  split_ifs at hok
  unfold prepareDirs at hok
  split_ifs at hok
  obtain ⟨-, envMounts, flags, h1, h2, h3, hrr⟩ := prepareMounts_ok _ _ _ _ _ _ hok
  have hroot : rr.Root = tempName (runRootsDirOf h) w.temps := by rw [hrr]; rfl
  rw [hroot]
  exact ⟨envMounts, _, flags, ⟨_, h1⟩, ⟨_, rfl⟩, h2, h3, by rw [hrr]; rfl⟩


theorem Clean_regular_ne_flag2 (name : GoString) (hn : Regular name) :
    Clean name ≠ str "/flag2" := by
  intro h
  have hhead : name.head? ≠ some slash := by
    obtain ⟨h1, h2, -⟩ := hn
    cases name with
    | nil => exact absurd rfl h1
    | cons x xs =>
      intro hx
      simp only [List.head?_cons, Option.some.injEq] at hx
      exact h2 (by rw [hx]; exact List.mem_cons_self _ _)
  unfold Clean at h
  rw [if_neg hn.1, if_neg hhead] at h
  split_ifs at h with he
  · exact absurd h (by decide)
  · have h3 := intercalate_head_ne_slash (cleanElems name) he
      (fun c hc => ⟨(cleanElems_mem name c hc).1, (cleanElems_mem name c hc).2.1⟩) []
    rw [List.append_nil, h] at h3
    exact h3 rfl

/-- Joining a regular name to a directory gives `/flag2` only for the name `flag2` under the
root directory. -/
theorem Join_eq_flag2_iff (p name : GoString) (hn : Regular name)
    (h : Join [p, name] = str "/flag2") : Clean p = str "/" ∧ name = str "flag2" := by
  by_cases hp : p = []
  · exfalso
    subst hp
    have : Join [[], name] = Clean name := by
      unfold Join
      simp [List.dropWhile, hn.1, List.intercalate]
    rw [this] at h
    exact Clean_regular_ne_flag2 name hn h
  · have hc := Join_eq_flag2 p name hp hn h
    refine ⟨hc, ?_⟩
    rw [Join_regular p name hp hn] at h
    unfold Clean at hc
    rw [if_neg hp] at hc
    by_cases hr : p.head? = some slash
    · rw [if_pos hr] at hc
      have he : cleanElems p = [] := by
        by_contra he
        have h3 := intercalate_head_ne_slash (cleanElems p) he
          (fun c hc => ⟨(cleanElems_mem p c hc).1, (cleanElems_mem p c hc).2.1⟩) []
        rw [List.append_nil] at h3
        cases hi : [slash].intercalate (cleanElems p) with
        | nil =>
          cases hce : cleanElems p with
          | nil => exact he hce
          | cons e es =>
            have he1 := (cleanElems_mem p e (by rw [hce]; exact List.mem_cons_self _ _)).1
            rw [hce] at hi
            cases e with
            | nil => exact he1 rfl
            | cons x xs => cases es <;> simp [List.intercalate] at hi
        | cons x xs =>
          rw [hi] at hc
          simp [str, utf8Encode] at hc
      unfold renderDir at h
      simp only [hr, he, decide_True, if_true, List.append_nil] at h
      exact List.cons_injective h
    · exfalso
      rw [if_neg hr] at hc
      split_ifs at hc with he
      · exact absurd hc (by decide)
      · have h3 := intercalate_head_ne_slash (cleanElems p) he
          (fun c hc => ⟨(cleanElems_mem p c hc).1, (cleanElems_mem p c hc).2.1⟩) []
        rw [List.append_nil, hc] at h3
        exact h3 rfl

theorem tempName_ne_nil (dir : GoString) (n : Nat) : tempName dir n ≠ [] := by
  unfold tempName
  split_ifs <;> simp [str, utf8Encode]

/-- Claim C2.  A run-root prepared with `ForCBuilder = true` has no mount whose host path is
`/flag2`, whatever the language, the other options and the state of the host, provided the
template root is not the root directory of the host (and the names `os.ReadDir` reports for
it are file names). -/
theorem c_builder_run_root_has_no_flag_mount (h : Host) (language : GoString)
    (opts : PrepareRunRootOptions) (w : World) (rr : RunRoot)
    (hc : opts.ForCBuilder = true)
    (hroot : Clean (envRootOf h language) ≠ str "/")
    (hdir : DirNamesOK h (envRootOf h language))
    (hok : (PrepareRunRootWithOptions h language opts w).1 = Except.ok rr) :
    ∀ m ∈ rr.mounts, m.host ≠ str "/flag2" := by
  obtain ⟨envMounts, devs, flags, ⟨w0, henv⟩, ⟨w1, hdev⟩, hfl, -, hm⟩ :=
    prepare_ok_mounts h language opts w rr hok
  have hflags : flags = [] := by
    rcases hfl with hfl | ⟨hfl, -⟩
    · exact hfl
    · rw [hc] at hfl; cases hfl
  obtain ⟨entries, hrd, henvm⟩ := buildEnvMounts_mem h _ _ w0 envMounts henv
  have hreg : ∀ e ∈ entries, e.name ≠ str "." → e.name ≠ str ".." → Regular e.name := by
    intro e he h1 h2
    unfold DirNamesOK at hdir
    rw [hrd] at hdir
    exact ⟨(hdir e he).1, (hdir e he).2, h1, h2⟩
  intro m hmem
  rw [hm, dedupeAndSortMounts_mem] at hmem
  have hmem := dedupeMounts_mem _ _ m hmem
  rw [hflags, List.append_nil] at hmem
  rcases List.mem_append.1 hmem with hmem | hmem
  · rcases List.mem_append.1 hmem with hmem | hmem
    · obtain ⟨e, he, h1, h2, rfl⟩ := henvm m hmem
      intro hh
      exact hroot (Join_eq_flag2_iff _ _ (hreg e he h1 h2) hh).1
    · simp only [List.mem_cons, List.mem_singleton, List.not_mem_nil, or_false] at hmem
      rcases hmem with rfl | rfl | rfl
      · intro hh
        exact absurd (Join_eq_flag2_iff _ _ (by decide) hh).2 (by decide)
      · intro hh
        exact absurd (Join_eq_flag2_iff _ _ (by decide) hh).2 (by decide)
      · intro hh
        exact absurd (Join_eq_flag2_iff _ _ (by decide) hh).2 (by decide)
  · rw [hdev] at hmem
    rcases deviceMountsLoop_mem h _ _ _ _ m hmem with h1 | h1
    · simp at h1
    · intro hh
      rw [hh] at h1
      exact absurd h1 (by decide)


set_option maxRecDepth 100000 in
theorem c_builder_run_root_witness :
    (runOptions.ForCBuilder = true ∧
      Clean (envRootOf okHost (str "c")) ≠ str "/" ∧
      DirNamesOK okHost (envRootOf okHost (str "c")) ∧
      (PrepareRunRootWithOptions okHost (str "c") runOptions {}).1 = Except.ok cRunRootExample) ∧
    cRunRootExample.mounts.length = 10 ∧
    ∀ m ∈ cRunRootExample.mounts, m.host ≠ str "/flag2" :=
  ⟨⟨rfl, by decide, by decide, by rfl⟩, by decide,
    c_builder_run_root_has_no_flag_mount okHost (str "c") runOptions {} cRunRootExample rfl
      (by decide) (by decide) (by rfl)⟩


/-! ## Paths: joining twice -/

theorem foldl_cleanStep_id (r : Bool) : ∀ (st : List GoString), stackOK r st →
    (st.reverse).foldl (cleanStep r) [] = st
  | [], _ => rfl
  | c :: st, h => by
    rw [List.reverse_cons, List.foldl_append, foldl_cleanStep_id r st h.2]
    simp only [List.foldl_cons, List.foldl_nil]
    obtain ⟨⟨h1, -, h3, h4⟩, -⟩ := h
    unfold cleanStep
    rw [if_neg (by simp [h1, h3])]
    by_cases hdd : c = str ".."
    · rw [if_pos hdd]
      obtain ⟨hr, hall⟩ := h4 hdd
      cases st with
      | nil => simp [hr, hdd]
      | cons top rest =>
        dsimp only
        rw [if_pos ⟨hall top (List.mem_cons_self _ _), hr⟩]
    · rw [if_neg hdd]

theorem stackOK_push (r : Bool) (st : List GoString) (a : GoString) (hst : stackOK r st)
    (ha : Regular a) : stackOK r (a :: st) :=
  ⟨⟨ha.1, ha.2.1, ha.2.2.1, fun h => absurd h ha.2.2.2⟩, hst⟩

theorem intercalate_cons_nil (es : List GoString) (hne : es ≠ []) :
    [slash].intercalate ([] :: es) = slash :: [slash].intercalate es := by
  cases es with
  | nil => exact absurd rfl hne
  | cons e es => simp [List.intercalate]

/-- The path `Join [p, a]` is the cleaned path of the elements of `p` followed by `a`. -/
theorem cleanElems_Join (p a : GoString) (hp : p ≠ []) (ha : Regular a) :
    Join [p, a] ≠ [] ∧
    ((Join [p, a]).head? = some slash ↔ p.head? = some slash) ∧
    cleanElems (Join [p, a]) = cleanElems p ++ [a] := by
  have hJ : Join [p, a] = Clean (p ++ slash :: a) := by
    unfold Join
    simp [List.dropWhile, hp, List.intercalate]
  obtain ⟨h1, h2⟩ := cleanElems_append_sep p a hp ha
  have hok : stackOK (p.head? = some slash) (a :: (cleanElems p).reverse) :=
    stackOK_push _ _ _ (cleanElems_ok p) ha
  have hfree : ∀ c ∈ cleanElems p ++ [a], c ≠ [] ∧ slash ∉ c := by
    intro c hc
    rcases List.mem_append.1 hc with hc | hc
    · exact ⟨(cleanElems_mem p c hc).1, (cleanElems_mem p c hc).2.1⟩
    · simp only [List.mem_singleton] at hc
      rw [hc]; exact ⟨ha.1, ha.2.1⟩
  have hne : cleanElems p ++ [a] ≠ [] := by simp
  have hfold : ((cleanElems p ++ [a]).foldl (cleanStep (p.head? = some slash)) []).reverse =
      cleanElems p ++ [a] := by
    have := foldl_cleanStep_id _ _ hok
    rw [List.reverse_cons, List.reverse_reverse] at this
    rw [this]
    simp
  rw [hJ]
  unfold Clean
  rw [if_neg (by simp), h1]
  generalize cleanElems p ++ [a] = X at hfree hne hfold
  by_cases hr : p.head? = some slash
  · rw [if_pos (h2.2 hr)]
    refine ⟨by simp, by simp [hr], ?_⟩
    unfold cleanElems
    rw [← intercalate_cons_nil _ hne,
      List.splitOn_intercalate _ slash (by
        intro l hl
        rcases List.mem_cons.1 hl with rfl | hl
        · simp
        · exact (hfree l hl).2) (by simp)]
    rw [intercalate_cons_nil _ hne]
    simp only [List.head?_cons, decide_True, List.foldl_cons]
    have hskip : cleanStep true [] [] = [] := by simp [cleanStep]
    rw [hskip]
    simpa [hr] using hfold
  · rw [if_neg (fun h => hr (h2.1 h)), if_neg hne]
    have hhead := intercalate_head_ne_slash X hne hfree []
    rw [List.append_nil] at hhead
    refine ⟨?_, by simp [hr, hhead], ?_⟩
    · intro h0
      cases X with
      | nil => exact hne rfl
      | cons e es =>
        have he := (hfree e (List.mem_cons_self _ _)).1
        cases e with
        | nil => exact he rfl
        | cons x xs => cases es <;> simp [List.intercalate] at h0
    · unfold cleanElems
      rw [List.splitOn_intercalate _ slash (fun l hl => (hfree l hl).2) hne]
      simpa [hr, hhead] using hfold

/-- Joining two regular names to a directory, one after the other. -/
theorem Join_Join_regular (p a b : GoString) (hp : p ≠ []) (ha : Regular a) (hb : Regular b) :
    Join [Join [p, a], b] =
      renderDir (p.head? = some slash) (cleanElems p) ++ a ++ slash :: b := by
  obtain ⟨h1, h2, h3⟩ := cleanElems_Join p a hp ha
  rw [Join_regular _ b h1 hb, h3]
  unfold renderDir
  have hd : decide ((Join [p, a]).head? = some slash) = decide (p.head? = some slash) := by
    simp only [decide_eq_decide]; exact h2
  simp only [hd]
  have hne : (cleanElems p ++ [a] = []) = False := by simp
  simp only [hne, if_false]
  by_cases he : cleanElems p = []
  · simp [he, List.intercalate]
  · rw [intercalate_append_single _ he, if_neg he]
    simp


/-! ## C3: the flag mount survives de-duplication -/

/-- A mount whose key is the key of the mount of `/flag2` on `T`. -/
theorem key_eq_flag (host target T : GoString)
    (h : host ++ str "->" ++ target = str "/flag2" ++ str "->" ++ T) :
    6 ≤ host.length ∧ host.length + target.length = 6 + T.length ∧
    (host.length = 6 → host = str "/flag2" ∧ target = T) := by
  have e1 : str "/flag2" = [47, 102, 108, 97, 103, 50] := by decide
  have e2 : str "->" = [45, 62] := by decide
  rw [e1, e2] at h
  have hlen := congrArg List.length h
  simp only [List.length_append, List.length_cons, List.length_nil] at hlen
  have h6 : 6 ≤ host.length := by
    rcases host with _ | ⟨a, _ | ⟨b, _ | ⟨c, _ | ⟨d, _ | ⟨e, _ | ⟨f, rest⟩⟩⟩⟩⟩⟩ <;>
      simp at h ⊢
  refine ⟨h6, by omega, fun h0 => ?_⟩
  rw [List.append_assoc, List.append_assoc] at h
  obtain ⟨h1, h2⟩ := List.append_inj h (by simpa using h0)
  rw [e1]
  exact ⟨h1, List.append_cancel_left h2⟩

theorem dedupeMounts_first : ∀ (ms : List bindMount) (seen : List GoString),
    ∀ m ∈ ms, mountKey m ∈ seen ∨ ∃ m1 ∈ dedupeMounts seen ms, mountKey m1 = mountKey m := by
  intro ms
  induction ms with
  | nil => intro seen m hm; simp at hm
  | cons x xs ih =>
    intro seen m hm
    unfold dedupeMounts
    rcases List.mem_cons.1 hm with rfl | hm
    · split_ifs with hs
      · exact Or.inl hs
      · exact Or.inr ⟨m, List.mem_cons_self _ _, rfl⟩
    · split_ifs with hs
      · exact ih seen m hm
      · rcases ih (mountKey x :: seen) m hm with h1 | ⟨m1, h1, h2⟩
        · rcases List.mem_cons.1 h1 with h1 | h1
          · exact Or.inr ⟨x, List.mem_cons_self _ _, h1.symm⟩
          · exact Or.inl h1
        · exact Or.inr ⟨m1, List.mem_cons_of_mem _ h1, h2⟩

theorem flagMountsLoop_mem (h : Host) (root : GoString) :
    ∀ (ds seen : List GoString) (acc : List bindMount) (w : World) (fl : List bindMount),
      (flagMountsLoop h root ds seen acc w).1 = some fl →
      ∀ m ∈ fl, m ∈ acc ∨ (m.host = str "/flag2" ∧ m.readOnly = true) := by
  intro ds
  induction ds with
  | nil =>
    intro seen acc w fl hok m hm
    simp only [flagMountsLoop, Option.some.injEq] at hok
    exact Or.inl (hok ▸ hm)
  | cons d ds ih =>
    intro seen acc w fl hok m hm
    unfold flagMountsLoop at hok
    dsimp only at hok
    split_ifs at hok
    all_goals
      rcases ih _ _ _ _ hok m hm with h1 | h1
      · first
          | exact Or.inl h1
          | (rcases List.mem_append.1 h1 with h1 | h1
             · exact Or.inl h1
             · simp only [List.mem_singleton] at h1
               rw [h1]
               exact Or.inr ⟨rfl, rfl⟩)
      · exact Or.inr h1

theorem flagMountsLoop_has (h : Host) (root : GoString) :
    ∀ (ds seen : List GoString) (acc : List bindMount) (w : World) (fl : List bindMount),
      (flagMountsLoop h root ds seen acc w).1 = some fl →
      (∀ m ∈ acc, m ∈ fl) ∧
      (str "/flag2" ∈ ds → str "/flag2" ∈ seen ∨
        { host := str "/flag2", target := Join [root, str "flag2"], readOnly := true } ∈ fl) := by
  intro ds
  induction ds with
  | nil =>
    intro seen acc w fl hok
    simp only [flagMountsLoop, Option.some.injEq] at hok
    subst hok
    exact ⟨fun m hm => hm, fun hmem => by simp at hmem⟩
  | cons d ds ih =>
    intro seen acc w fl hok
    have hclean : Clean (str "/flag2") = str "/flag2" := by decide
    unfold flagMountsLoop at hok
    dsimp only at hok
    by_cases hskip : Clean d = str "." ∨ Clean d = []
    · rw [if_pos hskip] at hok
      obtain ⟨h1, h2⟩ := ih _ _ _ _ hok
      refine ⟨h1, fun hmem => ?_⟩
      rcases List.mem_cons.1 hmem with rfl | hmem
      · rw [hclean] at hskip
        exact absurd hskip (by decide)
      · exact h2 hmem
    · rw [if_neg hskip] at hok
      have hnorm : d = str "/flag2" →
          (if HasPrefix (Clean d) (str "/") then Clean d else str "/" ++ Clean d) =
            str "/flag2" := by
        rintro rfl
        decide
      have htrim : TrimPrefix (str "/flag2") (str "/") = str "flag2" := by decide
      generalize (if HasPrefix (Clean d) (str "/") then Clean d else str "/" ++ Clean d) = dn
        at hok hnorm
      by_cases hseen : dn ∈ seen
      · rw [if_pos hseen] at hok
        obtain ⟨h1, h2⟩ := ih _ _ _ _ hok
        refine ⟨h1, fun hmem => ?_⟩
        rcases List.mem_cons.1 hmem with h0 | hmem
        · left
          rw [← hnorm h0.symm]
          exact hseen
        · exact h2 hmem
      · rw [if_neg hseen] at hok
        by_cases hf : h.fault w.tick = true
        · rw [if_pos hf] at hok
          simp at hok
        · rw [if_neg hf] at hok
          obtain ⟨h1, h2⟩ := ih _ _ _ _ hok
          have hadd : dn = str "/flag2" →
              { host := str "/flag2", target := Join [root, str "flag2"], readOnly := true } ∈ fl := by
            intro hdn
            apply h1
            apply List.mem_append_right
            rw [hdn, htrim]
            exact List.mem_singleton_self _
          refine ⟨fun m hm => h1 m (List.mem_append_left _ hm), fun hmem => ?_⟩
          rcases List.mem_cons.1 hmem with h0 | hmem
          · exact Or.inr (hadd (hnorm h0.symm))
          · rcases h2 hmem with h3 | h3
            · rcases List.mem_cons.1 h3 with h3 | h3
              · exact Or.inr (hadd h3.symm)
              · exact Or.inl h3
            · exact Or.inr h3


theorem device_key_ne_flag (d t T : GoString) (hd : d ∈ devicePaths) :
    d ++ str "->" ++ t ≠ str "/flag2" ++ str "->" ++ T := by
  intro h
  have hall : ∀ d ∈ devicePaths, d.take 2 = [47, 100] ∧ 2 ≤ d.length := by decide
  obtain ⟨h1, h2⟩ := hall d hd
  have h3 := congrArg (List.take 2) h
  rw [List.append_assoc, List.take_append_of_le_length h2, h1] at h3
  have e1 : str "/flag2" = [47, 102, 108, 97, 103, 50] := by decide
  rw [e1] at h3
  simp at h3

/-- Claim C3, amended.  When `ForCBuilder` is false, `/flag2` exists on the host and the
caller gave no flag destinations or gave `/flag2` among them, the mount list of the prepared
run-root contains a read-only mount of the host file `/flag2` on `<run-root>/flag2` (the names
`os.ReadDir` reports for the template root being file names). -/
theorem flag_mount_present (h : Host) (language : GoString) (opts : PrepareRunRootOptions)
    (w : World) (rr : RunRoot)
    (hc : opts.ForCBuilder = false)
    (hst : statOk h (str "/flag2") = true)
    (hdest : opts.FlagDestinations = [] ∨ str "/flag2" ∈ opts.FlagDestinations)
    (hdir : DirNamesOK h (envRootOf h language))
    (hok : (PrepareRunRootWithOptions h language opts w).1 = Except.ok rr) :
    ∃ m ∈ rr.mounts, m.host = str "/flag2" ∧ m.target = Join [rr.Root, str "flag2"] ∧
      m.readOnly = true := by
  obtain ⟨envMounts, devs, flags, ⟨w0, henv⟩, ⟨w1, hdev⟩, -, hfl, hm⟩ :=
    prepare_ok_mounts h language opts w rr hok
  obtain ⟨w2, hloop⟩ := hfl hc hst
  have hin : str "/flag2" ∈ flagTargets opts (str "/workspace") := by
    unfold flagTargets
    dsimp only
    have hbase : str "/flag2" ∈
        (if opts.FlagDestinations.length = 0 then [str "/flag2"] else opts.FlagDestinations) := by
      rcases hdest with hd | hd
      · rw [hd]
        simp
      · split_ifs
        · simp
        · exact hd
    generalize (if opts.FlagDestinations.length = 0 then [str "/flag2"]
      else opts.FlagDestinations) = base at hbase ⊢
    split_ifs
    · exact List.mem_append_left _ hbase
    · exact hbase
  have hm0 := ((flagMountsLoop_has _ _ _ _ _ _ _ hloop).2 hin).resolve_left (by simp)
  obtain ⟨entries, hrd, henvm⟩ := buildEnvMounts_mem h _ _ w0 envMounts henv
  have hreg : ∀ e ∈ entries, e.name ≠ str "." → e.name ≠ str ".." → Regular e.name := by
    intro e he h1 h2
    unfold DirNamesOK at hdir
    rw [hrd] at hdir
    exact ⟨(hdir e he).1, (hdir e he).2, h1, h2⟩
  have hroot : rr.Root ≠ [] := by
    rw [(prepare_ok h language opts w rr hok).1]
    exact tempName_ne_nil _ _
  rw [hm]
  generalize hL : envMounts ++
      [{ host := Join [rr.Root, str "workspace"], target := Join [rr.Root, str "workspace"],
         readOnly := false },
       { host := Join [rr.Root, str "workspace"],
         target := Join [Join [rr.Root, str "env"], str "workspace"], readOnly := false },
       { host := Join [rr.Root, str "tmp"],
         target := Join [Join [rr.Root, str "env"], str "tmp"], readOnly := false }] ++
      devs ++ flags = L
  have hm0L := List.mem_append_right (envMounts ++
      [{ host := Join [rr.Root, str "workspace"], target := Join [rr.Root, str "workspace"],
         readOnly := false },
       { host := Join [rr.Root, str "workspace"],
         target := Join [Join [rr.Root, str "env"], str "workspace"], readOnly := false },
       { host := Join [rr.Root, str "tmp"],
         target := Join [Join [rr.Root, str "env"], str "tmp"], readOnly := false }] ++
      devs) hm0
  rw [hL] at hm0L
  rcases dedupeMounts_first L [] _ hm0L with h0 | ⟨m1, hm1, hkey⟩
  · simp at h0
  have hm1L := dedupeMounts_mem L [] m1 hm1
  refine ⟨m1, (dedupeAndSortMounts_mem L m1).2 hm1, ?_⟩
  unfold mountKey at hkey
  dsimp only at hkey
  obtain ⟨k1, k2, k3⟩ := key_eq_flag _ _ _ hkey
  have hT := congrArg List.length (Join_regular rr.Root (str "flag2") hroot (by decide))
  have hW := congrArg List.length (Join_regular rr.Root (str "workspace") hroot (by decide))
  have hTmp := congrArg List.length (Join_regular rr.Root (str "tmp") hroot (by decide))
  have hEW := congrArg List.length
    (Join_Join_regular rr.Root (str "env") (str "workspace") hroot (by decide) (by decide))
  have hET := congrArg List.length
    (Join_Join_regular rr.Root (str "env") (str "tmp") hroot (by decide) (by decide))
  have l1 : (str "flag2").length = 5 := by decide
  have l2 : (str "workspace").length = 9 := by decide
  have l3 : (str "tmp").length = 3 := by decide
  have l4 : (str "env").length = 3 := by decide
  simp only [List.length_append, List.length_cons, l1, l2, l3, l4] at hT hW hTmp hEW hET
  rw [← hL] at hm1L
  rcases List.mem_append.1 hm1L with hmem | hmem
  · rcases List.mem_append.1 hmem with hmem | hmem
    · rcases List.mem_append.1 hmem with hmem | hmem
      · obtain ⟨e, he, h1, h2, rfl⟩ := henvm m1 hmem
        have hname := hreg e he h1 h2
        have hEN := congrArg List.length
          (Join_Join_regular rr.Root (str "env") e.name hroot (by decide) hname)
        simp only [List.length_append, List.length_cons, l4] at hEN
        have hpos : 0 < e.name.length := List.length_pos.2 hname.1
        dsimp only at k1 k2 k3 ⊢
        obtain ⟨k4, k5⟩ := k3 (by omega)
        exact ⟨k4, k5, rfl⟩
      · exfalso
        simp only [List.mem_cons, List.mem_singleton, List.not_mem_nil, or_false] at hmem
        rcases hmem with rfl | rfl | rfl <;> dsimp only at k1 k2 <;> omega
    · exfalso
      rw [hdev] at hmem
      rcases deviceMountsLoop_mem h _ _ _ _ m1 hmem with h1 | h1
      · simp at h1
      · exact device_key_ne_flag _ _ _ h1 hkey
  · rcases flagMountsLoop_mem _ _ _ _ _ _ _ hloop m1 hmem with h1 | ⟨h1, h2⟩
    · simp at h1
    · exact ⟨h1, (k3 (by rw [h1]; decide)).2, h2⟩


set_option maxRecDepth 100000 in
/-- Claim C3, as stated, fails for options that name flag destinations without `/flag2`: with
`ForCBuilder = false`, the single destination `/x` and `/flag2` present on the host, the
prepared run-root mounts `/flag2` on `<run-root>/x` only; no mount has the target
`<run-root>/flag2`. -/
theorem flag_destinations_replace_default :
    customDestOptions.ForCBuilder = false ∧
    statOk okHost (str "/flag2") = true ∧
    (PrepareRunRootWithOptions okHost (str "c") customDestOptions {}).1 =
      Except.ok customDestRunRoot ∧
    { host := str "/flag2", target := Join [customDestRunRoot.Root, str "x"], readOnly := true } ∈
      customDestRunRoot.mounts ∧
    ∀ m ∈ customDestRunRoot.mounts, m.target ≠ Join [customDestRunRoot.Root, str "flag2"] :=
  ⟨rfl, by decide, by rfl, by decide, by decide⟩

set_option maxRecDepth 100000 in
theorem flag_mount_present_witness :
    (cBuildOptions.ForCBuilder = false ∧
      statOk okHost (str "/flag2") = true ∧
      (cBuildOptions.FlagDestinations = [] ∨ str "/flag2" ∈ cBuildOptions.FlagDestinations) ∧
      DirNamesOK okHost (envRootOf okHost (str "c")) ∧
      (PrepareRunRootWithOptions okHost (str "c") cBuildOptions {}).1 =
        Except.ok cBuildRootExample) ∧
    ∃ m ∈ cBuildRootExample.mounts, m.host = str "/flag2" ∧
      m.target = Join [cBuildRootExample.Root, str "flag2"] ∧ m.readOnly = true :=
  ⟨⟨rfl, by decide, by decide, by decide, by rfl⟩,
    flag_mount_present okHost (str "c") cBuildOptions {} cBuildRootExample rfl (by decide)
      (by decide) (by decide) (by rfl)⟩


/-! ## C11: the bounded capture buffer -/

theorem take_append_take (l q : GoString) (n : Nat) :
    (l.take n ++ q).take n = (l ++ q).take n := by
  by_cases hl : l.length ≤ n
  · rw [List.take_of_length_le hl]
  · have hn : n ≤ l.length := by omega
    rw [List.take_append_of_le_length hn,
      List.take_append_of_le_length (by rw [List.length_take]; omega), List.take_take]
    simp

theorem safeCapBuffer_Write_fst (b : safeCapBuffer) (p : GoString) :
    (b.Write p).1 = ((p.length : Int), none) := by
  unfold safeCapBuffer.Write
  dsimp only
  split_ifs <;> rfl

theorem safeCapBuffer_Write_max (b : safeCapBuffer) (p : GoString) :
    (b.Write p).2.max = b.max := by
  unfold safeCapBuffer.Write
  dsimp only
  split_ifs <;> rfl

theorem safeCapBuffer_Write_capped (b : safeCapBuffer) (p : GoString) (hmax : 0 < b.max)
    (hlen : (b.buf.length : Int) ≤ b.max) :
    (b.Write p).2.buf = (b.buf ++ p).take b.max.toNat := by
  unfold safeCapBuffer.Write
  dsimp only
  rw [if_neg (by omega)]
  split_ifs with h1 h2
  · rw [List.take_of_length_le]
    rw [List.length_append]
    omega
  · have hsplit : b.max.toNat = b.buf.length + (b.max - b.buf.length).toNat := by omega
    rw [hsplit, List.take_append]
  · have hle : b.max.toNat ≤ b.buf.length := by omega
    rw [List.take_append_of_le_length hle, List.take_of_length_le (by omega)]

theorem safeCapBuffer_Write_uncapped (b : safeCapBuffer) (p : GoString) (hmax : b.max ≤ 0) :
    (b.Write p).2.buf = b.buf ++ p := by
  unfold safeCapBuffer.Write
  rw [if_pos hmax]

theorem safeCapBuffer_writeAll_fst : ∀ (ps : List GoString) (b : safeCapBuffer),
    (b.writeAll ps).1 = ps.map (fun p => ((p.length : Int), none))
  | [], _ => rfl
  | p :: ps, b => by
    simp only [safeCapBuffer.writeAll, List.map_cons, safeCapBuffer_Write_fst,
      safeCapBuffer_writeAll_fst ps]

theorem safeCapBuffer_writeAll_capped : ∀ (ps : List GoString) (b : safeCapBuffer),
    0 < b.max → (b.buf.length : Int) ≤ b.max →
    (b.writeAll ps).2.buf = (b.buf ++ ps.flatten).take b.max.toNat
  | [], b, _, hlen => by
    simp only [safeCapBuffer.writeAll, List.flatten_nil, List.append_nil]
    rw [List.take_of_length_le (by omega)]
  | p :: ps, b, hmax, hlen => by
    have h1 := safeCapBuffer_Write_capped b p hmax hlen
    have h2 := safeCapBuffer_Write_max b p
    have h3 := safeCapBuffer_writeAll_capped ps (b.Write p).2 (by rw [h2]; exact hmax)
      (by rw [h1, h2, List.length_take]; omega)
    simp only [safeCapBuffer.writeAll, List.flatten_cons]
    rw [h3, h1, h2, take_append_take, List.append_assoc]

theorem safeCapBuffer_writeAll_uncapped : ∀ (ps : List GoString) (b : safeCapBuffer),
    b.max ≤ 0 → (b.writeAll ps).2.buf = b.buf ++ ps.flatten
  | [], b, _ => by simp [safeCapBuffer.writeAll]
  | p :: ps, b, hmax => by
    have h3 := safeCapBuffer_writeAll_uncapped ps (b.Write p).2
      (by rw [safeCapBuffer_Write_max]; exact hmax)
    simp only [safeCapBuffer.writeAll, List.flatten_cons]
    rw [h3, safeCapBuffer_Write_uncapped b p hmax, List.append_assoc]

/-- Claim C11.  On a fresh `safeCapBuffer` with cap `max`, every `Write` of a sequence returns
the length of its chunk and no error; afterwards `String()` is, for `max > 0`, the first
`min(max, total)` bytes of the concatenation of the chunks, so no longer than `max`, and for
`max <= 0` the whole concatenation. -/
theorem safe_cap_buffer_keeps_first_max_bytes (max : Int) (ps : List GoString) :
    (({ max := max } : safeCapBuffer).writeAll ps).1 =
      ps.map (fun p => ((p.length : Int), none)) ∧
    (({ max := max } : safeCapBuffer).writeAll ps).2.String =
      (if 0 < max then ps.flatten.take (min max ps.flatten.length).toNat else ps.flatten) ∧
    (max ≤ 0 ∨
      ((({ max := max } : safeCapBuffer).writeAll ps).2.String.length : Int) ≤ max) := by
  refine ⟨safeCapBuffer_writeAll_fst ps _, ?_⟩
  by_cases hmax : 0 < max
  · have h := safeCapBuffer_writeAll_capped ps { max := max } hmax (by simpa using hmax.le)
    simp only [List.nil_append] at h
    unfold safeCapBuffer.String
    rw [h, if_pos hmax]
    refine ⟨?_, Or.inr (by rw [List.length_take]; omega)⟩
    by_cases hle : max ≤ ps.flatten.length
    · rw [min_eq_left hle]
    · rw [min_eq_right (by omega), Int.toNat_ofNat, List.take_of_length_le (by omega),
        List.take_of_length_le le_rfl]
  · have h := safeCapBuffer_writeAll_uncapped ps { max := max } (not_lt.1 hmax)
    rw [if_neg hmax]
    exact ⟨by simpa [safeCapBuffer.String] using h, Or.inl (by omega)⟩

/-- A buffer with cap 3 after the writes `ab`, `cd`, `e`. -/
theorem safe_cap_buffer_example :
    (({ max := 3 } : safeCapBuffer).writeAll [str "ab", str "cd", str "e"]) =
      ([(2, none), (2, none), (1, none)], { buf := str "abc", max := 3, over := true }) := by
  decide


/-! ## C12, C13: `dedupeAndSortMounts` -/

theorem mountLess_iff (a b : bindMount) :
    mountLess a b = true ↔ mountRank a < mountRank b := by
  unfold mountLess mountRank
  rw [Prod.Lex.lt_iff]
  simp only [Prod.Lex.lt_iff]
  by_cases ht : a.target = b.target
  · by_cases hh : a.host = b.host
    · cases ha : a.readOnly <;> cases hb : b.readOnly <;> simp [ht, hh, ha, hb]
    · simp [ht, hh]
  · simp [ht]


theorem mountLess_eq_false_iff (a b : bindMount) :
    mountLess b a = false ↔ mountRank a ≤ mountRank b := by
  rw [← not_lt, ← mountLess_iff]
  simp

theorem dedupeMounts_keys : ∀ (ms : List bindMount) (seen : List GoString),
    (dedupeMounts seen ms).Pairwise (fun a b => mountKey a ≠ mountKey b) ∧
    ∀ m ∈ dedupeMounts seen ms, mountKey m ∉ seen := by
  intro ms
  induction ms with
  | nil => intro seen; simp [dedupeMounts]
  | cons x xs ih =>
    intro seen
    unfold dedupeMounts
    split_ifs with hs
    · exact ih seen
    · obtain ⟨h1, h2⟩ := ih (mountKey x :: seen)
      refine ⟨List.pairwise_cons.2 ⟨fun m hm heq => ?_, h1⟩, fun m hm => ?_⟩
      · exact h2 m hm (by rw [← heq]; exact List.mem_cons_self _ _)
      · rcases List.mem_cons.1 hm with rfl | hm
        · exact hs
        · exact fun hin => h2 m hm (List.mem_cons_of_mem _ hin)

theorem dedupeMounts_of_distinct : ∀ (ms : List bindMount) (seen : List GoString),
    ms.Pairwise (fun a b => mountKey a ≠ mountKey b) → (∀ m ∈ ms, mountKey m ∉ seen) →
    dedupeMounts seen ms = ms := by
  intro ms
  induction ms with
  | nil => intro seen _ _; rfl
  | cons x xs ih =>
    intro seen hp hs
    obtain ⟨h1, h2⟩ := List.pairwise_cons.1 hp
    unfold dedupeMounts
    rw [if_neg (hs x (List.mem_cons_self _ _)), ih _ h2]
    intro m hm hin
    rcases List.mem_cons.1 hin with heq | hin
    · exact h1 m hm heq.symm
    · exact hs m (List.mem_cons_of_mem _ hm) hin

theorem dedupeAndSortMounts_sorted (ms : List bindMount) :
    (dedupeAndSortMounts ms).Sorted (fun a b => mountLess b a = false) := by
  unfold dedupeAndSortMounts
  exact @List.sorted_insertionSort _ (fun a b => mountLess b a = false) _
    ⟨fun a b => by
      simp only [mountLess_eq_false_iff]
      exact le_total _ _⟩
    ⟨fun a b c => by
      simp only [mountLess_eq_false_iff]
      exact le_trans⟩ _

theorem dedupeAndSortMounts_keys (ms : List bindMount) :
    (dedupeAndSortMounts ms).Pairwise (fun a b => mountKey a ≠ mountKey b) := by
  unfold dedupeAndSortMounts
  exact (List.Perm.pairwise_iff (fun {a b} h => Ne.symm h)
    (List.perm_insertionSort _ _)).2 (dedupeMounts_keys ms []).1

/-- Claim C12.  The function `dedupeAndSortMounts` is idempotent. -/
theorem dedupe_and_sort_mounts_idempotent (ms : List bindMount) :
    dedupeAndSortMounts (dedupeAndSortMounts ms) = dedupeAndSortMounts ms := by
  have hk := dedupeAndSortMounts_keys ms
  have hs := dedupeAndSortMounts_sorted ms
  generalize dedupeAndSortMounts ms = out at hk hs
  unfold dedupeAndSortMounts
  rw [dedupeMounts_of_distinct out [] hk (by simp)]
  exact List.Sorted.insertionSort_eq hs

/-- Claim C13.  The output of `dedupeAndSortMounts` is strictly ascending in the
lexicographic order on (target, host): of two entries the earlier one has the smaller target
or, with equal targets, the smaller host; so no two entries agree on host and target. -/
theorem dedupe_and_sort_mounts_strictly_ascending (ms : List bindMount) :
    (dedupeAndSortMounts ms).Pairwise targetHostLt := by
  refine ((dedupeAndSortMounts_sorted ms).and (dedupeAndSortMounts_keys ms)).imp ?_
  rintro a b ⟨hle, hkey⟩
  rw [mountLess_eq_false_iff] at hle
  unfold mountRank at hle
  rw [Prod.Lex.le_iff] at hle
  unfold targetHostLt
  rcases hle with hlt | ⟨heq, hle⟩
  · exact Or.inl hlt
  · rw [Prod.Lex.le_iff] at hle
    rcases hle with hlt | ⟨heq2, -⟩
    · exact Or.inr ⟨heq, hlt⟩
    · exfalso
      apply hkey
      unfold mountKey
      simp only at heq heq2
      rw [show a.host = b.host from heq2, show a.target = b.target from heq]

/-- Four mounts, two of them with the same host and target, sorted. -/
theorem dedupe_and_sort_mounts_example :
    dedupeAndSortMounts
      [{ host := str "/h2", target := str "/b", readOnly := true },
       { host := str "/h1", target := str "/b", readOnly := false },
       { host := str "/h2", target := str "/b", readOnly := false },
       { host := str "/h3", target := str "/a", readOnly := true }] =
      [{ host := str "/h3", target := str "/a", readOnly := true },
       { host := str "/h1", target := str "/b", readOnly := false },
       { host := str "/h2", target := str "/b", readOnly := true }] := by
  decide


/-! ## C14: which mounts are writable -/

theorem deviceMountsLoop_writable (h : Host) (root : GoString) :
    ∀ (ds : List GoString) (acc : List bindMount) (w : World),
      ∀ m ∈ (deviceMountsLoop h root ds acc w).1, m ∈ acc ∨ (m.host ∈ ds ∧ m.readOnly = false) := by
  intro ds
  induction ds with
  | nil => intro acc w m hm; exact Or.inl (by simpa [deviceMountsLoop] using hm)
  | cons d ds ih =>
    intro acc w m hm
    unfold deviceMountsLoop at hm
    split at hm
    · split_ifs at hm
      · rcases ih _ _ m hm with h1 | h1
        · exact Or.inl h1
        · exact Or.inr ⟨List.mem_cons_of_mem _ h1.1, h1.2⟩
      · rcases ih _ _ m hm with h1 | h1
        · rcases List.mem_append.1 h1 with h1 | h1
          · exact Or.inl h1
          · right
            simp only [List.mem_singleton] at h1
            rw [h1]
            exact ⟨List.mem_cons_self _ _, rfl⟩
        · exact Or.inr ⟨List.mem_cons_of_mem _ h1.1, h1.2⟩
    · rcases ih _ _ m hm with h1 | h1
      · exact Or.inl h1
      · exact Or.inr ⟨List.mem_cons_of_mem _ h1.1, h1.2⟩

/-- The host paths of a successfully prepared run-root. -/
theorem prepare_ok_fields (h : Host) (language : GoString) (opts : PrepareRunRootOptions)
    (w : World) (rr : RunRoot)
    (hok : (PrepareRunRootWithOptions h language opts w).1 = Except.ok rr) :
    rr.WorkHost = Join [rr.Root, str "env"] ∧
    rr.WorkspaceHost = Join [rr.Root, str "workspace"] ∧
    rr.TmpHost = Join [rr.Root, str "tmp"] ∧
    rr.EnvRoot = envRootOf h language := by
  unfold PrepareRunRootWithOptions at hok
  dsimp only at hok
  split_ifs at hok
  unfold prepareDirs at hok
  split_ifs at hok
  obtain ⟨-, envMounts, flags, -, -, -, hrr⟩ := prepareMounts_ok _ _ _ _ _ _ hok
  rw [hrr]
  exact ⟨rfl, rfl, rfl, rfl⟩

/-- Claim C14.  Every mount of a prepared run-root is a read-only mount of an entry of the
template root, a read-only mount of `/flag2`, or a writable mount whose host is the workspace
directory, the temp directory or one of the five device nodes; in particular a mount with host
`/flag2` is read-only. -/
theorem only_workspace_temp_and_devices_are_writable (h : Host) (language : GoString)
    (opts : PrepareRunRootOptions) (w : World) (rr : RunRoot)
    (hok : (PrepareRunRootWithOptions h language opts w).1 = Except.ok rr) :
    ∀ m ∈ rr.mounts,
      ((∃ entries, h.readDir (envRootOf h language) = some entries ∧ ∃ e ∈ entries,
          m = { host := Join [envRootOf h language, e.name],
                target := Join [rr.WorkHost, e.name], readOnly := true }) ∨
        (m.host = str "/flag2" ∧ m.readOnly = true) ∨
        (m.readOnly = false ∧
          (m.host = rr.WorkspaceHost ∨ m.host = rr.TmpHost ∨ m.host ∈ devicePaths))) ∧
      (m.host = str "/flag2" → m.readOnly = true) := by
  obtain ⟨envMounts, devs, flags, ⟨w0, henv⟩, ⟨w1, hdev⟩, hfl, -, hm⟩ :=
    prepare_ok_mounts h language opts w rr hok
  obtain ⟨hWork, hWs, hTmp, -⟩ := prepare_ok_fields h language opts w rr hok
  obtain ⟨entries, hrd, henvm⟩ := buildEnvMounts_mem h _ _ w0 envMounts henv
  have hflag : ∀ m ∈ flags, m.host = str "/flag2" ∧ m.readOnly = true := by
    rcases hfl with hfl | ⟨-, -, w2, hloop⟩
    · rw [hfl]; simp
    · intro m hmem
      rcases flagMountsLoop_mem _ _ _ _ _ _ _ hloop m hmem with h1 | h1
      · simp at h1
      · exact h1
  have hdevs : ∀ d ∈ devicePaths, d ≠ str "/flag2" := by decide
  intro m hmem
  rw [hm, dedupeAndSortMounts_mem] at hmem
  have hmem := dedupeMounts_mem _ _ m hmem
  have hclass : (∃ entries, h.readDir (envRootOf h language) = some entries ∧ ∃ e ∈ entries,
        m = { host := Join [envRootOf h language, e.name],
              target := Join [rr.WorkHost, e.name], readOnly := true }) ∨
      (m.host = str "/flag2" ∧ m.readOnly = true) ∨
      (m.readOnly = false ∧
        (m.host = rr.WorkspaceHost ∨ m.host = rr.TmpHost ∨ m.host ∈ devicePaths)) := by
    rcases List.mem_append.1 hmem with hmem | hmem
    · rcases List.mem_append.1 hmem with hmem | hmem
      · rcases List.mem_append.1 hmem with hmem | hmem
        · obtain ⟨e, he, -, -, hme⟩ := henvm m hmem
          exact Or.inl ⟨entries, hrd, e, he, by rw [hme, hWork]⟩
        · right; right
          simp only [List.mem_cons, List.mem_singleton, List.not_mem_nil, or_false] at hmem
          rcases hmem with rfl | rfl | rfl
          · exact ⟨rfl, Or.inl hWs.symm⟩
          · exact ⟨rfl, Or.inl hWs.symm⟩
          · exact ⟨rfl, Or.inr (Or.inl hTmp.symm)⟩
      · right; right
        rw [hdev] at hmem
        rcases deviceMountsLoop_writable h _ _ _ _ m hmem with h1 | h1
        · simp at h1
        · exact ⟨h1.2, Or.inr (Or.inr h1.1)⟩
    · exact Or.inr (Or.inl (hflag m hmem))
  refine ⟨hclass, fun hhost => ?_⟩
  rcases hclass with ⟨_, _, e, _, hme⟩ | h2 | ⟨-, h3⟩
  · rw [hme]
  · exact h2.2
  · exfalso
    rw [hWs, hTmp, hhost] at h3
    rcases h3 with h3 | h3 | h3
    · exact absurd (Join_eq_flag2_iff _ _ (by decide) h3.symm).2 (by decide)
    · exact absurd (Join_eq_flag2_iff _ _ (by decide) h3.symm).2 (by decide)
    · exact hdevs _ h3 rfl

set_option maxRecDepth 100000 in
theorem only_workspace_temp_and_devices_witness :
    (PrepareRunRootWithOptions okHost (str "c") cBuildOptions {}).1 = Except.ok cBuildRootExample ∧
    (cBuildRootExample.mounts.filter (fun m => !m.readOnly)).map (fun m => m.host) =
      [str "/dev/null", str "/dev/random", str "/dev/tty", str "/dev/urandom", str "/dev/zero",
       str "/tmp/sandbox-runroots/runroot-0/tmp", str "/tmp/sandbox-runroots/runroot-0/workspace",
       str "/tmp/sandbox-runroots/runroot-0/workspace"] ∧
    ∀ m ∈ cBuildRootExample.mounts,
      ((∃ entries, okHost.readDir (envRootOf okHost (str "c")) = some entries ∧ ∃ e ∈ entries,
          m = { host := Join [envRootOf okHost (str "c"), e.name],
                target := Join [cBuildRootExample.WorkHost, e.name], readOnly := true }) ∨
        (m.host = str "/flag2" ∧ m.readOnly = true) ∨
        (m.readOnly = false ∧
          (m.host = cBuildRootExample.WorkspaceHost ∨ m.host = cBuildRootExample.TmpHost ∨
            m.host ∈ devicePaths))) ∧
      (m.host = str "/flag2" → m.readOnly = true) :=
  ⟨by rfl, by decide,
    only_workspace_temp_and_devices_are_writable okHost (str "c") cBuildOptions {}
      cBuildRootExample (by rfl)⟩


/-! ## C15: exit codes of the chroot-entry helper -/

/-- C15 (code defect): with a newroot, a workdir and the separator but no command, `os.Args`
has four elements and `main` leaves through its first check with the usage code 97; the
branch that exits with 100 (missing command) is never taken, whatever the arguments. -/
theorem chroot_run_missing_command_exits_97 (fault : Nat → Bool)
    (prog newroot workdir : GoString) (args : List GoString) :
    chrootRunMain fault [prog, newroot, workdir, str "--"] = HelperEnd.exit 97 ∧
    chrootRunMain fault args ≠ HelperEnd.exit 100 := by
  refine ⟨rfl, ?_⟩
  unfold chrootRunMain
  by_cases h1 : args.length < 5
  · rw [if_pos h1]
    split_ifs
    · exact fun h => HelperEnd.noConfusion h
    · intro h
      injection h with h
      omega
  · rw [if_neg h1]
    dsimp only
    by_cases h2 : 3 < args.length ∧ args.getD 3 [] ≠ str "--"
    · rw [if_pos h2]
      intro h
      injection h with h
      omega
    · rw [if_neg h2, if_neg (by omega)]
      split_ifs <;> intro h <;> first
        | (injection h with h; omega)
        | exact HelperEnd.noConfusion h

/-- The helper invoked as `RunInChroot` does it: the command is started in the workdir. -/
theorem chroot_run_example :
    chrootRunMain (fun _ => false)
      [str "/.runner/chroot-run", str "/env", str "/workspace", str "--", str "/bin/sh",
       str "-c", str "true"] =
      HelperEnd.exec (str "/env") (str "/workspace") (str "/bin/sh")
        [str "/bin/sh", str "-c", str "true"] := by
  decide


/-! ## C16, C17: the nsjail invocation -/

theorem mountFlagsLoop_eq (root : GoString) : ∀ (ms : List bindMount) (acc : List GoString),
    mountFlagsLoop root ms acc = acc ++ ms.flatMap (bindFlag root)
  | [], acc => by simp [mountFlagsLoop]
  | m :: ms, acc => by
    simp only [mountFlagsLoop, mountFlagsLoop_eq root ms, List.flatMap_cons, bindFlag,
      List.append_assoc]

theorem mountDest_under_root (root rest : GoString) :
    mountDest root (root ++ str "/" ++ rest) = Clean (str "/" ++ rest) := by
  have hp : HasPrefix (root ++ str "/" ++ rest) root = true := by
    unfold HasPrefix
    rw [List.append_assoc]
    exact List.isPrefixOf_iff_prefix.2 (List.prefix_append _ _)
  unfold mountDest TrimPrefix
  dsimp only
  rw [if_pos hp, List.append_assoc, List.drop_left]
  have hs : str "/" = [47] := by decide
  rw [if_pos (by rw [hs]; simp [HasPrefix])]

/-- C17 (code defect): the invocation `RunInChroot` builds does not depend on the CPU,
address-space, file-size, process-count and open-file limits it is given; of the rlimit
vector only `OutputLimit` is used, as the cap of the capture buffers. -/
theorem rlimits_not_carried_into_invocation (h : Host) (rr : RunRoot) (workdir : GoString)
    (argv : List GoString) (stdin : GoString) (lim : RLimits) (useChrootRunner : Bool)
    (configPath : GoString) (cpu as fsize nproc nofile : Int) :
    nsjailInvocation h rr workdir argv stdin
        { lim with CPUSeconds := cpu, ASBytes := as, FSizeBytes := fsize, NProc := nproc,
                   NOFile := nofile } useChrootRunner configPath =
      nsjailInvocation h rr workdir argv stdin lim useChrootRunner configPath ∧
    ({ CPUSeconds := 1 } : RLimits) ≠ { CPUSeconds := 2 } ∧
    RunInChroot h RunKind.single (some rr) workdir argv stdin { CPUSeconds := 1 } =
      RunInChroot h RunKind.single (some rr) workdir argv stdin { CPUSeconds := 2 } :=
  ⟨rfl, by decide, rfl⟩


/-! ## C20: unknown challenges -/

set_option maxRecDepth 100000 in
/-- C20 (code defect): for a challenge without tests, `execute` answers `Unknown challenge`
only at the end of its pipeline.  A request in C has by then prepared both run-roots and run
the compiler in the build run-root; a request in Python has prepared its run-root and written
the source file.  Only the Go path asks the test store first and touches no sandbox. -/
theorem unknown_challenge_after_sandbox_work :
    getRunnerTests noTestsHost includeFlagRequest.Challenge includeFlagRequest.Mode = [] ∧
    (execute noTestsHost includeFlagRequest {}).1.Result = str "Unknown challenge" ∧
    (execute noTestsHost includeFlagRequest {}).2.trace.filterMap runOf =
      [(RunKind.compile, str "/tmp/sandbox-runroots/runroot-0")] ∧
    Event.created (str "/tmp/sandbox-runroots/runroot-0") (str "c") cBuildOptions ∈
      (execute noTestsHost includeFlagRequest {}).2.trace ∧
    Event.created (str "/tmp/sandbox-runroots/runroot-1") (str "c") runOptions ∈
      (execute noTestsHost includeFlagRequest {}).2.trace ∧
    (execute noTestsHost helloRequest {}).1.Result = str "Unknown challenge" ∧
    Event.created (str "/tmp/sandbox-runroots/runroot-0") (str "python") {} ∈
      (execute noTestsHost helloRequest {}).2.trace ∧
    (execute noTestsHost { helloRequest with Language := str "go" } {}).1.Result =
      str "Unknown challenge" ∧
    (execute noTestsHost { helloRequest with Language := str "go" } {}).2.trace = [] := by
  decide


/-! ## C18: one claim of the dispatcher -/

theorem foldl_min_created_at : ∀ (ps : List SubmissionRow) (init : Int),
    ps.foldl (fun acc r => min acc r.created_at) init ≤ init ∧
    (∀ r ∈ ps, ps.foldl (fun acc r => min acc r.created_at) init ≤ r.created_at) ∧
    (ps.foldl (fun acc r => min acc r.created_at) init = init ∨
      ∃ r ∈ ps, r.created_at = ps.foldl (fun acc r => min acc r.created_at) init)
  | [], init => by simp
  | p :: ps, init => by
    obtain ⟨h1, h2, h3⟩ := foldl_min_created_at ps (min init p.created_at)
    simp only [List.foldl_cons]
    refine ⟨le_trans h1 (min_le_left _ _), ?_, ?_⟩
    · intro r hr
      rcases List.mem_cons.1 hr with rfl | hr
      · exact le_trans h1 (min_le_right _ _)
      · exact h2 r hr
    · rcases h3 with h3 | ⟨r, hr, h3⟩
      · rcases min_choice init p.created_at with hm | hm
        · left; rw [h3, hm]
        · right; exact ⟨p, List.mem_cons_self _ _, by rw [h3, hm]⟩
      · right; exact ⟨r, List.mem_cons_of_mem _ hr, h3⟩

theorem oldestPending_none (t : List SubmissionRow) (tie : Nat) :
    oldestPending t tie = none ↔ pendingRows t = [] := by
  unfold oldestPending
  cases hp : pendingRows t with
  | nil => simp
  | cons p ps =>
    simp only [false_iff, reduceCtorEq]
    obtain ⟨-, -, h3⟩ := foldl_min_created_at ps p.created_at
    have hne : (List.filter (fun r => decide (r.created_at =
        ps.foldl (fun acc r => min acc r.created_at) p.created_at)) (p :: ps)) ≠ [] := by
      intro hnil
      rcases h3 with h3 | ⟨r, hr, h3⟩
      · have : p ∈ List.filter (fun r => decide (r.created_at =
            ps.foldl (fun acc r => min acc r.created_at) p.created_at)) (p :: ps) :=
          List.mem_filter.2 ⟨List.mem_cons_self _ _, by simp [h3]⟩
        rw [hnil] at this
        simp at this
      · have : r ∈ List.filter (fun r => decide (r.created_at =
            ps.foldl (fun acc r => min acc r.created_at) p.created_at)) (p :: ps) :=
          List.mem_filter.2 ⟨List.mem_cons_of_mem _ hr, by simp [h3]⟩
        rw [hnil] at this
        simp at this
    refine iff_of_false (fun hget => ?_) (fun hf => hf)
    rw [List.get?_eq_none] at hget
    have hpos := List.length_pos.2 hne
    have := Nat.mod_lt tie hpos
    omega

theorem oldestPending_some (t : List SubmissionRow) (tie : Nat) (row : SubmissionRow)
    (h : oldestPending t tie = some row) :
    row ∈ t ∧ row.result = str "Pending" ∧
    ∀ r ∈ t, r.result = str "Pending" → row.created_at ≤ r.created_at := by
  unfold oldestPending at h
  cases hp : pendingRows t with
  | nil => rw [hp] at h; simp at h
  | cons p ps =>
    rw [hp] at h
    dsimp only at h
    have hmem := List.get?_mem h
    obtain ⟨hin, hleast⟩ := List.mem_filter.1 hmem
    rw [← hp] at hin
    unfold pendingRows at hin
    obtain ⟨h1, h2⟩ := List.mem_filter.1 hin
    obtain ⟨m1, m2, -⟩ := foldl_min_created_at ps p.created_at
    refine ⟨h1, by simpa using h2, fun r hr hrp => ?_⟩
    have hrin : r ∈ p :: ps := by
      rw [← hp]
      exact List.mem_filter.2 ⟨hr, by simpa using hrp⟩
    have hl : row.created_at = ps.foldl (fun acc r => min acc r.created_at) p.created_at := by
      simpa using hleast
    rw [hl]
    rcases List.mem_cons.1 hrin with rfl | hrin
    · exact m1
    · exact m2 r hrin

theorem row_eq_of_id (t : List SubmissionRow) (hu : UniqueIds t) (x y : SubmissionRow)
    (hx : x ∈ t) (hy : y ∈ t) (hid : x.id = y.id) : x = y :=
  List.inj_on_of_nodup_map hu hx hy hid

theorem markRunning_eq (t : List SubmissionRow) (hu : UniqueIds t) (row : SubmissionRow)
    (hrow : row ∈ t) (hp : row.result = str "Pending") :
    markRunning t row.id =
      t.map (fun x => if x = row then { x with result := str "Running" } else x) := by
  unfold markRunning
  apply List.map_congr_left
  intro x hx
  by_cases hxr : x = row
  · rw [if_pos hxr, if_pos ⟨by rw [hxr], by rw [hxr]; exact hp⟩]
  · rw [if_neg hxr, if_neg]
    exact fun hc => hxr (row_eq_of_id t hu x row hx hrow hc.1)

/-- Claim C18.  On a table with distinct ids, when the database reports no failure:
`claimNextPending` returns a `Pending` row whose `created_at` is least among the `Pending`
rows, with `ok = true`, and the table afterwards is the old one with `result = 'Running'` in
that row and nothing else changed; when no row is `Pending` it returns `ok = false` and the
table is unchanged. -/
theorem claim_next_pending_takes_oldest (o : ClaimOracle) (t : List SubmissionRow)
    (hno : o.noFailure) (hu : UniqueIds t) :
    (pendingRows t = [] →
      (claimNextPending o t).1 = ({}, false, none) ∧ (claimNextPending o t).2 = t) ∧
    (pendingRows t ≠ [] →
      ∃ row ∈ t, row.result = str "Pending" ∧
        (∀ r ∈ t, r.result = str "Pending" → row.created_at ≤ r.created_at) ∧
        (claimNextPending o t).1 =
          ({ ID := row.id, UserID := row.user_id, Challenge := row.challenge,
             Language := row.language, Code := row.code }, true, none) ∧
        (claimNextPending o t).2 =
          t.map (fun x => if x = row then { x with result := str "Running" } else x)) := by
  obtain ⟨h1, h2, h3, h4⟩ := hno
  unfold claimNextPending
  simp only [h1, h2, h3, h4, Bool.false_eq_true, if_false]
  constructor
  · intro hnil
    rw [(oldestPending_none t o.tie).2 hnil]
    exact ⟨rfl, rfl⟩
  · intro hne
    cases hq : oldestPending t o.tie with
    | none => exact absurd ((oldestPending_none t o.tie).1 hq) hne
    | some row =>
      obtain ⟨r1, r2, r3⟩ := oldestPending_some t o.tie row hq
      exact ⟨row, r1, r2, r3, rfl, markRunning_eq t hu row r1 r2⟩

theorem claim_next_pending_witness :
    (({} : ClaimOracle).noFailure ∧ UniqueIds exampleTable) ∧
    (pendingRows exampleTable ≠ [] →
      ∃ row ∈ exampleTable, row.result = str "Pending" ∧
        (∀ r ∈ exampleTable, r.result = str "Pending" → row.created_at ≤ r.created_at) ∧
        (claimNextPending {} exampleTable).1 =
          ({ ID := row.id, UserID := row.user_id, Challenge := row.challenge,
             Language := row.language, Code := row.code }, true, none) ∧
        (claimNextPending {} exampleTable).2 =
          exampleTable.map
            (fun x => if x = row then { x with result := str "Running" } else x)) ∧
    (claimNextPending {} exampleTable).1.1.ID = 3 :=
  ⟨⟨by decide, by decide⟩,
    (claim_next_pending_takes_oldest {} exampleTable (by decide) (by decide)).2, by decide⟩

/-- A failing step of the database leaves the table as it was and `ok = false`. -/
theorem claimNextPending_failure (o : ClaimOracle) (t : List SubmissionRow)
    (hf : (claimNextPending o t).1.2.1 = false) : (claimNextPending o t).2 = t := by
  unfold claimNextPending at hf ⊢
  by_cases h1 : o.beginFails = true
  · rw [if_pos h1]
  rw [if_neg h1] at hf ⊢
  by_cases h2 : o.queryFails = true
  · rw [if_pos h2]
  rw [if_neg h2] at hf ⊢
  cases hq : oldestPending t o.tie with
  | none => rfl
  | some row =>
    rw [hq] at hf
    dsimp only at hf ⊢
    split_ifs at hf ⊢ <;> rfl


/-! ## C19: no submission is claimed twice -/

theorem markRunning_ids (t : List SubmissionRow) (id : Int) :
    (markRunning t id).map (fun r => r.id) = t.map (fun r => r.id) := by
  unfold markRunning
  rw [List.map_map]
  apply List.map_congr_left
  intro x _
  simp only [Function.comp]
  split_ifs <;> rfl

theorem update_ids (t : List SubmissionRow) (id : Int) (result : GoString)
    (durationMs failIdx : Int) (lastOut expect : GoString) (fails : Bool) :
    (updateSubmissionAfterRun fails t id result durationMs failIdx lastOut expect).2.map
      (fun r => r.id) = t.map (fun r => r.id) := by
  unfold updateSubmissionAfterRun
  split_ifs
  · rfl
  · dsimp only
    rw [List.map_map]
    apply List.map_congr_left
    intro x _
    simp only [Function.comp]
    split_ifs <;> rfl

theorem find_map_of_id (t : List SubmissionRow) (f : SubmissionRow → SubmissionRow)
    (hf : ∀ x, (f x).id = x.id) (id : Int) :
    (t.map f).find? (fun r => r.id = id) = (t.find? (fun r => r.id = id)).map f := by
  induction t with
  | nil => rfl
  | cons x xs ih =>
    simp only [List.map_cons, List.find?_cons, hf]
    split
    · rfl
    · exact ih

theorem find_mem_id (t : List SubmissionRow) (id : Int) (x : SubmissionRow)
    (h : t.find? (fun r => r.id = id) = some x) : x ∈ t ∧ x.id = id :=
  ⟨List.mem_of_find?_eq_some h, by simpa using List.find?_some h⟩

theorem terminal_ne_pending (v : GoString) (hv : v ∈ terminalVerdicts) : v ≠ str "Pending" := by
  intro h
  rw [h] at hv
  exact absurd hv (by decide)

/-- What a successful claim has done. -/
theorem claimNextPending_ok (o : ClaimOracle) (t : List SubmissionRow)
    (hok : (claimNextPending o t).1.2.1 = true) :
    ∃ row ∈ t, row.result = str "Pending" ∧ (claimNextPending o t).1.1.ID = row.id ∧
      (claimNextPending o t).2 = markRunning t row.id := by
  unfold claimNextPending at hok ⊢
  by_cases h1 : o.beginFails = true
  · rw [if_pos h1] at hok; simp at hok
  rw [if_neg h1] at hok ⊢
  by_cases h2 : o.queryFails = true
  · rw [if_pos h2] at hok; simp at hok
  rw [if_neg h2] at hok ⊢
  cases hq : oldestPending t o.tie with
  | none => rw [hq] at hok; simp at hok
  | some row =>
    rw [hq] at hok
    dsimp only at hok ⊢
    obtain ⟨r1, r2, -⟩ := oldestPending_some t o.tie row hq
    split_ifs at hok ⊢
    exact ⟨row, r1, r2, rfl, rfl⟩


theorem step_claim_busy (s : Dispatcher) (w : Nat) (o : ClaimOracle) (j : pendingJob)
    (hw : s.holding w = some j) : step s (Action.claim w o) = s := by
  simp only [step, hw]

theorem step_claim_ok (s : Dispatcher) (w : Nat) (o : ClaimOracle)
    (hw : s.holding w = none) (hok : (claimNextPending o s.table).1.2.1 = true) :
    step s (Action.claim w o) =
      { table := (claimNextPending o s.table).2,
        holding := fun v => if v = w then some (claimNextPending o s.table).1.1 else s.holding v,
        claimed := (claimNextPending o s.table).1.1.ID :: s.claimed } := by
  simp only [step, hw, hok, if_true]

theorem step_claim_failed (s : Dispatcher) (w : Nat) (o : ClaimOracle)
    (hw : s.holding w = none) (hok : (claimNextPending o s.table).1.2.1 = false) :
    step s (Action.claim w o) = s := by
  simp only [step, hw, hok, Bool.false_eq_true, if_false,
    claimNextPending_failure o s.table hok]

theorem step_finish_idle (s : Dispatcher) (w : Nat) (result : GoString)
    (durationMs failIdx : Int) (lastOut expect : GoString) (fails : Bool)
    (hw : s.holding w = none) :
    step s (Action.finish w result durationMs failIdx lastOut expect fails) = s := by
  simp only [step, hw]

theorem step_finish_busy (s : Dispatcher) (w : Nat) (result : GoString)
    (durationMs failIdx : Int) (lastOut expect : GoString) (fails : Bool) (job : pendingJob)
    (hw : s.holding w = some job) :
    step s (Action.finish w result durationMs failIdx lastOut expect fails) =
      { table := (updateSubmissionAfterRun fails s.table job.ID result durationMs failIdx
          lastOut expect).2,
        holding := fun v => if v = w then none else s.holding v,
        claimed := s.claimed } := by
  simp only [step, hw]

theorem inv_claim (s : Dispatcher) (w : Nat) (o : ClaimOracle) (hinv : DispatcherInv s) :
    DispatcherInv (step s (Action.claim w o)) := by
  cases hw : s.holding w with
  | some j => rw [step_claim_busy s w o j hw]; exact hinv
  | none =>
    by_cases hok : (claimNextPending o s.table).1.2.1 = true
    · rw [step_claim_ok s w o hw hok]
      obtain ⟨i1, i2, i3, i4, i5, i6⟩ := hinv
      obtain ⟨row, r1, r2, r3, r4⟩ := claimNextPending_ok o s.table hok
      have hfresh : row.id ∉ s.claimed := fun hin => i4 _ hin row r1 rfl r2
      have hrows : ∀ x ∈ markRunning s.table row.id, ∃ y ∈ s.table, y.id = x.id ∧
          ((y.id = row.id ∧ x.result = str "Running") ∨ (y.id ≠ row.id ∧ x = y)) := by
        intro x hx
        unfold markRunning at hx
        obtain ⟨y, hy, rfl⟩ := List.mem_map.1 hx
        refine ⟨y, hy, by split_ifs <;> rfl, ?_⟩
        by_cases hid : y.id = row.id
        · left
          have : y = row := row_eq_of_id s.table i1 y row hy r1 hid
          rw [if_pos ⟨hid, by rw [this]; exact r2⟩]
          exact ⟨hid, rfl⟩
        · right
          rw [if_neg (fun hc => hid hc.1)]
          exact ⟨hid, rfl⟩
      rw [r3, r4]
      refine ⟨?_, ?_, ?_, ?_, ?_, ?_⟩
      · unfold UniqueIds
        rw [markRunning_ids]
        exact i1
      · exact List.nodup_cons.2 ⟨hfresh, i2⟩
      · intro id hid
        rw [markRunning_ids]
        rcases List.mem_cons.1 hid with rfl | hid
        · exact List.mem_map.2 ⟨row, r1, rfl⟩
        · exact i3 id hid
      · intro id hid x hx hxid
        obtain ⟨y, hy, hyid, hcase⟩ := hrows x hx
        rcases hcase with ⟨-, hrun⟩ | ⟨hne, rfl⟩
        · rw [hrun]; decide
        · rcases List.mem_cons.1 hid with rfl | hid
          · exact absurd hxid hne
          · exact i4 id hid x hy hxid
      · intro v job hv
        dsimp only at hv
        by_cases hvw : v = w
        · rw [if_pos hvw] at hv
          cases hv
          rw [r3]
          refine ⟨List.mem_cons_self _ _, fun x hx hxid => ?_⟩
          obtain ⟨y, hy, hyid, hcase⟩ := hrows x hx
          rcases hcase with ⟨-, hrun⟩ | ⟨hne, rfl⟩
          · exact hrun
          · exact absurd hxid hne
        · rw [if_neg hvw] at hv
          obtain ⟨h1, h2⟩ := i5 v job hv
          refine ⟨List.mem_cons_of_mem _ h1, fun x hx hxid => ?_⟩
          obtain ⟨y, hy, hyid, hcase⟩ := hrows x hx
          rcases hcase with ⟨hrow, -⟩ | ⟨-, rfl⟩
          · exfalso
            apply hfresh
            rw [← hrow, hyid, hxid]
            exact h1
          · exact h2 x hy hxid
      · intro v u job job1 hv hu hid
        dsimp only at hv hu
        by_cases hvw : v = w <;> by_cases huw : u = w
        · rw [hvw, huw]
        · exfalso
          rw [if_pos hvw] at hv
          rw [if_neg huw] at hu
          cases hv
          rw [r3] at hid
          exact hfresh (hid ▸ (i5 u job1 hu).1)
        · exfalso
          rw [if_neg hvw] at hv
          rw [if_pos huw] at hu
          cases hu
          rw [r3] at hid
          exact hfresh (hid ▸ (i5 v job hv).1)
        · rw [if_neg hvw] at hv
          rw [if_neg huw] at hu
          exact i6 v u job job1 hv hu hid
    · rw [step_claim_failed s w o hw (by simpa using hok)]
      exact hinv


theorem inv_finish (s : Dispatcher) (w : Nat) (result : GoString) (durationMs failIdx : Int)
    (lastOut expect : GoString) (fails : Bool) (hinv : DispatcherInv s)
    (hterm : result ∈ terminalVerdicts) :
    DispatcherInv (step s (Action.finish w result durationMs failIdx lastOut expect fails)) := by
  cases hw : s.holding w with
  | none => rw [step_finish_idle _ _ _ _ _ _ _ _ hw]; exact hinv
  | some job =>
    rw [step_finish_busy _ _ _ _ _ _ _ _ job hw]
    obtain ⟨i1, i2, i3, i4, i5, i6⟩ := hinv
    have hrows : ∀ x ∈ (updateSubmissionAfterRun fails s.table job.ID result durationMs failIdx
        lastOut expect).2, ∃ y ∈ s.table, y.id = x.id ∧
          ((y.id = job.ID ∧ (x.result = result ∨ x = y)) ∨ (y.id ≠ job.ID ∧ x = y)) := by
      intro x hx
      unfold updateSubmissionAfterRun at hx
      split_ifs at hx with hfail
      · exact ⟨x, hx, rfl, (em (x.id = job.ID)).imp (fun h => ⟨h, Or.inr rfl⟩)
          (fun h => ⟨h, rfl⟩)⟩
      · obtain ⟨y, hy, rfl⟩ := List.mem_map.1 hx
        refine ⟨y, hy, by split_ifs <;> rfl, ?_⟩
        by_cases hid : y.id = job.ID
        · rw [if_pos hid]
          exact Or.inl ⟨hid, Or.inl rfl⟩
        · rw [if_neg hid]
          exact Or.inr ⟨hid, rfl⟩
    refine ⟨?_, i2, ?_, ?_, ?_, ?_⟩
    · unfold UniqueIds
      rw [update_ids]
      exact i1
    · intro id hid
      rw [update_ids]
      exact i3 id hid
    · intro id hid x hx hxid
      obtain ⟨y, hy, hyid, hcase⟩ := hrows x hx
      rcases hcase with ⟨-, hres | rfl⟩ | ⟨-, rfl⟩
      · rw [hres]; exact terminal_ne_pending _ hterm
      · exact i4 id hid x hy hxid
      · exact i4 id hid x hy hxid
    · intro v job1 hv
      dsimp only at hv
      by_cases hvw : v = w
      · rw [if_pos hvw] at hv; cases hv
      · rw [if_neg hvw] at hv
        obtain ⟨h1, h2⟩ := i5 v job1 hv
        refine ⟨h1, fun x hx hxid => ?_⟩
        obtain ⟨y, hy, hyid, hcase⟩ := hrows x hx
        rcases hcase with ⟨hjob, -⟩ | ⟨-, rfl⟩
        · exfalso
          exact hvw (i6 v w job1 job hv hw (by rw [← hxid, ← hyid, hjob]))
        · exact h2 x hy hxid
    · intro v u job1 job2 hv hu hid
      dsimp only at hv hu
      by_cases hvw : v = w
      · rw [if_pos hvw] at hv; cases hv
      · by_cases huw : u = w
        · rw [if_pos huw] at hu; cases hu
        · rw [if_neg hvw] at hv
          rw [if_neg huw] at hu
          exact i6 v u job1 job2 hv hu hid

theorem inv_submit (s : Dispatcher) (newId : Int) (sub : SubmissionRow)
    (hinv : DispatcherInv s) : DispatcherInv (step s (Action.submit newId sub)) := by
  obtain ⟨i1, i2, i3, i4, i5, i6⟩ := hinv
  simp only [step, createSubmission]
  split_ifs with hin
  · exact ⟨i1, i2, i3, i4, i5, i6⟩
  · have hold : ∀ id ∈ s.claimed, ∀ x ∈ s.table ++ [{ sub with id := newId }], x.id = id →
        x ∈ s.table := by
      intro id hid x hx hxid
      rcases List.mem_append.1 hx with hx | hx
      · exact hx
      · exfalso
        simp only [List.mem_singleton] at hx
        rw [hx] at hxid
        have hid2 : newId = id := hxid
        rw [hid2] at hin
        exact hin (i3 id hid)
    refine ⟨?_, i2, ?_, ?_, ?_, i6⟩
    · unfold UniqueIds at i1 ⊢
      rw [List.map_append, List.nodup_append]
      refine ⟨i1, by simp, ?_⟩
      intro a ha hb
      simp only [List.map_cons, List.map_nil, List.mem_singleton] at hb
      exact hin (hb ▸ ha)
    · intro id hid
      rw [List.map_append]
      exact List.mem_append_left _ (i3 id hid)
    · intro id hid x hx hxid
      exact i4 id hid x (hold id hid x hx hxid) hxid
    · intro v job hv
      obtain ⟨h1, h2⟩ := i5 v job hv
      exact ⟨h1, fun x hx hxid => h2 x (hold _ h1 x hx hxid) hxid⟩

theorem inv_step (s : Dispatcher) (a : Action) (hinv : DispatcherInv s) (ha : a.terminal) :
    DispatcherInv (step s a) := by
  cases a with
  | claim w o => exact inv_claim s w o hinv
  | finish w result d f l e fails => exact inv_finish s w result d f l e fails hinv ha
  | submit newId sub => exact inv_submit s newId sub hinv

theorem inv_run : ∀ (acts : List Action) (s : Dispatcher), DispatcherInv s →
    (∀ a ∈ acts, a.terminal) → DispatcherInv (run s acts)
  | [], _, hinv, _ => hinv
  | a :: acts, s, hinv, hall =>
    inv_run acts (step s a) (inv_step s a hinv (hall a (List.mem_cons_self _ _)))
      (fun b hb => hall b (List.mem_cons_of_mem _ hb))

theorem inv_initial (s : Dispatcher) (h : s.initial) : DispatcherInv s := by
  obtain ⟨h1, h2, h3⟩ := h
  refine ⟨h1, by rw [h3]; exact List.nodup_nil, ?_, ?_, ?_, ?_⟩
  · intro id hid; rw [h3] at hid; simp at hid
  · intro id hid; rw [h3] at hid; simp at hid
  · intro w job hw; rw [h2] at hw; cases hw
  · intro w v job job1 hw; rw [h2] at hw; cases hw


theorem LegalStep.same (s s1 : Dispatcher) (h : s1.table = s.table) : LegalStep s s1 := by
  intro id r hr
  rw [h]
  exact ⟨r, hr, Or.inl rfl⟩

theorem resultOf_some (t : List SubmissionRow) (id : Int) (r : GoString)
    (h : resultOf t id = some r) :
    ∃ x, t.find? (fun y => y.id = id) = some x ∧ x.result = r ∧ x ∈ t ∧ x.id = id := by
  unfold resultOf at h
  cases hx : t.find? (fun y => y.id = id) with
  | none => rw [hx] at h; cases h
  | some x =>
    rw [hx] at h
    obtain ⟨h1, h2⟩ := find_mem_id t id x hx
    exact ⟨x, rfl, by simpa using h, h1, h2⟩

theorem legal_step (s : Dispatcher) (a : Action) (hinv : DispatcherInv s) (ha : a.terminal) :
    LegalStep s (step s a) := by
  obtain ⟨i1, i2, i3, i4, i5, i6⟩ := hinv
  cases a with
  | claim w o =>
    cases hw : s.holding w with
    | some j => rw [step_claim_busy s w o j hw]; exact LegalStep.same _ _ rfl
    | none =>
      by_cases hok : (claimNextPending o s.table).1.2.1 = true
      · rw [step_claim_ok s w o hw hok]
        obtain ⟨row, r1, r2, r3, r4⟩ := claimNextPending_ok o s.table hok
        intro id r hr
        obtain ⟨x, hx, hxr, -, -⟩ := resultOf_some _ _ _ hr
        dsimp only
        rw [r4]
        unfold markRunning resultOf
        rw [find_map_of_id _ _ (fun y => by split_ifs <;> rfl), hx]
        simp only [Option.map_some']
        by_cases hc : x.id = row.id ∧ x.result = str "Pending"
        · rw [if_pos hc]
          exact ⟨_, rfl, Or.inr (Or.inl ⟨by rw [← hxr]; exact hc.2, rfl⟩)⟩
        · rw [if_neg hc]
          exact ⟨_, rfl, Or.inl hxr⟩
      · rw [step_claim_failed s w o hw (by simpa using hok)]
        exact LegalStep.same _ _ rfl
  | finish w result d f l e fails =>
    cases hw : s.holding w with
    | none => rw [step_finish_idle _ _ _ _ _ _ _ _ hw]; exact LegalStep.same _ _ rfl
    | some job =>
      rw [step_finish_busy _ _ _ _ _ _ _ _ job hw]
      intro id r hr
      obtain ⟨x, hx, hxr, hxin, hxid⟩ := resultOf_some _ _ _ hr
      dsimp only
      unfold updateSubmissionAfterRun
      by_cases hfail : fails = true
      · rw [if_pos hfail]
        exact ⟨r, hr, Or.inl rfl⟩
      · rw [if_neg hfail]
        unfold resultOf
        dsimp only
        rw [find_map_of_id _ _ (fun y => by split_ifs <;> rfl), hx]
        simp only [Option.map_some']
        by_cases hc : x.id = job.ID
        · rw [if_pos hc]
          refine ⟨_, rfl, Or.inr (Or.inr ⟨?_, ha⟩)⟩
          rw [← hxr]
          exact (i5 w job hw).2 x hxin hc
        · rw [if_neg hc]
          exact ⟨_, rfl, Or.inl hxr⟩
  | submit newId sub =>
    intro id r hr
    obtain ⟨x, hx, hxr, -, -⟩ := resultOf_some _ _ _ hr
    simp only [step, createSubmission]
    split_ifs
    · exact ⟨r, hr, Or.inl rfl⟩
    · refine ⟨r, ?_, Or.inl rfl⟩
      unfold resultOf
      rw [List.find?_append, hx]
      simp [hxr]

/-- Claim C19.  From a state in which no worker holds a job, in every interleaving of atomic
claims, write-backs of terminal verdicts and inserts of new submissions, the ids that
`claimNextPending` has returned are pairwise different, and every step moves the `result` of
a row not at all, from `Pending` to `Running`, or from `Running` to a terminal verdict. -/
theorem no_submission_is_claimed_twice (s : Dispatcher) (acts : List Action) (a : Action)
    (hinit : s.initial) (hterm : ∀ x ∈ acts ++ [a], x.terminal) :
    (run s (acts ++ [a])).claimed.Nodup ∧
    LegalStep (run s acts) (run s (acts ++ [a])) := by
  have hpre := inv_run acts s (inv_initial s hinit)
    (fun x hx => hterm x (List.mem_append_left _ hx))
  refine ⟨(inv_run _ s (inv_initial s hinit) hterm).2.1, ?_⟩
  have hrun : run s (acts ++ [a]) = step (run s acts) a := by
    simp [run, List.foldl_append]
  rw [hrun]
  exact legal_step _ a hpre (hterm a (by simp))

theorem no_submission_is_claimed_twice_witness :
    (({ table := exampleTable } : Dispatcher).initial ∧
      ∀ x ∈ exampleSchedule ++ [Action.claim 0 {}], x.terminal) ∧
    (run { table := exampleTable } (exampleSchedule ++ [Action.claim 0 {}])).claimed = [4, 2, 3] ∧
    (run { table := exampleTable } (exampleSchedule ++ [Action.claim 0 {}])).claimed.Nodup ∧
    LegalStep (run { table := exampleTable } exampleSchedule)
      (run { table := exampleTable } (exampleSchedule ++ [Action.claim 0 {}])) :=
  ⟨⟨⟨by decide, fun _ => rfl, rfl⟩, by decide⟩, by decide,
    no_submission_is_claimed_twice { table := exampleTable } exampleSchedule (Action.claim 0 {})
      ⟨by decide, fun _ => rfl, rfl⟩ (by decide)⟩


/-! ## C21: failures of the sandbox executor itself -/

set_option maxRecDepth 100000 in
/-- C21 (code defect): when `RunInChroot` fails by itself, here because the nsjail
configuration cannot be prepared, no sandboxed command has run, and still the compile step
of a C submission answers `Compile Error` with the text of that error as `output`, and the
test-run step of a Python submission answers `Runtime Error`; neither answers
`Internal Error`. -/
theorem executor_failure_is_not_internal_error :
    (∀ e ∈ (execute configFailHost includeFlagRequest {}).2.trace, runOf e = none) ∧
    (execute configFailHost includeFlagRequest {}).1 =
      { Result := str "Compile Error",
        Output := str "prepare nsjail config: open /tmp/nsjail-config-1.cfg: permission denied" } ∧
    (∀ e ∈ (execute configFailHost helloRequest {}).2.trace, runOf e = none) ∧
    (execute configFailHost helloRequest {}).1 = { Result := str "Runtime Error" } := by
  decide



/-! ## C22: cleanup of the per-run directory on the error returns -/

set_option maxRecDepth 100000 in
/-- C22 (code defect): when `os.Stat("/flag2")` fails with an error other than "does not
exist", `PrepareRunRootWithOptions` returns an error without calling its cleanup: the call
has created the per-run directory, nothing has removed it, and it is still on disk. -/
theorem flag_stat_failure_leaves_run_root :
    (PrepareRunRootWithOptions flagStatFailHost (str "python") {} {}).1.toOption = none ∧
    (PrepareRunRootWithOptions flagStatFailHost (str "python") {} {}).2.trace =
      [Event.prepare (str "python") {},
       Event.created (str "/tmp/sandbox-runroots/runroot-0") (str "python") {}] ∧
    (PrepareRunRootWithOptions flagStatFailHost (str "python") {} {}).2.live =
      [str "/tmp/sandbox-runroots/runroot-0"] := by
  decide


/-! ## C23: the order of the tests in judge mode -/

theorem selectCases_sorted (t : List caseRow) (c : GoString) :
    (selectCases t c).Sorted (fun a b => a.idx ≤ b.idx) := by
  unfold selectCases
  exact @List.sorted_insertionSort _ (fun a b : caseRow => a.idx ≤ b.idx) _
    ⟨fun a b => le_total a.idx b.idx⟩ ⟨fun a b c h1 h2 => le_trans h1 h2⟩ _

theorem selectCases_perm (t : List caseRow) (c : GoString) :
    (selectCases t c).Perm (t.filter (fun r => r.challenge = c)) := by
  unfold selectCases
  exact List.perm_insertionSort _ _

theorem scanRows_flag (q : QueryResult) (b : Bool) (ts : List runnerTest)
    (hs : scanRows q b = some ts) : ∀ t ∈ ts, t.IsSample = b := by
  unfold scanRows at hs
  cases q with
  | failed => simp at hs; subst hs; simp
  | rows rs f =>
    simp only at hs
    split_ifs at hs
    simp only [Option.some.injEq] at hs
    subst hs
    intro t ht
    obtain ⟨r, _, rfl⟩ := List.mem_map.1 ht
    rfl

theorem getRunnerTests_judge_order (h : Host) (challenge mode : GoString)
    (hmode : ToLower (TrimSpace mode) ≠ str "sample") :
    (getRunnerTests h challenge mode).Pairwise (fun a b => a.IsSample = false → b.IsSample = false) := by
  unfold getRunnerTests
  simp only [hmode, if_false]
  cases hs : scanRows (h.sampleCases challenge) true with
  | none => simp
  | some ss =>
    cases hj : scanRows (h.judgeCases challenge) false with
    | none => simp
    | some js =>
      simp only
      rw [List.pairwise_append]
      refine ⟨?_, ?_, ?_⟩
      · exact List.Pairwise.imp_of_mem
          (fun {a b} ha _ _ hf => by rw [scanRows_flag _ _ _ hs a ha] at hf; cases hf)
          (List.pairwise_of_forall (fun _ _ => trivial) : ss.Pairwise (fun _ _ => True))
      · exact List.Pairwise.imp_of_mem
          (fun {a b} _ hb _ _ => scanRows_flag _ _ _ hj b hb)
          (List.pairwise_of_forall (fun _ _ => trivial) : js.Pairwise (fun _ _ => True))
      · intro a _ b hb _
        exact scanRows_flag _ _ _ hj b hb

/-- Claim C23.  For a mode that does not normalise to `sample`, `getRunnerTests` on a
database that answers its two queries returns the rows of `sample_cases` of the challenge in
ascending order of `idx`, each as a test flagged `IsSample`, followed by the rows of
`judge_cases` of the challenge in ascending order of `idx`, each as a test not flagged; and
on every host, failing queries included, no test that is not flagged precedes a flagged
one. -/
theorem judge_tests_are_samples_then_hidden (h : Host) (db : Store) (challenge mode : GoString)
    (hmode : ToLower (TrimSpace mode) ≠ str "sample") :
    getRunnerTests (storeHost h db) challenge mode =
      (selectCases db.sample_cases challenge).map sampleTest ++
        (selectCases db.judge_cases challenge).map hiddenTest ∧
    (selectCases db.sample_cases challenge).Sorted (fun a b => a.idx ≤ b.idx) ∧
    (selectCases db.sample_cases challenge).Perm
      (db.sample_cases.filter (fun r => r.challenge = challenge)) ∧
    (selectCases db.judge_cases challenge).Sorted (fun a b => a.idx ≤ b.idx) ∧
    (selectCases db.judge_cases challenge).Perm
      (db.judge_cases.filter (fun r => r.challenge = challenge)) ∧
    (getRunnerTests h challenge mode).Pairwise
      (fun a b => a.IsSample = false → b.IsSample = false) := by
  refine ⟨?_, selectCases_sorted _ _, selectCases_perm _ _, selectCases_sorted _ _,
    selectCases_perm _ _, getRunnerTests_judge_order h challenge mode hmode⟩
  unfold getRunnerTests
  simp only [hmode, if_false, storeHost, scanRows, Bool.false_eq_true, false_and, List.map_map]
  rfl

set_option maxRecDepth 100000 in
theorem judge_tests_witness :
    ToLower (TrimSpace (str " Judge ")) ≠ str "sample" ∧
    getRunnerTests (storeHost okHost exampleStore) (str "hello") (str " Judge ") =
      [{ Input := str "a", Output := str "A", IsSample := true },
       { Input := str "b", Output := str "B", IsSample := true },
       { Input := str "c", Output := str "C" },
       { Input := str "d", Output := str "D" },
       { Input := str "e", Output := str "E" }] :=
  ⟨by decide,
   (judge_tests_are_samples_then_hidden okHost exampleStore (str "hello") (str " Judge ")
      (by decide)).1.trans (by decide)⟩


/-! ## C24: seeding twice -/

theorem insertCases_challenge (name : GoString) : ∀ (ts : List seedTest) (i : Nat),
    ∀ r ∈ insertCases name i ts, r.challenge = name
  | [], i => by simp [insertCases]
  | t :: ts, i => by
    intro r hr
    simp only [insertCases, List.mem_cons] at hr
    rcases hr with rfl | hr
    · rfl
    · exact insertCases_challenge name ts (i + 1) r hr

theorem caseUpdate_ok (cases : List seedTest → List seedTest) (ch : seedChallenge) :
    UpdateOK (caseUpdate cases ch) := by
  intro v hv r hr
  unfold caseUpdate at hv
  split_ifs at hv
  simp only [Option.some.injEq] at hv
  subst hv
  exact insertCases_challenge _ _ _ r hr

theorem seedOneChallenge_sample_cases (db : Store) (ch : seedChallenge) :
    (seedOneChallenge db ch).2.sample_cases =
      applyUpdate db.sample_cases (caseUpdate seedSamples ch) := by
  unfold seedOneChallenge caseUpdate
  by_cases hn : TrimSpace ch.Name = []
  · simp [hn, applyUpdate]
  · by_cases hd : TrimSpace ch.Description = []
    · simp [hn, hd, applyUpdate]
    · simp [hn, hd, applyUpdate]

theorem seedOneChallenge_judge_cases (db : Store) (ch : seedChallenge) :
    (seedOneChallenge db ch).2.judge_cases =
      applyUpdate db.judge_cases (caseUpdate seedJudges ch) := by
  unfold seedOneChallenge caseUpdate
  by_cases hn : TrimSpace ch.Name = []
  · simp [hn, applyUpdate]
  · by_cases hd : TrimSpace ch.Description = []
    · simp [hn, hd, applyUpdate]
    · simp [hn, hd, applyUpdate]

theorem seedEach_sample_cases : ∀ (items : List seedChallenge) (db : Store),
    (seedEach items db).sample_cases =
      (items.map (caseUpdate seedSamples)).foldl applyUpdate db.sample_cases
  | [], db => rfl
  | ch :: rest, db => by
    have ih := seedEach_sample_cases rest (seedOneChallenge db ch).2
    unfold seedEach at ih ⊢
    rw [List.foldl_cons, ih, seedOneChallenge_sample_cases, List.map_cons, List.foldl_cons]

theorem seedEach_judge_cases : ∀ (items : List seedChallenge) (db : Store),
    (seedEach items db).judge_cases =
      (items.map (caseUpdate seedJudges)).foldl applyUpdate db.judge_cases
  | [], db => rfl
  | ch :: rest, db => by
    have ih := seedEach_judge_cases rest (seedOneChallenge db ch).2
    unfold seedEach at ih ⊢
    rw [List.foldl_cons, ih, seedOneChallenge_judge_cases, List.map_cons, List.foldl_cons]

/-- A sequence of replacements keeps the rows of the challenges it does not name and puts
behind them rows that depend on the replacements only. -/
theorem foldl_applyUpdate : ∀ (us : List (Option (GoString × List caseRow))) (t : List caseRow),
    us.foldl applyUpdate t =
      t.filter (fun r => decide (r.challenge ∉ updateNames us)) ++ us.foldl applyUpdate []
  | [], t => by simp [updateNames]
  | none :: us, t => by
    have ih := foldl_applyUpdate us t
    simpa [applyUpdate, updateNames] using ih
  | some u :: us, t => by
    rw [List.foldl_cons, foldl_applyUpdate us (applyUpdate t (some u)), List.foldl_cons,
      foldl_applyUpdate us (applyUpdate [] (some u))]
    simp only [applyUpdate, deleteCases, List.filter_append, List.filter_filter, List.filter_nil,
      List.nil_append, List.append_assoc, updateNames, List.filterMap_cons, Option.map_some']
    congr 1
    apply List.filter_congr
    intro r _
    by_cases h1 : r.challenge = u.1 <;>
      by_cases h2 : r.challenge ∈ List.filterMap (fun u => Option.map Prod.fst u) us <;>
      simp [h1, h2]

theorem foldl_applyUpdate_mem : ∀ (us : List (Option (GoString × List caseRow)))
    (t : List caseRow), (∀ u ∈ us, UpdateOK u) →
    ∀ r ∈ us.foldl applyUpdate t, r ∈ t ∨ r.challenge ∈ updateNames us
  | [], t, _ => by
    intro r hr
    exact Or.inl hr
  | none :: us, t, hok => by
    intro r hr
    have := foldl_applyUpdate_mem us t (fun u hu => hok u (List.mem_cons_of_mem _ hu)) r
      (by simpa [applyUpdate] using hr)
    simpa [updateNames] using this
  | some u :: us, t, hok => by
    intro r hr
    rw [List.foldl_cons] at hr
    rcases foldl_applyUpdate_mem us _ (fun u hu => hok u (List.mem_cons_of_mem _ hu)) r hr
      with h1 | h1
    · simp only [applyUpdate, deleteCases, List.mem_append, List.mem_filter] at h1
      rcases h1 with h1 | h1
      · exact Or.inl h1.1
      · right
        have := hok (some u) (List.mem_cons_self _ _) u rfl r h1
        simp [updateNames, this]
    · right
      simp only [updateNames, List.filterMap_cons, Option.map_some', List.mem_cons]
      exact Or.inr h1

/-- Applying a sequence of replacements a second time changes nothing. -/
theorem foldl_applyUpdate_twice (us : List (Option (GoString × List caseRow)))
    (t : List caseRow) (hok : ∀ u ∈ us, UpdateOK u) :
    us.foldl applyUpdate (us.foldl applyUpdate t) = us.foldl applyUpdate t := by
  rw [foldl_applyUpdate us (us.foldl applyUpdate t)]
  nth_rewrite 1 [foldl_applyUpdate us t]
  rw [List.filter_append, List.filter_filter]
  have h0 : (us.foldl applyUpdate []).filter
      (fun r => decide (r.challenge ∉ updateNames us)) = [] := by
    rw [List.filter_eq_nil_iff]
    intro r hr
    rcases foldl_applyUpdate_mem us [] hok r hr with h1 | h1
    · simp at h1
    · simp [h1]
  rw [h0, List.append_nil]
  rw [foldl_applyUpdate us t]
  congr 1
  apply List.filter_congr
  intro r _
  simp

theorem seedLoop_error_iff : ∀ (items : List seedChallenge) (db : Store),
    (seedLoop items db).1 = none ↔ ∀ ch ∈ items, (caseUpdate seedSamples ch).isSome
  | [], db => by simp [seedLoop]
  | ch :: rest, db => by
    unfold seedLoop
    have h1 : (seedOneChallenge db ch).1 = none ↔ (caseUpdate seedSamples ch).isSome := by
      unfold seedOneChallenge caseUpdate
      by_cases hn : TrimSpace ch.Name = []
      · simp [hn]
      · by_cases hd : TrimSpace ch.Description = []
        · simp [hn, hd]
        · simp [hn, hd]
    cases hs : (seedOneChallenge db ch).1 with
    | some e =>
      simp only [List.mem_cons, forall_eq_or_imp]
      rw [hs] at h1
      simp at h1
      simp [h1]
    | none =>
      simp only [List.mem_cons, forall_eq_or_imp]
      rw [seedLoop_error_iff rest]
      rw [hs] at h1
      simp [h1.1 rfl]

theorem seedLoop_ok : ∀ (items : List seedChallenge) (db : Store),
    (seedLoop items db).1 = none → (seedLoop items db).2 = seedEach items db
  | [], db, _ => rfl
  | ch :: rest, db, h => by
    unfold seedLoop at h ⊢
    cases hs : (seedOneChallenge db ch).1 with
    | some e => rw [hs] at h; simp at h
    | none =>
      rw [hs] at h
      simp only at h ⊢
      rw [seedLoop_ok rest _ h]
      rfl

/-- Claim C24.  Seeding is idempotent on the case tables: for every list of seeds and every
state of the database, applying `seedOneChallenge` to each seed a second time leaves
`sample_cases` and `judge_cases` as the first pass left them, and so does a second call of
`seedInitialChallenges`. -/
theorem seeding_twice_same_cases (items : List seedChallenge) (db : Store) :
    (seedEach items (seedEach items db)).sample_cases = (seedEach items db).sample_cases ∧
    (seedEach items (seedEach items db)).judge_cases = (seedEach items db).judge_cases ∧
    (seedInitialChallenges items (seedInitialChallenges items db).2).2.sample_cases =
      (seedInitialChallenges items db).2.sample_cases ∧
    (seedInitialChallenges items (seedInitialChallenges items db).2).2.judge_cases =
      (seedInitialChallenges items db).2.judge_cases := by
  have hs : (seedEach items (seedEach items db)).sample_cases =
      (seedEach items db).sample_cases := by
    rw [seedEach_sample_cases items (seedEach items db), seedEach_sample_cases items db]
    exact foldl_applyUpdate_twice _ _
      (fun u hu => by
        obtain ⟨ch, _, rfl⟩ := List.mem_map.1 hu
        exact caseUpdate_ok _ ch)
  have hj : (seedEach items (seedEach items db)).judge_cases =
      (seedEach items db).judge_cases := by
    rw [seedEach_judge_cases items (seedEach items db), seedEach_judge_cases items db]
    exact foldl_applyUpdate_twice _ _
      (fun u hu => by
        obtain ⟨ch, _, rfl⟩ := List.mem_map.1 hu
        exact caseUpdate_ok _ ch)
  refine ⟨hs, hj, ?_⟩
  unfold seedInitialChallenges
  cases h1 : (seedLoop items db).1 with
  | some e => simp only [h1, and_self]
  | none =>
    have h2 : (seedLoop items (seedLoop items db).2).1 = none :=
      (seedLoop_error_iff items _).2 ((seedLoop_error_iff items db).1 h1)
    simp only [h2]
    rw [seedLoop_ok items _ h2, seedLoop_ok items db h1]
    exact ⟨hs, hj⟩


/-! ## C25: a parent mount comes before the mounts below it -/

theorem lt_append_of_ne_nil : ∀ (p r : GoString), r ≠ [] → p < p ++ r
  | [], [], h => absurd rfl h
  | [], _ :: _, _ => List.Lex.nil
  | _ :: p, r, h => List.Lex.cons (lt_append_of_ne_nil p r h)

theorem ParentPath.lt (p q : GoString) (h : ParentPath p q) : p < q := by
  obtain ⟨hne, hpre⟩ := h
  have hp : p <+: q := by
    rcases hpre with h1 | ⟨_, h1⟩
    · unfold HasPrefix at h1
      exact (List.prefix_append p (str "/")).trans (List.isPrefixOf_iff_prefix.1 h1)
    · unfold HasPrefix at h1
      exact List.isPrefixOf_iff_prefix.1 h1
  obtain ⟨r, rfl⟩ := hp
  refine lt_append_of_ne_nil p r ?_
  rintro rfl
  exact hne (List.append_nil p).symm

/-- Claim C25.  In the output of `dedupeAndSortMounts`, a mount whose target is a proper
path prefix of the target of another mount stands before that mount; and the loop of
`RunInChroot` over the mounts emits their bind flags in the order of the list, so the flag
of a parent directory precedes the flags of everything mounted below it. -/
theorem parent_mount_before_child (ms : List bindMount) (i j : Nat)
    (hi : i < (dedupeAndSortMounts ms).length) (hj : j < (dedupeAndSortMounts ms).length)
    (hp : ParentPath ((dedupeAndSortMounts ms).get ⟨i, hi⟩).target
      ((dedupeAndSortMounts ms).get ⟨j, hj⟩).target) :
    i < j ∧
    ∀ (root : GoString) (acc : List GoString),
      mountFlagsLoop root (dedupeAndSortMounts ms) acc =
        acc ++ (dedupeAndSortMounts ms).flatMap
          (fun m => [if m.readOnly then str "--bindmount_ro" else str "--bindmount",
                     m.host ++ str ":" ++ mountDest root m.target]) := by
  refine ⟨?_, fun root acc => mountFlagsLoop_eq root _ acc⟩
  have hlt := ParentPath.lt _ _ hp
  by_contra hij
  have hji : j ≤ i := not_lt.1 hij
  rcases Nat.lt_or_eq_of_le hji with hlt2 | heq
  · have hs := (dedupeAndSortMounts_sorted ms).rel_get_of_lt
      (show (⟨j, hj⟩ : Fin (dedupeAndSortMounts ms).length) < ⟨i, hi⟩ from hlt2)
    rw [mountLess_eq_false_iff] at hs
    unfold mountRank at hs
    rw [Prod.Lex.le_iff] at hs
    rcases hs with h1 | ⟨h1, _⟩
    · exact lt_asymm hlt h1
    · simp only [ofLex_toLex] at h1
      rw [h1] at hlt
      exact lt_irrefl _ hlt
  · subst heq
    exact lt_irrefl _ hlt

theorem parent_mount_before_child_witness :
    (dedupeAndSortMounts nestedMounts).map (fun m => m.target) =
      [str "/", str "/r/env", str "/r/env/dev/null", str "/r/env/usr"] ∧
    ParentPath (str "/r/env") (str "/r/env/dev/null") ∧ 1 < 2 :=
  ⟨by decide, by decide,
   (parent_mount_before_child nestedMounts 1 2 (by decide) (by decide) (by decide)).1⟩


/-! ## C26: the CPU seconds of a run -/

/-- C26 (code defect): with a per-test exec limit of 1000 ms and a global timeout of 500 ms,
which `RUNNER_GLOBAL_TIMEOUT_MS=500` sets, `executeCTwoStage` and `buildGoRunLimits` keep the
value `ceil(1000/1000) + 1 = 2`, because they clamp only by a global limit of at least one
whole second, while `execute` clamps without that guard and derives 0 CPU seconds. -/
theorem execute_run_cpu_is_zero_below_one_second :
    envPos shortGlobalHost "RUNNER_GLOBAL_TIMEOUT_MS" 5000 = 500 ∧
    envPos shortGlobalHost "RUN_LIMIT_CPU_SEC" 7 = 7 ∧
    (runLimits shortGlobalHost (executeRunCpu defaultTimeLimitMs 500) 65536).CPUSeconds = 0 ∧
    (runLimits shortGlobalHost (cTwoStageRunCpu defaultTimeLimitMs 500) 65536).CPUSeconds = 2 ∧
    (gohelper.buildGoRunLimits shortGlobalHost gohelper.defaultExecTimeLimitMs 500
      65536).CPUSeconds = 2 := by
  decide


/-! ## C27: quoting for the shell -/

theorem scan_append : ∀ (a b : GoString) (st : ScanState),
    scan st (a ++ b) = (scan st a).bind (fun s => scan s b)
  | [], b, st => by simp [scan]
  | c :: a, b, st => by
    simp only [List.cons_append, scan]
    cases scanStep st c with
    | none => rfl
    | some st1 => exact scan_append a b st1

theorem shellQuote_eq (s : GoString) :
    shellQuote s = 39 :: (s.flatMap (fun c => if c = 39 then [39, 92, 39, 39] else [c]) ++ [39]) := by
  have h1 : str "''" = [39, 39] := by decide
  have h2 : str "'" = [39] := by decide
  have h3 : str "'\\''" = [39, 92, 39, 39] := by decide
  unfold shellQuote
  rw [h1, h2, h3]
  split_ifs with h
  · subst h; rfl
  · rfl

/-- Inside single quotes, the text `shellQuote` writes for `s` adds exactly `s` to the word:
a quote is written as close-quote, escaped quote, open-quote. -/
theorem scan_quoted_body (toks : List ShellToken) : ∀ (s acc : GoString),
    scan { toks := toks, cur := some acc, bare := false, mode := ScanMode.quoted }
        (s.flatMap (fun c => if c = 39 then [39, 92, 39, 39] else [c])) =
      some { toks := toks, cur := some (acc ++ s), bare := false, mode := ScanMode.quoted }
  | [], acc => by simp [scan]
  | c :: s, acc => by
    rw [List.flatMap_cons, scan_append]
    have h1 : scan { toks := toks, cur := some acc, bare := false, mode := ScanMode.quoted }
        (if c = 39 then [39, 92, 39, 39] else [c]) =
        some { toks := toks, cur := some (acc ++ [c]), bare := false,
               mode := ScanMode.quoted } := by
      by_cases hc : c = 39
      · subst hc
        simp [scan, scanStep, stepUnquoted]
      · simp [scan, scanStep, hc]
    rw [h1, Option.some_bind, scan_quoted_body toks s (acc ++ [c])]
    simp

/-- Outside quotes, the text `shellQuote s` adds exactly `s` to the word under construction
and leaves the scanner outside quotes. -/
theorem scan_shellQuote (toks : List ShellToken) (cur : Option GoString) (bare : Bool)
    (s : GoString) :
    scan { toks := toks, cur := cur, bare := bare, mode := ScanMode.unquoted } (shellQuote s) =
      some { toks := toks, cur := some (cur.getD [] ++ s), bare := false,
             mode := ScanMode.unquoted } := by
  rw [shellQuote_eq]
  simp only [scan, scanStep, stepUnquoted, if_true]
  rw [scan_append, scan_quoted_body]
  simp [scan, scanStep]

theorem joinShellArgs_cons_cons (a b : GoString) (rest : List GoString) :
    joinShellArgs (a :: b :: rest) = shellQuote a ++ 32 :: joinShellArgs (b :: rest) := by
  have h : str " " = [32] := by decide
  unfold joinShellArgs
  rw [h]
  simp [List.intercalate, List.intersperse]

theorem joinShellArgs_single (a : GoString) : joinShellArgs [a] = shellQuote a := by
  unfold joinShellArgs
  simp [List.intercalate, List.intersperse]

/-- From the start of a word, the text `joinShellArgs argv` is scanned as the words of
`argv`, the last of them still open. -/
theorem scan_joinShellArgs : ∀ (argv : List GoString) (toks : List ShellToken),
    ∃ st, scan { toks := toks, cur := none, bare := true, mode := ScanMode.unquoted }
        (joinShellArgs argv) = some st ∧ st.mode = ScanMode.unquoted ∧
      flushWord st = { toks := toks ++ argv.map ShellToken.word, cur := none, bare := true,
                       mode := ScanMode.unquoted }
  | [], toks => ⟨_, rfl, rfl, by simp [flushWord]⟩
  | [a], toks => by
    refine ⟨_, by rw [joinShellArgs_single, scan_shellQuote], rfl, ?_⟩
    simp [flushWord]
  | a :: b :: rest, toks => by
    obtain ⟨st, h1, h2, h3⟩ := scan_joinShellArgs (b :: rest) (toks ++ [ShellToken.word a])
    refine ⟨st, ?_, h2, ?_⟩
    · rw [joinShellArgs_cons_cons, scan_append, scan_shellQuote, Option.some_bind]
      simp only [scan, scanStep, stepUnquoted, flushWord]
      simpa using h1
    · rw [h3]
      simp

theorem scan_blank (st : ScanState) (rest : GoString) (hm : st.mode = ScanMode.unquoted) :
    scan st (32 :: rest) = scan (flushWord st) rest := by
  have h : scanStep st 32 = some (flushWord st) := by
    obtain ⟨toks, cur, bare, mode⟩ := st
    simp only at hm
    subst hm
    cases cur <;> simp [scanStep, stepUnquoted, flushWord]
  simp only [scan, h]

theorem scan_rm_f :
    scan {} [114, 109, 32, 45, 102, 32] =
      some ⟨[ShellToken.word [114, 109], ShellToken.word [45, 102]], none, true,
        ScanMode.unquoted⟩ := rfl

theorem scan_and_exec (toks : List ShellToken) (w : GoString) :
    scan ⟨toks, some w, false, ScanMode.unquoted⟩ [32, 38, 38, 32, 101, 120, 101, 99, 32] =
      some ⟨toks ++ [ShellToken.word w] ++ [ShellToken.andIf] ++
        [ShellToken.word [101, 120, 101, 99]], none, true, ScanMode.unquoted⟩ := rfl

theorem scan_redirect_out (toks : List ShellToken) :
    scan ⟨toks, none, true, ScanMode.unquoted⟩ [62, 32] =
      some ⟨toks ++ [ShellToken.redirectOut 1], none, true, ScanMode.unquoted⟩ := rfl

theorem scan_redirect_err (toks : List ShellToken) (w : GoString) :
    scan ⟨toks, some w, false, ScanMode.unquoted⟩ [32, 50, 62, 32] =
      some ⟨toks ++ [ShellToken.word w] ++ [ShellToken.redirectOut 2], none, true,
        ScanMode.unquoted⟩ := rfl

/-- Claim C27.  The text `shellQuote s` is one word of the shell, equal to `s`; the text
`joinShellArgs argv` is the words of `argv`, in order; and the command of
`buildCaptureCommand` is `rm -f` with the two capture paths, then `&&`, then `exec` followed
by exactly the words of `argv`, with standard output and standard error redirected to the
capture paths. -/
theorem shell_quote_is_injection_safe (s : GoString) (argv : List GoString)
    (stdoutPath stderrPath : GoString) :
    shellTokens (shellQuote s) = some [ShellToken.word s] ∧
    shellTokens (joinShellArgs argv) = some (argv.map ShellToken.word) ∧
    shellTokens (buildCaptureCommand argv stdoutPath stderrPath) =
      some ([ShellToken.word (str "rm"), ShellToken.word (str "-f"),
             ShellToken.word stdoutPath, ShellToken.word stderrPath, ShellToken.andIf,
             ShellToken.word (str "exec")] ++ argv.map ShellToken.word ++
            [ShellToken.redirectOut 1, ShellToken.word stdoutPath,
             ShellToken.redirectOut 2, ShellToken.word stderrPath]) := by
  have h0 : ({} : ScanState) = ⟨[], none, true, ScanMode.unquoted⟩ := rfl
  refine ⟨?_, ?_, ?_⟩
  · unfold shellTokens
    have h := scan_shellQuote [] none true s
    simp only [Option.getD_none, List.nil_append] at h
    rw [h0, h]
    rfl
  · unfold shellTokens
    obtain ⟨st, h1, h2, h3⟩ := scan_joinShellArgs argv []
    rw [h0, h1]
    simp only [h2, h3, List.nil_append]
  · have e1 : str "rm -f " = [114, 109, 32, 45, 102, 32] := by decide
    have e2 : str " " = [32] := by decide
    have e3 : str " && exec " = [32, 38, 38, 32, 101, 120, 101, 99, 32] := by decide
    have e4 : str " > " = [32, 62, 32] := by decide
    have e5 : str " 2> " = [32, 50, 62, 32] := by decide
    have e6 : str "rm" = [114, 109] := by decide
    have e7 : str "-f" = [45, 102] := by decide
    have e8 : str "exec" = [101, 120, 101, 99] := by decide
    unfold shellTokens buildCaptureCommand
    rw [e1, e2, e3, e4, e5, e6, e7, e8]
    obtain ⟨st, h1, h2, h3⟩ := scan_joinShellArgs argv
      ([ShellToken.word [114, 109], ShellToken.word [45, 102]] ++ [ShellToken.word stdoutPath] ++
        [ShellToken.word stderrPath] ++ [ShellToken.andIf] ++
        [ShellToken.word [101, 120, 101, 99]])
    have hscan : scan {}
        ([114, 109, 32, 45, 102, 32] ++ shellQuote stdoutPath ++ [32] ++ shellQuote stderrPath ++
          [32, 38, 38, 32, 101, 120, 101, 99, 32] ++ joinShellArgs argv ++ [32, 62, 32] ++
          shellQuote stdoutPath ++ [32, 50, 62, 32] ++ shellQuote stderrPath) =
        some ⟨[ShellToken.word [114, 109], ShellToken.word [45, 102],
                 ShellToken.word stdoutPath, ShellToken.word stderrPath, ShellToken.andIf,
                 ShellToken.word [101, 120, 101, 99]] ++ argv.map ShellToken.word ++
                 [ShellToken.redirectOut 1, ShellToken.word stdoutPath,
                  ShellToken.redirectOut 2], some stderrPath, false, ScanMode.unquoted⟩ := by
      simp only [List.append_assoc]
      rw [scan_append, scan_rm_f, Option.some_bind, scan_append, scan_shellQuote,
        Option.some_bind, List.singleton_append, scan_blank _ _ rfl]
      simp only [flushWord, Option.getD_none, List.nil_append]
      rw [scan_append, scan_shellQuote, Option.some_bind, scan_append, scan_and_exec,
        Option.some_bind, scan_append]
      simp only [Option.getD_none, List.nil_append]
      rw [h1, Option.some_bind]
      rw [show ([32, 62, 32] : GoString) = 32 :: [62, 32] from rfl, List.cons_append,
        scan_blank st _ h2, h3, scan_append, scan_redirect_out, Option.some_bind, scan_append,
        scan_shellQuote, Option.some_bind, scan_append, scan_redirect_err, Option.some_bind,
        scan_shellQuote]
      simp
    rw [hscan]
    simp [flushWord]


/-! ## C28: the sensitive file and the process that runs the tests -/

set_option maxRecDepth 100000 in
/-- C28 (code defect): a Python submission with the sandbox variant `nsjail_only` is run
against its test without the chroot helper, in the single run-root `execute` prepares with
the default options.  That run-root has a read-only mount of `/flag2` at its own `/flag2`,
which lies inside the run-root, the root of the test process; with the helper the root would
be the `/env` of the run-root, which does not contain it. -/
theorem nsjail_only_python_run_sees_flag :
    (execute okHost nsjailOnlyRequest {}).2.trace.filterMap runModeOf =
      [(RunKind.test 0, str "/tmp/sandbox-runroots/runroot-0", false)] ∧
    (execute okHost nsjailOnlyRequest {}).1.Result = str "Success" ∧
    (PrepareRunRoot okHost (str "python") {}).1.toOption.map
        (fun rr => (rr.Root, processRoot rr false, processRoot rr true,
          rr.mounts.filter (fun m => decide (m.host = str "/flag2")))) =
      some (str "/tmp/sandbox-runroots/runroot-0", str "/tmp/sandbox-runroots/runroot-0",
        str "/tmp/sandbox-runroots/runroot-0/env",
        [{ host := str "/flag2", target := str "/tmp/sandbox-runroots/runroot-0/flag2",
           readOnly := true }]) ∧
    InsideView (str "/tmp/sandbox-runroots/runroot-0")
      (str "/tmp/sandbox-runroots/runroot-0/flag2") ∧
    ¬ InsideView (str "/tmp/sandbox-runroots/runroot-0/env")
      (str "/tmp/sandbox-runroots/runroot-0/flag2") := by
  decide


/-! ## C29: the command line of the chroot-entry helper -/

theorem nsjailArgs_helper (h : Host) (rr : RunRoot) (workdir : GoString)
    (argv : List GoString) (configPath : GoString) :
    ∃ pre, nsjailArgs h rr workdir argv true configPath =
      pre ++ str "--" :: commandTail rr workdir argv true := by
  unfold nsjailArgs commandTail
  simp only [if_true, Bool.true_eq_false, false_and, if_false, List.append_assoc,
    List.singleton_append]
  exact ⟨_, rfl⟩

/-- The helper on a command line with the separator in fourth place and a command behind
it: the argument checks pass, and only a failing system call keeps it from the command. -/
theorem chrootRunMain_accepts (fault : Nat → Bool) (prog newroot workdir cmd : GoString)
    (rest : List GoString) :
    chrootRunMain fault (prog :: newroot :: workdir :: str "--" :: cmd :: rest) =
      HelperEnd.exit 101 ∨
    chrootRunMain fault (prog :: newroot :: workdir :: str "--" :: cmd :: rest) =
      HelperEnd.exit 102 ∨
    chrootRunMain fault (prog :: newroot :: workdir :: str "--" :: cmd :: rest) =
      HelperEnd.exit 103 ∨
    chrootRunMain fault (prog :: newroot :: workdir :: str "--" :: cmd :: rest) =
      HelperEnd.exit 104 ∨
    chrootRunMain fault (prog :: newroot :: workdir :: str "--" :: cmd :: rest) =
      HelperEnd.exit 127 ∨
    ∃ cwd, chrootRunMain fault (prog :: newroot :: workdir :: str "--" :: cmd :: rest) =
      HelperEnd.exec newroot cwd cmd (cmd :: rest) := by
  unfold chrootRunMain
  have h5 : ¬ (prog :: newroot :: workdir :: str "--" :: cmd :: rest).length < 5 := by
    simp
  have h3 : ¬ (3 ≥ (prog :: newroot :: workdir :: str "--" :: cmd :: rest).length) := by
    simp
  rw [if_neg h5]
  simp only [List.getD_cons_succ, List.getD_cons_zero, ne_eq, not_true_eq_false, and_false,
    if_false, if_neg h3, List.drop_succ_cons, List.drop_zero]
  generalize Clean (if workdir = [] then str "/" else workdir) = X
  generalize (if X = str "." then str "/" else X) = Y
  generalize (if HasPrefix Y (str "/") = false then str "/" ++ Y else Y) = W
  generalize TrimPrefix W (str "/") = R
  by_cases f0 : fault 0 = true
  · rw [if_pos f0]; exact Or.inl rfl
  · rw [if_neg f0]
    by_cases f1 : ¬R = [] ∧ fault 1 = true
    · rw [if_pos f1]; exact Or.inr (Or.inl rfl)
    · rw [if_neg f1]
      by_cases f2 : fault 2 = true
      · rw [if_pos f2]; exact Or.inr (Or.inr (Or.inl rfl))
      · rw [if_neg f2]
        by_cases f3 : R = [] ∧ fault 3 = true
        · rw [if_pos f3]; exact Or.inr (Or.inr (Or.inr (Or.inl rfl)))
        · rw [if_neg f3]
          by_cases f4 : fault 4 = true
          · rw [if_pos f4]; exact Or.inr (Or.inr (Or.inr (Or.inr (Or.inl rfl))))
          · rw [if_neg f4]; exact Or.inr (Or.inr (Or.inr (Or.inr (Or.inr ⟨_, rfl⟩))))

theorem chrootRunMain_no_fault (prog newroot workdir cmd : GoString) (rest : List GoString) :
    ∃ cwd, chrootRunMain (fun _ => false)
        (prog :: newroot :: workdir :: str "--" :: cmd :: rest) =
      HelperEnd.exec newroot cwd cmd (cmd :: rest) := by
  unfold chrootRunMain
  have h5 : ¬ (prog :: newroot :: workdir :: str "--" :: cmd :: rest).length < 5 := by
    simp
  have h3 : ¬ (3 ≥ (prog :: newroot :: workdir :: str "--" :: cmd :: rest).length) := by
    simp
  rw [if_neg h5]
  simp only [List.getD_cons_succ, List.getD_cons_zero, ne_eq, not_true_eq_false, and_false,
    if_false, if_neg h3, List.drop_succ_cons, List.drop_zero, Bool.false_eq_true]
  generalize Clean (if workdir = [] then str "/" else workdir) = X
  generalize (if X = str "." then str "/" else X) = Y
  generalize (if HasPrefix Y (str "/") = false then str "/" ++ Y else Y) = W
  exact ⟨_, rfl⟩

/-- Claim C29.  For every run-root and every non-empty `argv`, what `RunInChroot` puts
behind the separator of nsjail when the chroot helper is used is a command line the helper
accepts: at least five words with `--` in fourth place.  On it the helper never exits with
97, 98 or 100; whenever it reaches `syscall.Exec`, the command is `argv[0]` and the argument
vector is `argv`; and it reaches it when no system call fails. -/
theorem helper_command_line_is_accepted (h : Host) (rr : RunRoot) (workdir : GoString)
    (argv : List GoString) (configPath : GoString) (fault : Nat → Bool) (hargv : argv ≠ []) :
    (∃ pre, nsjailArgs h rr workdir argv true configPath =
      pre ++ str "--" :: commandTail rr workdir argv true) ∧
    5 ≤ (commandTail rr workdir argv true).length ∧
    (commandTail rr workdir argv true).getD 3 [] = str "--" ∧
    chrootRunMain fault (commandTail rr workdir argv true) ≠ HelperEnd.exit 97 ∧
    chrootRunMain fault (commandTail rr workdir argv true) ≠ HelperEnd.exit 98 ∧
    chrootRunMain fault (commandTail rr workdir argv true) ≠ HelperEnd.exit 100 ∧
    (∀ newroot cwd cmd args,
      chrootRunMain fault (commandTail rr workdir argv true) =
        HelperEnd.exec newroot cwd cmd args → some cmd = argv.head? ∧ args = argv) ∧
    ∃ cwd, chrootRunMain (fun _ => false) (commandTail rr workdir argv true) =
      HelperEnd.exec (if rr.WorkDir = [] then str "/" else rr.WorkDir) cwd (argv.headD []) argv := by
  obtain ⟨cmd, rest, rfl⟩ := List.exists_cons_of_ne_nil hargv
  have ht : commandTail rr workdir (cmd :: rest) true =
      (if rr.ChrootBin = [] then chrootRunPath else rr.ChrootBin) ::
        (if rr.WorkDir = [] then str "/" else rr.WorkDir) :: innerWorkdirOf rr workdir ::
        str "--" :: cmd :: rest := by
    unfold commandTail
    simp
  refine ⟨nsjailArgs_helper h rr workdir _ configPath, ?_⟩
  rw [ht]
  have hacc := chrootRunMain_accepts fault
    (if rr.ChrootBin = [] then chrootRunPath else rr.ChrootBin)
    (if rr.WorkDir = [] then str "/" else rr.WorkDir) (innerWorkdirOf rr workdir) cmd rest
  refine ⟨by simp, rfl, ?_, ?_, ?_, ?_, chrootRunMain_no_fault _ _ _ cmd rest⟩
  · rcases hacc with h1 | h1 | h1 | h1 | h1 | ⟨cwd, h1⟩ <;> rw [h1] <;> simp
  · rcases hacc with h1 | h1 | h1 | h1 | h1 | ⟨cwd, h1⟩ <;> rw [h1] <;> simp
  · rcases hacc with h1 | h1 | h1 | h1 | h1 | ⟨cwd, h1⟩ <;> rw [h1] <;> simp
  · intro newroot cwd0 c a he
    rcases hacc with h1 | h1 | h1 | h1 | h1 | ⟨cwd, h1⟩ <;> rw [h1] at he <;>
      first
      | exact HelperEnd.noConfusion he
      | (injection he with _ _ h3 h4; subst h3; subst h4; exact ⟨rfl, rfl⟩)

theorem helper_command_line_witness :
    [str "/bin/sh", str "-c", str "true"] ≠ [] ∧
    5 ≤ (commandTail cRunRootExample (str "/workspace")
      [str "/bin/sh", str "-c", str "true"] true).length ∧
    chrootRunMain (fun _ => false) (commandTail cRunRootExample (str "/workspace")
      [str "/bin/sh", str "-c", str "true"] true) ≠ HelperEnd.exit 100 :=
  ⟨by decide,
   (helper_command_line_is_accepted okHost cRunRootExample (str "/workspace")
      [str "/bin/sh", str "-c", str "true"] (str "/tmp/nsjail.cfg") (fun _ => false)
      (by decide)).2.1,
   (helper_command_line_is_accepted okHost cRunRootExample (str "/workspace")
      [str "/bin/sh", str "-c", str "true"] (str "/tmp/nsjail.cfg") (fun _ => false)
      (by decide)).2.2.2.2.2.1⟩



/-! ## C30: what `dedupeAndSortMounts` drops -/

theorem append_arrow_inj (h1 h2 t1 t2 : GoString) (n2 : ¬ ([45, 62] <:+: h2))
    (a : GoString) (hh : h2 = h1 ++ a) (ht : [45, 62] ++ t1 = a ++ ([45, 62] ++ t2)) :
    h1 = h2 ∧ t1 = t2 := by
  match a, hh, ht with
  | [], hh, ht =>
    simp only [List.append_nil] at hh
    simp only [List.nil_append] at ht
    exact ⟨hh.symm, List.append_cancel_left ht⟩
  | [x], hh, ht =>
    simp only [List.cons_append, List.nil_append, List.cons.injEq] at ht
    omega
  | x :: y :: r, hh, ht =>
    simp only [List.cons_append, List.nil_append, List.cons.injEq] at ht
    obtain ⟨hx, hy, _⟩ := ht
    subst hx; subst hy
    exact absurd ⟨h1, r, by rw [hh]; simp⟩ n2

theorem mountKey_inj (a b : bindMount) (na : ¬ (str "->" <:+: a.host))
    (nb : ¬ (str "->" <:+: b.host)) (hk : mountKey a = mountKey b) :
    a.host = b.host ∧ a.target = b.target := by
  have hs : str "->" = [45, 62] := by decide
  unfold mountKey at hk
  rw [hs] at hk na nb
  rw [List.append_assoc, List.append_assoc, List.append_eq_append_iff] at hk
  rcases hk with ⟨a1, hh, ht⟩ | ⟨c1, hh, ht⟩
  · exact append_arrow_inj a.host b.host a.target b.target nb a1 hh ht
  · have := append_arrow_inj b.host a.host b.target a.target na c1 hh ht
    exact ⟨this.1.symm, this.2.symm⟩

theorem mountKey_of_pair (a b : bindMount) (h : mountPair a = mountPair b) :
    mountKey a = mountKey b := by
  unfold mountPair at h
  simp only [Prod.mk.injEq] at h
  unfold mountKey
  rw [h.1, h.2]

/-- Claim C30, amended.  For a list of bind mounts in which no host path contains the text
`->`, `dedupeAndSortMounts` drops only repeats of a (host, target) pair: every pair of the
input occurs in the output, and the output has exactly as many entries as the input has
distinct pairs. -/
theorem dedupe_keeps_every_pair (ms : List bindMount) (hfree : ArrowFreeHosts ms) :
    (∀ m ∈ ms, ∃ m1 ∈ dedupeAndSortMounts ms, m1.host = m.host ∧ m1.target = m.target) ∧
    (dedupeAndSortMounts ms).length = ((ms.map mountPair).dedup).length := by
  have hsub : ∀ m ∈ dedupeMounts [] ms, m ∈ ms := dedupeMounts_mem ms []
  have hall : ∀ m ∈ ms, ∃ m1 ∈ dedupeMounts [] ms, m1.host = m.host ∧ m1.target = m.target := by
    intro m hm
    rcases dedupeMounts_first ms [] m hm with h0 | ⟨m1, hm1, hk⟩
    · simp at h0
    · exact ⟨m1, hm1, mountKey_inj m1 m (hfree m1 (hsub m1 hm1)) (hfree m hm) hk⟩
  refine ⟨fun m hm => ?_, ?_⟩
  · obtain ⟨m1, hm1, h⟩ := hall m hm
    exact ⟨m1, (dedupeAndSortMounts_mem ms m1).2 hm1, h⟩
  · have hlen : (dedupeAndSortMounts ms).length = (dedupeMounts [] ms).length := by
      unfold dedupeAndSortMounts
      exact (List.perm_insertionSort _ _).length_eq
    have hnd : ((dedupeMounts [] ms).map mountPair).Nodup := by
      unfold List.Nodup
      rw [List.pairwise_map]
      exact (dedupeMounts_keys ms []).1.imp (fun {a b} hne hp => hne (mountKey_of_pair a b hp))
    have hperm : ((dedupeMounts [] ms).map mountPair).Perm ((ms.map mountPair).dedup) := by
      rw [List.perm_ext_iff_of_nodup hnd (List.nodup_dedup _)]
      intro p
      rw [List.mem_dedup, List.mem_map, List.mem_map]
      constructor
      · rintro ⟨m, hm, rfl⟩
        exact ⟨m, hsub m hm, rfl⟩
      · rintro ⟨m, hm, rfl⟩
        obtain ⟨m1, hm1, h1, h2⟩ := hall m hm
        exact ⟨m1, hm1, by unfold mountPair; rw [h1, h2]⟩
    rw [hlen, ← hperm.length_eq, List.length_map]

theorem dedupe_keeps_every_pair_witness :
    ArrowFreeHosts nestedMounts ∧
    (dedupeAndSortMounts nestedMounts).length = ((nestedMounts.map mountPair).dedup).length :=
  ⟨by decide, (dedupe_keeps_every_pair nestedMounts (by decide)).2⟩

/-- C30, as stated, fails: two mounts with different hosts and targets whose keys
`host + "->" + target` are the same text; `dedupeAndSortMounts` keeps the first and drops the
second, so the input has two distinct (host, target) pairs and the output one entry. -/
theorem dedupe_drops_mount_with_colliding_key :
    mountKey { host := str "/a", target := str "/b->/c", readOnly := true } =
      mountKey { host := str "/a->/b", target := str "/c", readOnly := true } ∧
    dedupeAndSortMounts collidingMounts =
      [{ host := str "/a", target := str "/b->/c", readOnly := true }] ∧
    ((collidingMounts.map mountPair).dedup).length = 2 ∧
    ¬ ∀ m ∈ collidingMounts,
        ∃ m1 ∈ dedupeAndSortMounts collidingMounts, m1.host = m.host ∧ m1.target = m.target := by
  decide


end TakeMeOut
